import Mathlib

/-!
# ACTS track propagation core: stepper, line surface, tracking geometry

A shallow embedding of

* `Core/include/ACTS/Propagator/StraightLineStepper.hpp`
* `Core/src/Surfaces/LineSurface.cpp`
* `Core/src/Detector/TrackingGeometry.cpp`
* `Core/include/Acts/Propagator/AbortList.hpp`

The scalar type `double` is a type parameter `K`.  Each definition asks only
for the operations the embedded function uses, so that the statements proved
from `+` and `*` alone hold for every interpretation of these operations.
The statements about the control flow are proved for a linearly ordered
field, where the square root is a parameter.  The functions whose results
depend on rounding are embedded a second time over `Binary64`, the arithmetic
of `double` with its rounding (namespace `Double`); the statements that hold
in exact arithmetic only are kept as lemmas and say so.
-/

namespace Acts

/-! ## Vector primitives (Eigen `Vector3D`, `Vector2D`) -/

/-- Three scalars: Eigen's `Vector3D`. -/
@[ext]
structure Vector3D (K : Type) where
  x : K
  y : K
  z : K
deriving DecidableEq

/-- Two scalars: Eigen's `Vector2D`; `loc0` is index `eLOC_R`, `loc1` is index `eLOC_Z`. -/
@[ext]
structure Vector2D (K : Type) where
  loc0 : K
  loc1 : K
deriving DecidableEq

namespace Vector3D

variable {K : Type}

/-- Componentwise sum, `a + b`. -/
def add [Add K] (a b : Vector3D K) : Vector3D K :=
  ⟨a.x + b.x, a.y + b.y, a.z + b.z⟩

/-- Componentwise difference, `a - b`. -/
def sub [Sub K] (a b : Vector3D K) : Vector3D K :=
  ⟨a.x - b.x, a.y - b.y, a.z - b.z⟩

/-- Scalar multiple, `s * a`. -/
def smul [Mul K] (s : K) (a : Vector3D K) : Vector3D K :=
  ⟨s * a.x, s * a.y, s * a.z⟩

/-- Quotient by a scalar, `a / s`. -/
def divScalar [Div K] (a : Vector3D K) (s : K) : Vector3D K :=
  ⟨a.x / s, a.y / s, a.z / s⟩

/-- Scalar product, `a.dot(b)`. -/
def dot [Add K] [Mul K] (a b : Vector3D K) : K :=
  a.x * b.x + a.y * b.y + a.z * b.z

/-- Vector product, `a.cross(b)`. -/
def cross [Sub K] [Mul K] (a b : Vector3D K) : Vector3D K :=
  ⟨a.y * b.z - a.z * b.y, a.z * b.x - a.x * b.z, a.x * b.y - a.y * b.x⟩

/-- Euclidean length `a.norm()`, through the square root `sqrt`. -/
def norm [Add K] [Mul K] (sqrt : K → K) (a : Vector3D K) : K :=
  sqrt (dot a a)

/-- Unit vector `a.normalized()` (also `a.unit()`): `a / a.norm()`. -/
def normalized [Add K] [Mul K] [Div K] (sqrt : K → K) (a : Vector3D K) : Vector3D K :=
  divScalar a (norm sqrt a)

/-- Transverse length `a.perp()`: the length of the projection on the x-y plane. -/
def perp [Add K] [Mul K] (sqrt : K → K) (a : Vector3D K) : K :=
  sqrt (a.x * a.x + a.y * a.y)

instance [Add K] : Add (Vector3D K) := ⟨add⟩

instance [Sub K] : Sub (Vector3D K) := ⟨sub⟩

end Vector3D

/-! ## StraightLineStepper -/

/-- Modelled from the spec: the enumeration `NavigationDirection` of
`Definitions.hpp` (not among the sources), a sign encoded as `+1` or `-1`. -/
inductive NavigationDirection where
  | backward
  | forward
deriving DecidableEq

/-- Integer value of a navigation direction. -/
def NavigationDirection.toInt : NavigationDirection → Int
  | .backward => -1
  | .forward => 1

/-- Interface of `detail::ConstrainedStep` (its header is not among the
sources), as far as the stepper uses it: construction from a `double` and
the conversion to `double` that yields the effective step size. -/
structure ConstrainedStepOps (K cstep : Type) where
  /-- Constructor call `cstep(value)`. -/
  ofDouble : K → cstep
  /-- Conversion `operator double()`. -/
  toDouble : cstep → K

/-- Mutable record `StraightLineStepper::State`. -/
structure State (K cstep : Type) where
  pos : Vector3D K
  dir : Vector3D K
  qop : K
  navDir : NavigationDirection
  accumulatedPath : K
  stepSize : cstep

/-- Modelled from the spec: the input track parameters of the `State`
constructor, any type that exposes `position()`, `momentum()` and `charge()`. -/
structure TrackParameters (K : Type) where
  position : Vector3D K
  momentum : Vector3D K
  charge : K

/-- Modelled from the spec: `CurvilinearParameters` (not among the
sources), as the record of the arguments its constructor receives after the
null covariance pointer: position, momentum and charge. -/
@[ext]
structure CurvilinearParameters (K : Type) where
  position : Vector3D K
  momentum : Vector3D K
  charge : K

/-- Modelled from the spec: `BoundParameters` (not among the sources), as
the record of the arguments its constructor receives after the null
covariance pointer: position, momentum, charge and the surface (of type `S`)
the parameters are bound to. -/
@[ext]
structure BoundParameters (K S : Type) where
  position : Vector3D K
  momentum : Vector3D K
  charge : K
  surface : S

/-- Constructor `State(par, ndir, ssize)`. -/
def State.init {K cstep : Type} [LinearOrderedField K] (ops : ConstrainedStepOps K cstep)
    (sqrt : K → K) (par : TrackParameters K) (ndir : NavigationDirection) (ssize : K) :
    State K cstep where
  pos := par.position
  dir := Vector3D.normalized sqrt par.momentum
  qop := par.charge / Vector3D.norm sqrt par.momentum
  navDir := ndir
  accumulatedPath := 0
  stepSize := ops.ofDouble ((ndir.toInt : K) * ssize)

/-- Accessor `State::momentum()`. -/
def State.momentum {K cstep : Type} [LinearOrderedField K] (state : State K cstep) :
    Vector3D K :=
  Vector3D.smul (1 / state.qop) state.dir

/-- Method `StraightLineStepper::convert(State&)`. -/
def convert {K cstep : Type} [LinearOrderedField K] (state : State K cstep) :
    CurvilinearParameters K :=
  let charge : K := if state.qop > 0 then 1 else -1
  ⟨state.pos, Vector3D.divScalar state.dir |state.qop|, charge⟩

/-- Method `StraightLineStepper::convert(State&)` with the state it is
called on: the returned parameters and the state after the call; the body
makes no assignment to the state it receives by reference. -/
def convertWithState {K cstep : Type} [LinearOrderedField K] (state : State K cstep) :
    CurvilinearParameters K × State K cstep :=
  let charge : K := if state.qop > 0 then 1 else -1
  (⟨state.pos, Vector3D.divScalar state.dir |state.qop|, charge⟩, state)

/-- Method `StraightLineStepper::convert(State&, const S&)`, the conversion to
parameters at a surface. -/
def convertBound {K cstep S : Type} [LinearOrderedField K] (state : State K cstep)
    (surface : S) : BoundParameters K S :=
  let charge : K := if state.qop > 0 then 1 else -1
  ⟨state.pos, Vector3D.divScalar state.dir |state.qop|, charge, surface⟩

/-- Method `StraightLineStepper::step`: the returned step size and the state
after the call. -/
def step {K cstep : Type} [Add K] [Mul K] (ops : ConstrainedStepOps K cstep)
    (state : State K cstep) : K × State K cstep :=
  let h := ops.toDouble state.stepSize
  let state1 := { state with pos := state.pos + Vector3D.smul h state.dir }
  let state2 := { state1 with accumulatedPath := state1.accumulatedPath + h }
  (h, state2)

/-- Constructor call `State(par)` with the default arguments of the
declaration: the navigation direction `forward` and the step-size guess
`std::numeric_limits<double>::max()`. -/
def State.initDefault {K cstep : Type} [LinearOrderedField K]
    (ops : ConstrainedStepOps K cstep) (sqrt : K → K) (par : TrackParameters K) :
    State K cstep :=
  State.init ops sqrt par NavigationDirection.forward (2 ^ 1024 - 2 ^ 971)

/-- The state after `n` successive calls of `step`. -/
def stepN {K cstep : Type} [Add K] [Mul K] (ops : ConstrainedStepOps K cstep) :
    Nat → State K cstep → State K cstep
  | 0, state => state
  | n + 1, state => stepN ops n (step ops state).2


/-! ## Placement transforms (Eigen `Transform3D`) -/

/-- Affine map of space, Eigen's `Transform3D`: the images `col0`, `col1`,
`col2` of the three local axes (the columns of the linear part) and the
translation. -/
@[ext]
structure Transform3D (K : Type) where
  col0 : Vector3D K
  col1 : Vector3D K
  col2 : Vector3D K
  translation : Vector3D K
deriving DecidableEq

namespace Transform3D

variable {K : Type}

/-- The identity transform (`s_idTransform`). -/
def identity [Zero K] [One K] : Transform3D K :=
  ⟨⟨1, 0, 0⟩, ⟨0, 1, 0⟩, ⟨0, 0, 1⟩, ⟨0, 0, 0⟩⟩

/-- Product `t * v` of a transform and a point: linear part, then translation. -/
def apply [Add K] [Mul K] (t : Transform3D K) (v : Vector3D K) : Vector3D K :=
  ⟨t.col0.x * v.x + t.col1.x * v.y + t.col2.x * v.z + t.translation.x,
   t.col0.y * v.x + t.col1.y * v.y + t.col2.y * v.z + t.translation.y,
   t.col0.z * v.x + t.col1.z * v.y + t.col2.z * v.z + t.translation.z⟩

/-- Determinant of the linear part. -/
def det [Add K] [Sub K] [Mul K] (t : Transform3D K) : K :=
  Vector3D.dot t.col0 (Vector3D.cross t.col1 t.col2)

/-- Inverse transform `t.inverse()`: the linear part is inverted by the
cofactor formula (the rows of the inverse are the cross products of the
columns over the determinant), the translation becomes `-(L⁻¹ * translation)`. -/
def inverse [Add K] [Sub K] [Mul K] [Div K] [Neg K] (t : Transform3D K) : Transform3D K :=
  let d := det t
  let r0 := Vector3D.divScalar (Vector3D.cross t.col1 t.col2) d
  let r1 := Vector3D.divScalar (Vector3D.cross t.col2 t.col0) d
  let r2 := Vector3D.divScalar (Vector3D.cross t.col0 t.col1) d
  ⟨⟨r0.x, r1.x, r2.x⟩, ⟨r0.y, r1.y, r2.y⟩, ⟨r0.z, r1.z, r2.z⟩,
   ⟨-(Vector3D.dot r0 t.translation), -(Vector3D.dot r1 t.translation),
    -(Vector3D.dot r2 t.translation)⟩⟩

end Transform3D

/-- A rigid placement (a rotation followed by a translation): the first two
columns are orthogonal unit vectors and the third is their vector product. -/
def Transform3D.IsRigid {K : Type} [LinearOrderedField K] (t : Transform3D K) : Prop :=
  Vector3D.dot t.col0 t.col0 = 1 ∧ Vector3D.dot t.col1 t.col1 = 1 ∧
    Vector3D.dot t.col0 t.col1 = 0 ∧ t.col2 = Vector3D.cross t.col0 t.col1

instance {K : Type} [LinearOrderedField K] (t : Transform3D K) :
    Decidable (Transform3D.IsRigid t) := by
  unfold Transform3D.IsRigid
  infer_instance

/-- The square root `sqrt` is exact at `x`: its value is the non-negative
number whose square is `x`. -/
def IsSqrtAt {K : Type} [LinearOrderedField K] (sqrt : K → K) (x : K) : Prop :=
  0 ≤ sqrt x ∧ sqrt x * sqrt x = x

instance {K : Type} [LinearOrderedField K] (sqrt : K → K) (x : K) :
    Decidable (IsSqrtAt sqrt x) := by
  unfold IsSqrtAt
  infer_instance

/-! ## LineSurface -/

/-- Modelled from the spec: the detector element a surface may refer to
(`DetectorElementBase`, not among the sources), as far as a surface uses it:
it supplies the placement transform of the surface. -/
structure DetectorElementBase (K : Type) where
  transform : Transform3D K

/-- Members of `Acts::LineSurface`: the optional own transform
(`m_transform`), the optional detector element (`m_associatedDetElement`)
and the optional bounds (`m_bounds`), of a bounds type `B`. -/
structure LineSurface (K B : Type) where
  m_transform : Option (Transform3D K)
  m_associatedDetElement : Option (DetectorElementBase K)
  m_bounds : Option B

/-- Result record `Acts::Intersection`. -/
@[ext]
structure Intersection (K : Type) where
  position : Vector3D K
  pathLength : K
  valid : Bool
deriving DecidableEq

/-- Rotation matrix `RotationMatrix3D`, by columns. -/
@[ext]
structure RotationMatrix3D (K : Type) where
  col0 : Vector3D K
  col1 : Vector3D K
  col2 : Vector3D K
deriving DecidableEq

/-- Determinant of a matrix given by its columns. -/
def RotationMatrix3D.det {K : Type} [Add K] [Sub K] [Mul K] (m : RotationMatrix3D K) : K :=
  Vector3D.dot m.col0 (Vector3D.cross m.col1 m.col2)

/-- Collaborators of `LineSurface` that are not among the sources, taken as
parameters: the square root, the boolean value of a `BoundaryCheck` (of type
`BC`) and the virtual `inside` of the bounds object that `bounds()` returns. -/
structure SurfaceOps (K B BC : Type) where
  /-- Library function `std::sqrt`. -/
  sqrt : K → K
  /-- Conversion `BoundaryCheck::operator bool()`: the check is enabled. -/
  enabled : BC → Bool
  /-- Call `bounds().inside(lpos, bcheck)`: on `some b` for the surface's own
  bounds `*m_bounds`, on `none` for the static `s_noBounds`. -/
  inside : Option B → Vector2D K → BC → Bool

/-- The largest finite `double`, `std::numeric_limits<double>::max()`,
which is `(2 - 2^(-52)) * 2^1023`. -/
def numericLimitsMax {K : Type} [LinearOrderedField K] : K :=
  2 ^ 1024 - 2 ^ 971

/-- The literal `10e-7` of `intersectionEstimate`, ten times `10^(-7)`. -/
def parallelTolerance {K : Type} [LinearOrderedField K] : K :=
  10 / 10 ^ 7

namespace LineSurface

variable {K B BC : Type} [LinearOrderedField K]

/-- Modelled from the spec: `Surface::transform()` (`Surface.hpp` is not
among the sources), the placement transform of the surface: its own
transform when it has one, else the transform of its detector element, else
the identity. -/
def transform (s : LineSurface K B) : Transform3D K :=
  match s.m_transform with
  | some t => t
  | none =>
    match s.m_associatedDetElement with
    | some d => d.transform
    | none => Transform3D.identity

/-- Modelled from the spec: `Surface::center()` (`Surface.hpp` is not among
the sources), the surface center: the translation of the placement. -/
def center (s : LineSurface K B) : Vector3D K :=
  (transform s).translation

/-- Modelled from the spec: `LineSurface::lineDirection()`
(`LineSurface.hpp` is not among the sources), the axis of the line: the
image of the local z axis under the placement. -/
def lineDirection (s : LineSurface K B) : Vector3D K :=
  (transform s).col2

/-- Method `LineSurface::localToGlobal`: the global position written to `gpos`. -/
def localToGlobal (ops : SurfaceOps K B BC) (s : LineSurface K B)
    (lpos : Vector2D K) (mom : Vector3D K) : Vector3D K :=
  let radiusAxisGlobal := Vector3D.cross (lineDirection s) mom
  let locZinGlobal : Vector3D K := ⟨0, 0, lpos.loc1⟩
  let locZinGlobal :=
    if s.m_transform.isSome || s.m_associatedDetElement.isSome then
      Transform3D.apply (transform s) locZinGlobal
    else locZinGlobal
  locZinGlobal + Vector3D.smul lpos.loc0 (Vector3D.normalized ops.sqrt radiusAxisGlobal)

/-- Method `LineSurface::globalToLocal`: the returned flag and the local
position written to `lpos`. -/
def globalToLocal (ops : SurfaceOps K B BC) (s : LineSurface K B)
    (gpos mom : Vector3D K) : Bool × Vector2D K :=
  let loc3Dframe :=
    if s.m_transform.isSome || s.m_associatedDetElement.isSome then
      Transform3D.apply (Transform3D.inverse (transform s)) gpos
    else gpos
  let lpos : Vector2D K := ⟨Vector3D.perp ops.sqrt loc3Dframe, loc3Dframe.z⟩
  let decVec := gpos - center s
  let sign : K :=
    if Vector3D.dot (Vector3D.cross (lineDirection s) mom) decVec < 0 then -1 else 1
  let lpos : Vector2D K := { lpos with loc0 := lpos.loc0 * sign }
  (true, lpos)

/-- Method `LineSurface::isOnSurface`. -/
def isOnSurface (ops : SurfaceOps K B BC) (s : LineSurface K B)
    (gpos : Vector3D K) (bcheck : BC) : Bool :=
  if !ops.enabled bcheck then true
  else if s.m_bounds.isNone && s.m_associatedDetElement.isNone then true
  else
    let loc3Dframe := Transform3D.apply (Transform3D.inverse (transform s)) gpos
    let locCand : Vector2D K := ⟨Vector3D.perp ops.sqrt loc3Dframe, loc3Dframe.z⟩
    ops.inside s.m_bounds locCand bcheck

/-- Method `LineSurface::referenceFrame`; the position argument is unnamed
and unused. -/
def referenceFrame (ops : SurfaceOps K B BC) (s : LineSurface K B)
    (_gpos mom : Vector3D K) : RotationMatrix3D K :=
  let measY := lineDirection s
  let measX := Vector3D.normalized ops.sqrt (Vector3D.cross measY mom)
  let measDepth := Vector3D.cross measX measY
  ⟨measX, measY, measDepth⟩

/-- Method `LineSurface::intersectionEstimate`. -/
def intersectionEstimate (ops : SurfaceOps K B BC) (s : LineSurface K B)
    (gpos gdir : Vector3D K) (forceDir : Bool) (bcheck : BC) : Intersection K :=
  let ma := gpos
  let ea := gdir
  let mb := center s
  let eb := lineDirection s
  let mab := mb - ma
  let eaTeb := Vector3D.dot ea eb
  let denom := 1 - eaTeb * eaTeb
  if |denom| > parallelTolerance then
    let lambda0 := (Vector3D.dot mab ea - Vector3D.dot mab eb * eaTeb) / denom
    let isValid := if forceDir then decide (lambda0 > 0) else true
    let result := ma + Vector3D.smul lambda0 ea
    let isValid :=
      if ops.enabled bcheck then (isValid && isOnSurface ops s result bcheck) else isValid
    ⟨result, lambda0, isValid⟩
  else ⟨gpos, numericLimitsMax, false⟩

/-- Method `LineSurface::pathCorrection`. -/
def pathCorrection (_s : LineSurface K B) (_gpos _mom : Vector3D K) : K := 1

end LineSurface

/-! ## TrackingGeometry -/

/-- Interface of `TrackingVolume` and of its boundary surfaces (their
sources are not among the files), taken as parameters.  Volumes, boundary
surfaces and layers are referred to by handles of types `V`, `BS` and `L`
(the pointers of the source; a null pointer is `none`); `D` is the type
`PropDirection`. -/
structure VolumeOps (K V BS L D : Type) where
  /-- Call `vol->trackingVolume(gp)`. -/
  trackingVolume : V → Vector3D K → Option V
  /-- Whether a point lies inside a volume; no function embedded here calls it. -/
  inside : V → Vector3D K → Bool
  /-- Test `(vol->confinedDetachedVolumes()).empty()`. -/
  confinedDetachedVolumesEmpty : V → Bool
  /-- Call `vol->boundarySurfaces()`, in iteration order. -/
  boundarySurfaces : V → List BS
  /-- Call `bSurface->surfaceRepresentation().isOnSurface(gp, bcheck)`. -/
  isOnSurface : BS → Vector3D K → Bool → Bool
  /-- Call `bSurface->attachedVolume(gp, mom, dir)`. -/
  attachedVolume : BS → Vector3D K → Vector3D K → D → Option V
  /-- Call `vol->associatedLayer(gp)`. -/
  associatedLayer : V → Vector3D K → Option L

/-- Members of `Acts::TrackingGeometry` that the queries read: the world
volume `m_world`. -/
structure TrackingGeometry (V : Type) where
  m_world : Option V

namespace TrackingGeometry

variable {K V BS L D : Type}

/-- The `while` loop of `lowestTrackingVolume`, from the values of
`searchVolume` and `currentVolume` at the loop test; `none` when the fuel
does not suffice to reach the end of the loop. -/
def lowestTrackingVolumeLoop [DecidableEq V] (ops : VolumeOps K V BS L D)
    (gp : Vector3D K) : Nat → Option V → Option V → Option (Option V)
  | 0, _, _ => none
  | fuel + 1, searchVolume, currentVolume =>
    match searchVolume with
    | none => some currentVolume
    | some sv =>
      if currentVolume ≠ some sv then
        lowestTrackingVolumeLoop ops gp fuel (ops.trackingVolume sv gp) (some sv)
      else some currentVolume

/-- Method `TrackingGeometry::lowestTrackingVolume`, with fuel for the loop. -/
def lowestTrackingVolume [DecidableEq V] (ops : VolumeOps K V BS L D)
    (geo : TrackingGeometry V) (fuel : Nat) (gp : Vector3D K) : Option (Option V) :=
  lowestTrackingVolumeLoop ops gp fuel geo.m_world none

/-- Method `TrackingGeometry::atVolumeBoundary(gp, vol, tol)`. -/
def atVolumeBoundary (ops : VolumeOps K V BS L D) (gp : Vector3D K)
    (vol : Option V) : Bool :=
  let isAtBoundary := false
  match vol with
  | none => isAtBoundary
  | some v =>
    (ops.boundarySurfaces v).foldl
      (fun isAtBoundary bSurface =>
        if ops.isOnSurface bSurface gp true then true else isAtBoundary)
      isAtBoundary

/-- Method `TrackingGeometry::atVolumeBoundary(gp, mom, vol, nextVol, dir, tol)`:
the returned flag and the final value of the reference `nextVol`. -/
def atVolumeBoundaryNext (ops : VolumeOps K V BS L D) (gp mom : Vector3D K)
    (vol : Option V) (dir : D) : Bool × Option V :=
  let isAtBoundary := false
  let nextVol : Option V := none
  match vol with
  | none => (isAtBoundary, nextVol)
  | some v =>
    (ops.boundarySurfaces v).foldl
      (fun (st : Bool × Option V) bSurface =>
        if ops.isOnSurface bSurface gp true then
          let attachedVol := ops.attachedVolume bSurface gp mom dir
          (true, if st.2.isNone && attachedVol.isSome then attachedVol else st.2)
        else st)
      (isAtBoundary, nextVol)

/-- The `while` loop of `lowestStaticTrackingVolume`, from the values of
`searchVolume` and `currentVolume` at the loop test; `none` when the fuel
does not suffice to reach the end of the loop. -/
def lowestStaticTrackingVolumeLoop [DecidableEq V] (ops : VolumeOps K V BS L D)
    (gp : Vector3D K) : Nat → Option V → Option V → Option (Option V)
  | 0, _, _ => none
  | fuel + 1, searchVolume, currentVolume =>
    match searchVolume with
    | none => some currentVolume
    | some sv =>
      if currentVolume ≠ some sv then
        lowestStaticTrackingVolumeLoop ops gp fuel
          (if ops.confinedDetachedVolumesEmpty sv then ops.trackingVolume sv gp else some sv)
          (some sv)
      else some currentVolume

/-- Method `TrackingGeometry::lowestStaticTrackingVolume`, with fuel for the loop. -/
def lowestStaticTrackingVolume [DecidableEq V] (ops : VolumeOps K V BS L D)
    (geo : TrackingGeometry V) (fuel : Nat) (gp : Vector3D K) : Option (Option V) :=
  lowestStaticTrackingVolumeLoop ops gp fuel geo.m_world none

/-- Outcome of an expression `p->f(...)`: the value of the call, or the
dereference of a null pointer `p`. -/
inductive Deref (α : Type) where
  | value (a : α)
  | nullDereference
deriving DecidableEq

/-- Method `TrackingGeometry::associatedLayer`, with fuel for the loop of
`lowestTrackingVolume`: the layer pointer that `lowestVol->associatedLayer(gp)`
yields, or the dereference of a null `lowestVol`. -/
def associatedLayer [DecidableEq V] (ops : VolumeOps K V BS L D)
    (geo : TrackingGeometry V) (fuel : Nat) (gp : Vector3D K) : Option (Deref (Option L)) :=
  match lowestTrackingVolume ops geo fuel gp with
  | none => none
  | some none => some Deref.nullDereference
  | some (some lowestVol) => some (Deref.value (ops.associatedLayer lowestVol gp))

/-- The descent chain in the words of the spec: `v 0` is the world volume
and `v (i + 1)` is `(v i).trackingVolume(gp)`; `none` once a null pointer
has been met. -/
def descentChain (ops : VolumeOps K V BS L D) (gp : Vector3D K) (w : V) :
    Nat → Option V
  | 0 => some w
  | i + 1 => (descentChain ops gp w i).bind (fun v => ops.trackingVolume v gp)

end TrackingGeometry

/-! ## AbortList -/

/-- Modelled from the spec: an abort condition, called with the result of an
action (read only) and the propagator and stepper states (by reference): it
yields a boolean and the states after the call, or fails with an error. -/
def AbortCondition (R P S E : Type) : Type :=
  R → P → S → Except E (Bool × P × S)

/-- Modelled from the spec: `detail::abort_list_impl<conditions...>::check`
(`abort_list_implementation.hpp` is not among the sources): the conditions
are evaluated in declaration order and the check returns true as soon as one
of them returns true; the conditions after it are not evaluated. -/
def abort_list_impl_check {R P S E : Type} :
    List (AbortCondition R P S E) → R → P → S → Except E (Bool × P × S)
  | [], _, propState, stepState => Except.ok (false, propState, stepState)
  | c :: cs, result, propState, stepState =>
    match c result propState stepState with
    | Except.error e => Except.error e
    | Except.ok (true, propState1, stepState1) => Except.ok (true, propState1, stepState1)
    | Except.ok (false, propState1, stepState1) =>
      abort_list_impl_check cs result propState1 stepState1

/-- Members of `Acts::AbortList<conditions...>`: the tuple of the conditions,
in declaration order. -/
structure AbortList (R P S E : Type) where
  tuple : List (AbortCondition R P S E)

/-- Call operator `AbortList::operator()(result, propState, stepState)`. -/
def AbortList.call {R P S E : Type} (l : AbortList R P S E) (result : R) (propState : P)
    (stepState : S) : Except E (Bool × P × S) :=
  abort_list_impl_check l.tuple result propState stepState

/-! ## Binary64: the arithmetic of `double`

The functions of the stepper and of the line surface whose results depend on
rounding are embedded a second time, over the machine type: the same bodies,
with every `+`, `-`, `*`, `/` and square root rounded once to the nearest
`double`, ties to even (the default rounding of IEEE 754; no fused
multiply-add and no extended precision). -/

/-- A value of the type `double` (IEEE 754 binary64): a finite number, kept
as the rational number it denotes (`finite 0` is the zero of positive sign),
the zero of negative sign, an infinity, or a NaN (the NaNs are one value). -/
inductive Binary64 where
  | finite (value : ℚ)
  | negZero
  | posInf
  | negInf
  | nan
deriving DecidableEq

namespace Binary64

/-- The rational number a finite `double` denotes (0 for the others). -/
def toRat : Binary64 → ℚ
  | finite q => q
  | _ => 0

/-- The sign bit of a `double`. -/
def signBit : Binary64 → Bool
  | finite q => decide (q < 0)
  | negZero => true
  | posInf => false
  | negInf => true
  | nan => false

/-- The value is a zero, of either sign. -/
def isZero : Binary64 → Bool
  | finite q => decide (q = 0)
  | negZero => true
  | _ => false

/-- The value is an infinity, of either sign. -/
def isInf : Binary64 → Bool
  | posInf => true
  | negInf => true
  | _ => false

/-- The zero of the given sign. -/
def zero (negative : Bool) : Binary64 :=
  if negative then negZero else finite 0

/-- The infinity of the given sign. -/
def infinity (negative : Bool) : Binary64 :=
  if negative then negInf else posInf

/-- Loop of `bitLength`: one turn per binary digit. -/
def bitLengthLoop : Nat → Nat → Nat
  | 0, _ => 0
  | fuel + 1, n => if n = 0 then 0 else bitLengthLoop fuel (n / 2) + 1

/-- Number of binary digits of `n`: the least `k` with `n < 2 ^ k`. -/
def bitLength (n : Nat) : Nat :=
  bitLengthLoop n n

/-- Binary exponent of a positive rational `q`: the integer `e` with
`2 ^ e ≤ q < 2 ^ (e + 1)`. -/
def ilog2 (q : ℚ) : Int :=
  let e : Int := (bitLength q.num.natAbs : Int) - (bitLength q.den : Int)
  if (2 : ℚ) ^ e ≤ q then e else e - 1

/-- The integer nearest to `x`; of two nearest integers, the even one. -/
def roundHalfEven (x : ℚ) : Int :=
  let n : Int := ⌊x⌋
  if x - n < 1 / 2 then n
  else if 1 / 2 < x - n then n + 1
  else if n % 2 = 0 then n else n + 1

/-- Rounding of an exact result `q` to `double`, to nearest, ties to even:
the nearest multiple of the unit in the last place, which is `2 ^ (e - 52)`
for a number of binary exponent `e` in the normal range and `2 ^ (-1074)`
below it; a result beyond the largest finite `double` becomes an infinity,
and a non-zero `q` that rounds to zero keeps its sign. -/
def round (q : ℚ) : Binary64 :=
  if q = 0 then finite 0
  else
    let e := max (ilog2 |q|) (-1022)
    let ulp : ℚ := 2 ^ (e - 52)
    let r : ℚ := roundHalfEven (q / ulp) * ulp
    if 2 ^ 1024 - 2 ^ 971 < |r| then infinity (decide (q < 0))
    else if r = 0 then zero (decide (q < 0))
    else finite r

/-- Loop of `isqrt`: the binary digits of the root, from the highest. -/
def isqrtLoop (n : Nat) : Nat → Nat → Nat
  | 0, r => r
  | k + 1, r =>
    if (r + 2 ^ k) * (r + 2 ^ k) ≤ n then isqrtLoop n k (r + 2 ^ k) else isqrtLoop n k r

/-- Integer square root: the largest `r` with `r * r ≤ n`. -/
def isqrt (n : Nat) : Nat :=
  isqrtLoop n (bitLength n / 2 + 1) 0

/-- Negation `-a`: the sign bit is flipped. -/
def neg : Binary64 → Binary64
  | finite a => if a = 0 then negZero else finite (-a)
  | negZero => finite 0
  | posInf => negInf
  | negInf => posInf
  | nan => nan

/-- Library function `std::abs` on `double`: the sign bit is cleared. -/
def abs : Binary64 → Binary64
  | finite a => finite |a|
  | negZero => finite 0
  | posInf => posInf
  | negInf => posInf
  | nan => nan

/-- Sum `a + b` of two `double`s: the exact sum, rounded; an exact sum 0 is
the zero of positive sign unless both terms are zeros of negative sign. -/
def add : Binary64 → Binary64 → Binary64
  | nan, _ => nan
  | _, nan => nan
  | posInf, negInf => nan
  | negInf, posInf => nan
  | posInf, _ => posInf
  | _, posInf => posInf
  | negInf, _ => negInf
  | _, negInf => negInf
  | negZero, negZero => negZero
  | a, b => round (a.toRat + b.toRat)

/-- Difference `a - b` of two `double`s, which is `a + (-b)`. -/
def sub (a b : Binary64) : Binary64 :=
  add a (neg b)

/-- Product `a * b` of two `double`s: the exact product, rounded; the sign of
a zero or infinite product is the product of the signs. -/
def mul : Binary64 → Binary64 → Binary64
  | nan, _ => nan
  | _, nan => nan
  | a, b =>
    if a.isInf || b.isInf then
      if a.isZero || b.isZero then nan else infinity (xor a.signBit b.signBit)
    else if a.isZero || b.isZero then zero (xor a.signBit b.signBit)
    else round (a.toRat * b.toRat)

/-- Quotient `a / b` of two `double`s: the exact quotient, rounded; the sign
of a zero or infinite quotient is the product of the signs. -/
def div : Binary64 → Binary64 → Binary64
  | nan, _ => nan
  | _, nan => nan
  | a, b =>
    if a.isInf then
      if b.isInf then nan else infinity (xor a.signBit b.signBit)
    else if b.isInf then zero (xor a.signBit b.signBit)
    else if b.isZero then
      if a.isZero then nan else infinity (xor a.signBit b.signBit)
    else if a.isZero then zero (xor a.signBit b.signBit)
    else round (a.toRat / b.toRat)

/-- Library function `std::sqrt` on `double`, correctly rounded: for `a > 0`
of binary exponent `2 e` or `2 e + 1` the root lies in `[2 ^ e, 2 ^ (e + 1))`,
and the result is the multiple of `2 ^ (e - 52)` nearest to it (ties to even);
the root of a negative number is a NaN, the root of a zero is that zero. -/
def sqrt : Binary64 → Binary64
  | finite a =>
    if a < 0 then nan
    else if a = 0 then finite 0
    else
      let e : Int := ilog2 a / 2
      let ulp : ℚ := 2 ^ (e - 52)
      let x : ℚ := a / (ulp * ulp)
      let n : Nat := isqrt ⌊x⌋.toNat
      let m : ℚ := 2 * n + 1
      let n : Nat :=
        if m * m < 4 * x then n + 1
        else if 4 * x < m * m then n
        else if n % 2 = 0 then n else n + 1
      round (n * ulp)
  | negZero => negZero
  | posInf => posInf
  | negInf => nan
  | nan => nan

/-- Conversion of an `int` to `double`. -/
def ofInt (n : Int) : Binary64 :=
  round n

/-- Comparison `a < b` of two `double`s: false when a NaN is compared; the
two zeros are equal. -/
def ltb : Binary64 → Binary64 → Bool
  | nan, _ => false
  | _, nan => false
  | posInf, _ => false
  | _, negInf => false
  | negInf, _ => true
  | _, posInf => true
  | a, b => decide (a.toRat < b.toRat)

/-- Comparison `a <= b` of two `double`s: false when a NaN is compared; the
two zeros are equal. -/
def leb : Binary64 → Binary64 → Bool
  | nan, _ => false
  | _, nan => false
  | negInf, _ => true
  | _, posInf => true
  | posInf, _ => false
  | _, negInf => false
  | a, b => decide (a.toRat ≤ b.toRat)

instance : Add Binary64 := ⟨add⟩

instance : Sub Binary64 := ⟨sub⟩

instance : Mul Binary64 := ⟨mul⟩

instance : Div Binary64 := ⟨div⟩

instance : Neg Binary64 := ⟨neg⟩

instance : Zero Binary64 := ⟨finite 0⟩

instance : One Binary64 := ⟨finite 1⟩

instance : LT Binary64 := ⟨fun a b => ltb a b = true⟩

instance : LE Binary64 := ⟨fun a b => leb a b = true⟩

instance (a b : Binary64) : Decidable (a < b) :=
  inferInstanceAs (Decidable (ltb a b = true))

instance (a b : Binary64) : Decidable (a ≤ b) :=
  inferInstanceAs (Decidable (leb a b = true))

end Binary64

/-- The vector of the rational numbers that three `double`s denote. -/
def Vector3D.toRat (v : Vector3D Binary64) : Vector3D ℚ :=
  ⟨v.x.toRat, v.y.toRat, v.z.toRat⟩

/-! ## The stepper and the line surface over `double` -/

namespace Double

/-- Constructor `State(par, ndir, ssize)` over `double`; `ndir * ssize`
converts the enumeration value to `double` first. -/
def State.init {cstep : Type} (ops : ConstrainedStepOps Binary64 cstep)
    (sqrt : Binary64 → Binary64) (par : TrackParameters Binary64)
    (ndir : NavigationDirection) (ssize : Binary64) : State Binary64 cstep where
  pos := par.position
  dir := Vector3D.normalized sqrt par.momentum
  qop := par.charge / Vector3D.norm sqrt par.momentum
  navDir := ndir
  accumulatedPath := 0
  stepSize := ops.ofDouble (Binary64.ofInt ndir.toInt * ssize)

/-- Method `StraightLineStepper::convert(State&)` over `double`. -/
def convert {cstep : Type} (state : State Binary64 cstep) : CurvilinearParameters Binary64 :=
  let charge : Binary64 := if state.qop > 0 then 1 else -1
  ⟨state.pos, Vector3D.divScalar state.dir (Binary64.abs state.qop), charge⟩

/-- Method `StraightLineStepper::convert(State&)` over `double` with the
state it is called on: the returned parameters and the state after the call. -/
def convertWithState {cstep : Type} (state : State Binary64 cstep) :
    CurvilinearParameters Binary64 × State Binary64 cstep :=
  let charge : Binary64 := if state.qop > 0 then 1 else -1
  (⟨state.pos, Vector3D.divScalar state.dir (Binary64.abs state.qop), charge⟩, state)

/-- The largest finite `double`, `std::numeric_limits<double>::max()`. -/
def numericLimitsMax : Binary64 :=
  Binary64.finite (2 ^ 1024 - 2 ^ 971)

/-- The literal `10e-7` of `intersectionEstimate`: the `double` nearest to
`10 * 10^(-7)`. -/
def parallelTolerance : Binary64 :=
  Binary64.round (10 / 10 ^ 7)

namespace LineSurface

variable {B BC : Type}

/-- Modelled from the spec: `Surface::transform()` over `double`: the own
transform of the surface when it has one, else the transform of its detector
element, else the identity. -/
def transform (s : LineSurface Binary64 B) : Transform3D Binary64 :=
  match s.m_transform with
  | some t => t
  | none =>
    match s.m_associatedDetElement with
    | some d => d.transform
    | none => Transform3D.identity

/-- Modelled from the spec: `Surface::center()` over `double`: the
translation of the placement. -/
def center (s : LineSurface Binary64 B) : Vector3D Binary64 :=
  (transform s).translation

/-- Modelled from the spec: `LineSurface::lineDirection()` over `double`:
the image of the local z axis under the placement. -/
def lineDirection (s : LineSurface Binary64 B) : Vector3D Binary64 :=
  (transform s).col2

/-- Method `LineSurface::localToGlobal` over `double`. -/
def localToGlobal (ops : SurfaceOps Binary64 B BC) (s : LineSurface Binary64 B)
    (lpos : Vector2D Binary64) (mom : Vector3D Binary64) : Vector3D Binary64 :=
  let radiusAxisGlobal := Vector3D.cross (lineDirection s) mom
  let locZinGlobal : Vector3D Binary64 := ⟨0, 0, lpos.loc1⟩
  let locZinGlobal :=
    if s.m_transform.isSome || s.m_associatedDetElement.isSome then
      Transform3D.apply (transform s) locZinGlobal
    else locZinGlobal
  locZinGlobal + Vector3D.smul lpos.loc0 (Vector3D.normalized ops.sqrt radiusAxisGlobal)

/-- Method `LineSurface::globalToLocal` over `double`. -/
def globalToLocal (ops : SurfaceOps Binary64 B BC) (s : LineSurface Binary64 B)
    (gpos mom : Vector3D Binary64) : Bool × Vector2D Binary64 :=
  let loc3Dframe :=
    if s.m_transform.isSome || s.m_associatedDetElement.isSome then
      Transform3D.apply (Transform3D.inverse (transform s)) gpos
    else gpos
  let lpos : Vector2D Binary64 := ⟨Vector3D.perp ops.sqrt loc3Dframe, loc3Dframe.z⟩
  let decVec := gpos - center s
  let sign : Binary64 :=
    if Vector3D.dot (Vector3D.cross (lineDirection s) mom) decVec < 0 then -1 else 1
  let lpos : Vector2D Binary64 := { lpos with loc0 := lpos.loc0 * sign }
  (true, lpos)

/-- Method `LineSurface::isOnSurface` over `double`. -/
def isOnSurface (ops : SurfaceOps Binary64 B BC) (s : LineSurface Binary64 B)
    (gpos : Vector3D Binary64) (bcheck : BC) : Bool :=
  if !ops.enabled bcheck then true
  else if s.m_bounds.isNone && s.m_associatedDetElement.isNone then true
  else
    let loc3Dframe := Transform3D.apply (Transform3D.inverse (transform s)) gpos
    let locCand : Vector2D Binary64 := ⟨Vector3D.perp ops.sqrt loc3Dframe, loc3Dframe.z⟩
    ops.inside s.m_bounds locCand bcheck

/-- Method `LineSurface::referenceFrame` over `double`. -/
def referenceFrame (ops : SurfaceOps Binary64 B BC) (s : LineSurface Binary64 B)
    (_gpos mom : Vector3D Binary64) : RotationMatrix3D Binary64 :=
  let measY := lineDirection s
  let measX := Vector3D.normalized ops.sqrt (Vector3D.cross measY mom)
  let measDepth := Vector3D.cross measX measY
  ⟨measX, measY, measDepth⟩

/-- Method `LineSurface::intersectionEstimate` over `double`. -/
def intersectionEstimate (ops : SurfaceOps Binary64 B BC) (s : LineSurface Binary64 B)
    (gpos gdir : Vector3D Binary64) (forceDir : Bool) (bcheck : BC) : Intersection Binary64 :=
  let ma := gpos
  let ea := gdir
  let mb := center s
  let eb := lineDirection s
  let mab := mb - ma
  let eaTeb := Vector3D.dot ea eb
  let denom := 1 - eaTeb * eaTeb
  if Binary64.abs denom > parallelTolerance then
    let lambda0 := (Vector3D.dot mab ea - Vector3D.dot mab eb * eaTeb) / denom
    let isValid := if forceDir then decide (lambda0 > 0) else true
    let result := ma + Vector3D.smul lambda0 ea
    let isValid :=
      if ops.enabled bcheck then (isValid && isOnSurface ops s result bcheck) else isValid
    ⟨result, lambda0, isValid⟩
  else ⟨gpos, numericLimitsMax, false⟩

end LineSurface

end Double

/-! ## Concrete geometry for the examples -/

/-- Modelled from the spec: `LineBounds` (not among the sources), the bounds
of a straw: a radius and a half-length along the axis. -/
structure LineBounds (K : Type) where
  radius : K
  halez : K

/-- Modelled from the spec: `LineBounds::inside` together with
`s_noBounds`: a local position is inside when the size of its radial
coordinate is at most the radius and the size of its axial coordinate at most
the half-length; the absent bounds contain every position. -/
def lineBoundsInside {K BC : Type} [LinearOrderedField K] :
    Option (LineBounds K) → Vector2D K → BC → Bool
  | none, _, _ => true
  | some b, lpos, _ => decide (|lpos.loc0| ≤ b.radius) && decide (|lpos.loc1| ≤ b.halez)

/-- Collaborators over the rationals: the square root is `Rat.sqrt` (exact
on squares of rationals), a `BoundaryCheck` is its boolean value. -/
def ratSurfaceOps : SurfaceOps ℚ (LineBounds ℚ) Bool :=
  ⟨Rat.sqrt, id, lineBoundsInside⟩

/-- The straw of the round-trip example: radius 10, half-length 100, axis
along z (identity placement, no detector element). -/
def exampleStraw : LineSurface ℚ (LineBounds ℚ) :=
  ⟨none, none, some ⟨10, 100⟩⟩

/-- A stepper state away from the straw: at `(50, 0, 0)`, moving along
`(0, 1, 0)`, with charge over momentum 1; the constrained step is its value. -/
def exampleOffSurfaceState : State ℚ ℚ :=
  ⟨⟨50, 0, 0⟩, ⟨0, 1, 0⟩, 1, NavigationDirection.forward, 0, 1⟩

/-- Modelled from the spec: the geometry of the navigator example: a world
volume `0`, whose extent is pinned to `-15 ≤ x ≤ 15`, with exactly one child
volume `1` spanning `0 ≤ x ≤ 10`; `trackingVolume` of the world is the child
when it encloses the point.  Where no child encloses the point,
`trackingVolume` is the volume itself when `selfAtLeaf` is set and null
otherwise (the two ways the spec lets the descent stop).  The child has two
boundary surfaces, `0` (the plane `x = 0`, with no volume attached) and `1`
(the plane `y = 0`, to which the world is attached). -/
def exampleVolumeOps (selfAtLeaf : Bool) : VolumeOps ℚ Nat Nat Nat Unit where
  trackingVolume := fun v gp =>
    if v = 0 ∧ 0 ≤ gp.x ∧ gp.x ≤ 10 then some 1
    else if selfAtLeaf then some v else none
  inside := fun v gp =>
    if v = 0 then decide (-15 ≤ gp.x ∧ gp.x ≤ 15) else decide (0 ≤ gp.x ∧ gp.x ≤ 10)
  confinedDetachedVolumesEmpty := fun _ => true
  boundarySurfaces := fun v => if v = 1 then [0, 1] else []
  isOnSurface := fun bs gp _ => if bs = 0 then decide (gp.x = 0) else decide (gp.y = 0)
  attachedVolume := fun bs _ _ _ => if bs = 0 then none else some 0
  associatedLayer := fun _ _ => none

/-- The tracking geometry of the navigator example: its world is volume `0`. -/
def exampleGeometry : TrackingGeometry Nat :=
  ⟨some 0⟩

/-- The example geometry with detached volumes confined in the world volume
`0` and none in its child. -/
def exampleDetachedVolumeOps : VolumeOps ℚ Nat Nat Nat Unit :=
  { exampleVolumeOps false with confinedDetachedVolumesEmpty := fun v => decide (v ≠ 0) }

/-- A tracking geometry built from a null world volume. -/
def exampleEmptyGeometry : TrackingGeometry Nat :=
  ⟨none⟩

/-- Constrained steps over the rationals: a step is its value. -/
def ratStepOps : ConstrainedStepOps ℚ ℚ :=
  ⟨id, id⟩

/-- Track parameters of a particle of charge `+1` at the origin with the
momentum `(3, 4, 0)`. -/
def examplePositiveParameters : TrackParameters ℚ :=
  ⟨⟨0, 0, 0⟩, ⟨3, 4, 0⟩, 1⟩

/-- Track parameters of a particle of charge `-1` at the origin with the
momentum `(1, 0, 0)`. -/
def exampleNegativeParameters : TrackParameters ℚ :=
  ⟨⟨0, 0, 0⟩, ⟨1, 0, 0⟩, -1⟩

/-- Track parameters of a neutral particle (charge `0`) at the origin with
the momentum `(1, 0, 0)`. -/
def exampleNeutralParameters : TrackParameters ℚ :=
  ⟨⟨0, 0, 0⟩, ⟨1, 0, 0⟩, 0⟩

/-- The abort conditions of the short-circuit example: the first returns
false, the second returns true, the third fails when it is evaluated. -/
def exampleAbortList : AbortList Unit Unit Unit String :=
  ⟨[fun _ p s => Except.ok (false, p, s), fun _ p s => Except.ok (true, p, s),
    fun _ _ _ => Except.error "evaluated"]⟩

/-- Modelled from the spec: `LineBounds::inside` together with `s_noBounds`,
over `double`. -/
def doubleLineBoundsInside {BC : Type} :
    Option (LineBounds Binary64) → Vector2D Binary64 → BC → Bool
  | none, _, _ => true
  | some b, lpos, _ =>
    decide (Binary64.abs lpos.loc0 ≤ b.radius) && decide (Binary64.abs lpos.loc1 ≤ b.halez)

/-- Collaborators over `double`: the square root is the correctly rounded
`Binary64.sqrt`, a `BoundaryCheck` is its boolean value. -/
def doubleSurfaceOps : SurfaceOps Binary64 (LineBounds Binary64) Bool :=
  ⟨Binary64.sqrt, id, doubleLineBoundsInside⟩

/-- The straw of the round-trip example over `double`: radius 10,
half-length 100, axis along z (identity placement, no detector element). -/
def doubleStraw : LineSurface Binary64 (LineBounds Binary64) :=
  ⟨none, none, some ⟨Binary64.finite 10, Binary64.finite 100⟩⟩

/-- The same straw placed with its center at `(1, 0, 0)`, axis along z. -/
def doubleShiftedStraw : LineSurface Binary64 (LineBounds Binary64) :=
  ⟨some ⟨⟨1, 0, 0⟩, ⟨0, 1, 0⟩, ⟨0, 0, 1⟩, ⟨1, 0, 0⟩⟩, none,
    some ⟨Binary64.finite 10, Binary64.finite 100⟩⟩

/-- Constrained steps over `double`: a step is its value. -/
def doubleStepOps : ConstrainedStepOps Binary64 Binary64 :=
  ⟨id, id⟩

/-- Track parameters over `double`: a particle at the origin with the
momentum `(px, py, pz)` and the charge `q`, all four of them integers. -/
def doubleParameters (px py pz q : Int) : TrackParameters Binary64 :=
  ⟨⟨0, 0, 0⟩, ⟨Binary64.ofInt px, Binary64.ofInt py, Binary64.ofInt pz⟩, Binary64.ofInt q⟩

/-- The vector of `double`s with the integer components `x`, `y`, `z`. -/
def doubleVector (x y z : Int) : Vector3D Binary64 :=
  ⟨Binary64.ofInt x, Binary64.ofInt y, Binary64.ofInt z⟩

/-! ## Theorems -/

/-! ### Components of the vector operations -/

namespace Vector3D

variable {K : Type}

theorem add_def [Add K] (a b : Vector3D K) :
    a + b = ⟨a.x + b.x, a.y + b.y, a.z + b.z⟩ := rfl

theorem sub_def [Sub K] (a b : Vector3D K) :
    a - b = ⟨a.x - b.x, a.y - b.y, a.z - b.z⟩ := rfl

/-- A sum of three squares is not negative. -/
theorem dot_self_nonneg [LinearOrderedField K] (a : Vector3D K) : 0 ≤ dot a a := by
  unfold dot
  nlinarith [mul_self_nonneg a.x, mul_self_nonneg a.y, mul_self_nonneg a.z]

end Vector3D

/-- C1: for every stepper state, with `h` the effective step size of the
state, `step` returns `h`, moves the position to `pos + h * dir` (in each
coordinate) and adds `h` to the accumulated path, whatever the sign of `h`. -/
theorem step_consumes_full_step {K cstep : Type} [Add K] [Mul K]
    (ops : ConstrainedStepOps K cstep) (state : State K cstep) :
    (step ops state).1 = ops.toDouble state.stepSize ∧
    (step ops state).2.pos
      = state.pos + Vector3D.smul (ops.toDouble state.stepSize) state.dir ∧
    (step ops state).2.pos.x
      = state.pos.x + ops.toDouble state.stepSize * state.dir.x ∧
    (step ops state).2.pos.y
      = state.pos.y + ops.toDouble state.stepSize * state.dir.y ∧
    (step ops state).2.pos.z
      = state.pos.z + ops.toDouble state.stepSize * state.dir.z ∧
    (step ops state).2.accumulatedPath
      = state.accumulatedPath + ops.toDouble state.stepSize :=
  ⟨rfl, rfl, rfl, rfl, rfl, rfl⟩

/-! ### LineSurface::intersectionEstimate -/

/-- C5: whenever `|1 - (gdir . axis)^2|` does not exceed the tolerance `10e-7`
(in particular for a ray parallel to the axis), `intersectionEstimate`
returns the invalid intersection whose position is `gpos` and whose path
length is the largest `double`, for every `forceDir` and boundary check. -/
theorem intersectionEstimate_degenerate {K B BC : Type} [LinearOrderedField K]
    (ops : SurfaceOps K B BC) (s : LineSurface K B) (gpos gdir : Vector3D K)
    (forceDir : Bool) (bcheck : BC)
    (hpar : |1 - Vector3D.dot gdir (LineSurface.lineDirection s)
              * Vector3D.dot gdir (LineSurface.lineDirection s)| ≤ 10 / 10 ^ 7) :
    LineSurface.intersectionEstimate ops s gpos gdir forceDir bcheck
      = ⟨gpos, 2 ^ 1024 - 2 ^ 971, false⟩ := by
  have hnot : ¬ (|1 - Vector3D.dot gdir (LineSurface.lineDirection s)
      * Vector3D.dot gdir (LineSurface.lineDirection s)| > (parallelTolerance : K)) := by
    unfold parallelTolerance
    exact not_lt.mpr hpar
  simp only [LineSurface.intersectionEstimate, if_neg hnot, numericLimitsMax]

/-- C5, at a concrete input: the straw with axis along z, a ray from
`(1, 2, 3)` along the axis. -/
theorem intersectionEstimate_degenerate_witness :
    |(1 : ℚ) - Vector3D.dot (⟨0, 0, 1⟩ : Vector3D ℚ) (LineSurface.lineDirection exampleStraw)
        * Vector3D.dot (⟨0, 0, 1⟩ : Vector3D ℚ) (LineSurface.lineDirection exampleStraw)|
      ≤ 10 / 10 ^ 7 ∧
    LineSurface.intersectionEstimate ratSurfaceOps exampleStraw ⟨1, 2, 3⟩ ⟨0, 0, 1⟩ true true
      = ⟨⟨1, 2, 3⟩, numericLimitsMax, false⟩ :=
  have h : |(1 : ℚ) - Vector3D.dot (⟨0, 0, 1⟩ : Vector3D ℚ)
        (LineSurface.lineDirection exampleStraw)
        * Vector3D.dot (⟨0, 0, 1⟩ : Vector3D ℚ) (LineSurface.lineDirection exampleStraw)|
      ≤ 10 / 10 ^ 7 := by
    norm_num [Vector3D.dot, LineSurface.lineDirection, LineSurface.transform, exampleStraw,
      Transform3D.identity]
  ⟨h, intersectionEstimate_degenerate ratSurfaceOps exampleStraw ⟨1, 2, 3⟩ ⟨0, 0, 1⟩
    true true h⟩

/-- C7: the intersection that `intersectionEstimate` returns is valid exactly
when the ray is not near-parallel to the axis, `forceDir` is unset or the
solved path length is positive, and the boundary check is disabled or the
result point `gpos + lambda0 * gdir` is on the surface. -/
theorem intersectionEstimate_valid_iff {K B BC : Type} [LinearOrderedField K]
    (ops : SurfaceOps K B BC) (s : LineSurface K B) (gpos gdir : Vector3D K)
    (forceDir : Bool) (bcheck : BC) :
    (LineSurface.intersectionEstimate ops s gpos gdir forceDir bcheck).valid = true ↔
      (|1 - Vector3D.dot gdir (LineSurface.lineDirection s)
            * Vector3D.dot gdir (LineSurface.lineDirection s)| > 10 / 10 ^ 7 ∧
       (forceDir = false ∨
          0 < (Vector3D.dot (LineSurface.center s - gpos) gdir
                - Vector3D.dot (LineSurface.center s - gpos) (LineSurface.lineDirection s)
                  * Vector3D.dot gdir (LineSurface.lineDirection s))
              / (1 - Vector3D.dot gdir (LineSurface.lineDirection s)
                  * Vector3D.dot gdir (LineSurface.lineDirection s))) ∧
       (ops.enabled bcheck = false ∨
          LineSurface.isOnSurface ops s
            (gpos + Vector3D.smul
              ((Vector3D.dot (LineSurface.center s - gpos) gdir
                - Vector3D.dot (LineSurface.center s - gpos) (LineSurface.lineDirection s)
                  * Vector3D.dot gdir (LineSurface.lineDirection s))
              / (1 - Vector3D.dot gdir (LineSurface.lineDirection s)
                  * Vector3D.dot gdir (LineSurface.lineDirection s))) gdir)
            bcheck = true)) := by
  unfold LineSurface.intersectionEstimate parallelTolerance
  by_cases hpar : |1 - Vector3D.dot gdir (LineSurface.lineDirection s)
      * Vector3D.dot gdir (LineSurface.lineDirection s)| > (10 / 10 ^ 7 : K)
  · simp only [if_pos hpar, hpar, true_and]
    cases forceDir <;> cases hb : ops.enabled bcheck <;> simp
  · simp [if_neg hpar, hpar]


/-- The foot of the common perpendicular: when `lam` solves the linear
equation of the closest approach for unit directions `ea` and `eb`, the
point `ma + lam * ea` and the point of the second line at the parameter
`mu = (ma + lam * ea - mb) . eb` differ by a vector orthogonal to both
directions. -/
theorem closest_approach_orthogonal {K : Type} [LinearOrderedField K]
    (ma mb ea eb : Vector3D K) (lam : K)
    (hea : Vector3D.dot ea ea = 1) (heb : Vector3D.dot eb eb = 1)
    (hlam : lam * (1 - Vector3D.dot ea eb * Vector3D.dot ea eb)
      = Vector3D.dot (mb - ma) ea - Vector3D.dot (mb - ma) eb * Vector3D.dot ea eb) :
    Vector3D.dot
        ((ma + Vector3D.smul lam ea)
          - (mb + Vector3D.smul (Vector3D.dot (ma + Vector3D.smul lam ea - mb) eb) eb)) ea = 0 ∧
    Vector3D.dot
        ((ma + Vector3D.smul lam ea)
          - (mb + Vector3D.smul (Vector3D.dot (ma + Vector3D.smul lam ea - mb) eb) eb)) eb = 0 := by
  simp only [Vector3D.dot, Vector3D.add_def, Vector3D.sub_def, Vector3D.smul] at hea heb hlam ⊢
  constructor
  · linear_combination lam * hea + hlam
  · linear_combination
      - ((ma.x + lam * ea.x - mb.x) * eb.x + (ma.y + lam * ea.y - mb.y) * eb.y
            + (ma.z + lam * ea.z - mb.z) * eb.z) * heb

/-- A point pair joined by a common perpendicular realises the least
distance between two lines: if `n = p - q` is orthogonal to the directions
`ea` and `eb`, every point of the line through `p` along `ea` is at least as
far from every point of the line through `q` along `eb`. -/
theorem common_perpendicular_minimal {K : Type} [LinearOrderedField K]
    (p q ea eb : Vector3D K)
    (h1 : Vector3D.dot (p - q) ea = 0) (h2 : Vector3D.dot (p - q) eb = 0) (a b : K) :
    Vector3D.dot (p - q) (p - q)
      ≤ Vector3D.dot ((p + Vector3D.smul a ea) - (q + Vector3D.smul b eb))
          ((p + Vector3D.smul a ea) - (q + Vector3D.smul b eb)) := by
  have hY := Vector3D.dot_self_nonneg (Vector3D.smul a ea - Vector3D.smul b eb)
  have e1 := congrArg (fun t => a * t) h1
  have e2 := congrArg (fun t => b * t) h2
  simp only [Vector3D.dot, Vector3D.add_def, Vector3D.sub_def, Vector3D.smul, mul_zero]
    at e1 e2 hY ⊢
  linarith [hY, e1, e2]


/-- In the branch where the ray is not near-parallel to the axis,
`intersectionEstimate` returns the solved path length and the point at that
path length along the ray. -/
theorem intersectionEstimate_regular {K B BC : Type} [LinearOrderedField K]
    (ops : SurfaceOps K B BC) (s : LineSurface K B) (gpos gdir : Vector3D K)
    (forceDir : Bool) (bcheck : BC)
    (hpar : |1 - Vector3D.dot gdir (LineSurface.lineDirection s)
              * Vector3D.dot gdir (LineSurface.lineDirection s)| > 10 / 10 ^ 7) :
    (LineSurface.intersectionEstimate ops s gpos gdir forceDir bcheck).pathLength
      = (Vector3D.dot (LineSurface.center s - gpos) gdir
          - Vector3D.dot (LineSurface.center s - gpos) (LineSurface.lineDirection s)
            * Vector3D.dot gdir (LineSurface.lineDirection s))
        / (1 - Vector3D.dot gdir (LineSurface.lineDirection s)
            * Vector3D.dot gdir (LineSurface.lineDirection s)) ∧
    (LineSurface.intersectionEstimate ops s gpos gdir forceDir bcheck).position
      = gpos + Vector3D.smul
          (LineSurface.intersectionEstimate ops s gpos gdir forceDir bcheck).pathLength gdir := by
  have hpar2 : |1 - Vector3D.dot gdir (LineSurface.lineDirection s)
      * Vector3D.dot gdir (LineSurface.lineDirection s)| > (parallelTolerance : K) := by
    unfold parallelTolerance
    exact hpar
  simp only [LineSurface.intersectionEstimate, if_pos hpar2, and_self]

/-- In exact arithmetic (a linearly ordered field, no rounding): for a unit
ray direction `gdir` and a unit axis `eb`, not near-parallel, `intersectionEstimate` returns the path length
`lambda0 = ((mb-gpos).gdir - ((mb-gpos).eb)(gdir.eb)) / (1 - (gdir.eb)^2)` and
the point `P = gpos + lambda0 * gdir`, and `P` is the point of closest
approach: there is a point `Q = mb + mu * eb` of the surface line with
`P - Q` orthogonal to `gdir` and to `eb`, and the distance from `P` to `Q` is
at most the distance between any point of the ray's line and any point of
the surface line. -/
theorem intersectionEstimate_closest_approach {K B BC : Type} [LinearOrderedField K]
    (ops : SurfaceOps K B BC) (s : LineSurface K B) (gpos gdir : Vector3D K)
    (forceDir : Bool) (bcheck : BC)
    (hea : Vector3D.dot gdir gdir = 1)
    (heb : Vector3D.dot (LineSurface.lineDirection s) (LineSurface.lineDirection s) = 1)
    (hpar : |1 - Vector3D.dot gdir (LineSurface.lineDirection s)
              * Vector3D.dot gdir (LineSurface.lineDirection s)| > 10 / 10 ^ 7) :
    (LineSurface.intersectionEstimate ops s gpos gdir forceDir bcheck).pathLength
      = (Vector3D.dot (LineSurface.center s - gpos) gdir
          - Vector3D.dot (LineSurface.center s - gpos) (LineSurface.lineDirection s)
            * Vector3D.dot gdir (LineSurface.lineDirection s))
        / (1 - Vector3D.dot gdir (LineSurface.lineDirection s)
            * Vector3D.dot gdir (LineSurface.lineDirection s)) ∧
    (LineSurface.intersectionEstimate ops s gpos gdir forceDir bcheck).position
      = gpos + Vector3D.smul
          (LineSurface.intersectionEstimate ops s gpos gdir forceDir bcheck).pathLength gdir ∧
    ∃ mu : K,
      Vector3D.dot
        ((LineSurface.intersectionEstimate ops s gpos gdir forceDir bcheck).position
          - (LineSurface.center s + Vector3D.smul mu (LineSurface.lineDirection s))) gdir = 0 ∧
      Vector3D.dot
        ((LineSurface.intersectionEstimate ops s gpos gdir forceDir bcheck).position
          - (LineSurface.center s + Vector3D.smul mu (LineSurface.lineDirection s)))
        (LineSurface.lineDirection s) = 0 ∧
      ∀ t u : K,
        Vector3D.dot
          ((LineSurface.intersectionEstimate ops s gpos gdir forceDir bcheck).position
            - (LineSurface.center s + Vector3D.smul mu (LineSurface.lineDirection s)))
          ((LineSurface.intersectionEstimate ops s gpos gdir forceDir bcheck).position
            - (LineSurface.center s + Vector3D.smul mu (LineSurface.lineDirection s)))
        ≤ Vector3D.dot
          ((gpos + Vector3D.smul t gdir)
            - (LineSurface.center s + Vector3D.smul u (LineSurface.lineDirection s)))
          ((gpos + Vector3D.smul t gdir)
            - (LineSurface.center s + Vector3D.smul u (LineSurface.lineDirection s))) := by
  obtain ⟨hlen, hposn⟩ := intersectionEstimate_regular ops s gpos gdir forceDir bcheck hpar
  refine ⟨hlen, hposn, ?_⟩
  generalize (LineSurface.intersectionEstimate ops s gpos gdir forceDir bcheck).pathLength
    = lam at hlen hposn
  generalize (LineSurface.intersectionEstimate ops s gpos gdir forceDir bcheck).position
    = P at hposn
  subst hposn
  have hden : (1 - Vector3D.dot gdir (LineSurface.lineDirection s)
      * Vector3D.dot gdir (LineSurface.lineDirection s)) ≠ 0 := by
    intro h0
    rw [h0, abs_zero] at hpar
    exact absurd hpar (not_lt.mpr (by positivity))
  have hlam : lam * (1 - Vector3D.dot gdir (LineSurface.lineDirection s)
        * Vector3D.dot gdir (LineSurface.lineDirection s))
      = Vector3D.dot (LineSurface.center s - gpos) gdir
        - Vector3D.dot (LineSurface.center s - gpos) (LineSurface.lineDirection s)
          * Vector3D.dot gdir (LineSurface.lineDirection s) := by
    rw [hlen]
    exact div_mul_cancel₀ _ hden
  obtain ⟨h1, h2⟩ := closest_approach_orthogonal gpos (LineSurface.center s) gdir
    (LineSurface.lineDirection s) lam hea heb hlam
  refine ⟨_, h1, h2, ?_⟩
  intro t u
  have hmin := common_perpendicular_minimal _ _ gdir (LineSurface.lineDirection s) h1 h2
    (t - lam)
    (u - Vector3D.dot (gpos + Vector3D.smul lam gdir - LineSurface.center s)
      (LineSurface.lineDirection s))
  have hX : gpos + Vector3D.smul lam gdir + Vector3D.smul (t - lam) gdir
      = gpos + Vector3D.smul t gdir := by
    simp only [Vector3D.add_def, Vector3D.smul]
    ext <;> simp only <;> ring
  have hY : LineSurface.center s
        + Vector3D.smul (Vector3D.dot (gpos + Vector3D.smul lam gdir - LineSurface.center s)
            (LineSurface.lineDirection s)) (LineSurface.lineDirection s)
        + Vector3D.smul (u - Vector3D.dot (gpos + Vector3D.smul lam gdir - LineSurface.center s)
            (LineSurface.lineDirection s)) (LineSurface.lineDirection s)
      = LineSurface.center s + Vector3D.smul u (LineSurface.lineDirection s) := by
    simp only [Vector3D.add_def, Vector3D.smul]
    ext <;> simp only <;> ring
  rw [hX, hY] at hmin
  exact hmin

/-- In exact arithmetic, at a concrete input: the straw with axis along z through the origin,
a ray from `(5, -3, 2)` along `(0, 1, 0)`; the point of closest approach
is `(5, 0, 2)`, at path length 3. -/
theorem intersectionEstimate_closest_approach_witness :
    (LineSurface.intersectionEstimate ratSurfaceOps exampleStraw
        ⟨5, -3, 2⟩ ⟨0, 1, 0⟩ true true).position = ⟨5, 0, 2⟩ ∧
    (LineSurface.intersectionEstimate ratSurfaceOps exampleStraw
        ⟨5, -3, 2⟩ ⟨0, 1, 0⟩ true true).pathLength = 3 ∧
    ∃ mu : ℚ,
      Vector3D.dot
        ((LineSurface.intersectionEstimate ratSurfaceOps exampleStraw
            ⟨5, -3, 2⟩ ⟨0, 1, 0⟩ true true).position
          - (LineSurface.center exampleStraw
              + Vector3D.smul mu (LineSurface.lineDirection exampleStraw)))
        ⟨0, 1, 0⟩ = 0 := by
  have hea : Vector3D.dot (⟨0, 1, 0⟩ : Vector3D ℚ) ⟨0, 1, 0⟩ = 1 := by
    norm_num [Vector3D.dot]
  have heb : Vector3D.dot (LineSurface.lineDirection exampleStraw)
      (LineSurface.lineDirection exampleStraw) = (1 : ℚ) := by
    norm_num [Vector3D.dot, LineSurface.lineDirection, LineSurface.transform, exampleStraw,
      Transform3D.identity]
  have hpar : |(1 : ℚ) - Vector3D.dot (⟨0, 1, 0⟩ : Vector3D ℚ)
        (LineSurface.lineDirection exampleStraw)
      * Vector3D.dot (⟨0, 1, 0⟩ : Vector3D ℚ) (LineSurface.lineDirection exampleStraw)|
      > 10 / 10 ^ 7 := by
    norm_num [Vector3D.dot, LineSurface.lineDirection, LineSurface.transform, exampleStraw,
      Transform3D.identity]
  obtain ⟨hlen, hposn, mu, h1, _, _⟩ :=
    intersectionEstimate_closest_approach ratSurfaceOps exampleStraw ⟨5, -3, 2⟩ ⟨0, 1, 0⟩
      true true hea heb hpar
  have hlen3 : (LineSurface.intersectionEstimate ratSurfaceOps exampleStraw
      ⟨5, -3, 2⟩ ⟨0, 1, 0⟩ true true).pathLength = 3 := by
    rw [hlen]
    norm_num [Vector3D.dot, Vector3D.sub_def, LineSurface.center, LineSurface.lineDirection,
      LineSurface.transform, exampleStraw, Transform3D.identity]
  refine ⟨?_, hlen3, mu, h1⟩
  rw [hposn, hlen3]
  norm_num [Vector3D.add_def, Vector3D.smul]


/-! ### TrackingGeometry::lowestTrackingVolume -/

namespace TrackingGeometry

variable {K V BS L D : Type}

/-- One turn of the loop: the loop test holds and the body runs. -/
theorem lowestTrackingVolumeLoop_turn [DecidableEq V] (ops : VolumeOps K V BS L D)
    (gp : Vector3D K) (fuel : Nat) (sv : V) (current : Option V) (h : current ≠ some sv) :
    lowestTrackingVolumeLoop ops gp (fuel + 1) (some sv) current
      = lowestTrackingVolumeLoop ops gp fuel (ops.trackingVolume sv gp) (some sv) := by
  simp [lowestTrackingVolumeLoop, h]

/-- The loop ends when the search volume is null or equal to the current volume. -/
theorem lowestTrackingVolumeLoop_exit [DecidableEq V] (ops : VolumeOps K V BS L D)
    (gp : Vector3D K) (fuel : Nat) (search : Option V) (cv : V)
    (h : search = none ∨ search = some cv) :
    lowestTrackingVolumeLoop ops gp (fuel + 1) search (some cv) = some (some cv) := by
  rcases h with h | h <;> subst h <;> simp [lowestTrackingVolumeLoop]

/-- The chain from `w` after its first link is the chain from the next volume. -/
theorem descentChain_succ (ops : VolumeOps K V BS L D) (gp : Vector3D K) (w u : V)
    (h : ops.trackingVolume w gp = some u) (i : Nat) :
    descentChain ops gp w (i + 1) = descentChain ops gp u i := by
  induction i with
  | zero => simp [descentChain, h]
  | succ i ih =>
    rw [descentChain, ih]
    rfl

/-- The descent from a volume `sv`, entered with a current volume different
from it: when `trackingVolume` yields the volume itself, null, or a volume of
smaller height, the loop ends after `k + 1` turns, `k` at most the height of
`sv`, at the first volume of the chain from `sv` whose `trackingVolume` is
itself or null, and returns that volume. -/
theorem lowestTrackingVolumeLoop_descent [DecidableEq V] (ops : VolumeOps K V BS L D)
    (gp : Vector3D K) (height : V → Nat)
    (hdesc : ∀ v u, ops.trackingVolume v gp = some u → u = v ∨ height u < height v) :
    ∀ (n : Nat) (sv : V) (current : Option V), height sv ≤ n → current ≠ some sv →
      ∃ k V0, k ≤ height sv ∧ descentChain ops gp sv k = some V0 ∧
        (ops.trackingVolume V0 gp = none ∨ ops.trackingVolume V0 gp = some V0) ∧
        (∀ i, i < k → ∃ u, descentChain ops gp sv i = some u ∧
            ∃ u', ops.trackingVolume u gp = some u' ∧ u' ≠ u) ∧
        ∀ fuel, k + 2 ≤ fuel →
          lowestTrackingVolumeLoop ops gp fuel (some sv) current = some (some V0) := by
  intro n
  induction n with
  | zero =>
    intro sv current hh hne
    have hstop : ops.trackingVolume sv gp = none ∨ ops.trackingVolume sv gp = some sv := by
      cases htv : ops.trackingVolume sv gp with
      | none => exact Or.inl rfl
      | some u =>
        rcases hdesc sv u htv with h | h
        · exact Or.inr (by rw [h])
        · omega
    refine ⟨0, sv, Nat.zero_le _, rfl, hstop, fun i hi => absurd hi (Nat.not_lt_zero i), ?_⟩
    intro fuel hfuel
    obtain ⟨f, rfl⟩ : ∃ f, fuel = f + 2 := ⟨fuel - 2, by omega⟩
    rw [lowestTrackingVolumeLoop_turn ops gp (f + 1) sv current hne]
    exact lowestTrackingVolumeLoop_exit ops gp f _ sv hstop
  | succ n ih =>
    intro sv current hh hne
    by_cases hstop : ops.trackingVolume sv gp = none ∨ ops.trackingVolume sv gp = some sv
    · refine ⟨0, sv, Nat.zero_le _, rfl, hstop, fun i hi => absurd hi (Nat.not_lt_zero i), ?_⟩
      intro fuel hfuel
      obtain ⟨f, rfl⟩ : ∃ f, fuel = f + 2 := ⟨fuel - 2, by omega⟩
      rw [lowestTrackingVolumeLoop_turn ops gp (f + 1) sv current hne]
      exact lowestTrackingVolumeLoop_exit ops gp f _ sv hstop
    · cases htv : ops.trackingVolume sv gp with
      | none => exact absurd (Or.inl htv) hstop
      | some u =>
        have hu : u ≠ sv := fun h => hstop (Or.inr (by rw [htv, h]))
        have hlt : height u < height sv := by
          rcases hdesc sv u htv with h | h
          · exact absurd h hu
          · exact h
        have hne2 : (some sv : Option V) ≠ some u := fun h => hu (Option.some.inj h).symm
        obtain ⟨k, V0, hk, hchain, hV0, hprev, hrun⟩ := ih u (some sv) (by omega) hne2
        refine ⟨k + 1, V0, by omega, ?_, hV0, ?_, ?_⟩
        · rw [descentChain_succ ops gp sv u htv k]
          exact hchain
        · intro i hi
          cases i with
          | zero => exact ⟨sv, rfl, u, htv, hu⟩
          | succ j =>
            rw [descentChain_succ ops gp sv u htv j]
            exact hprev j (by omega)
        · intro fuel hfuel
          obtain ⟨f, rfl⟩ : ∃ f, fuel = f + 1 := ⟨fuel - 1, by omega⟩
          rw [lowestTrackingVolumeLoop_turn ops gp f sv current hne, htv]
          exact hrun f (by omega)

end TrackingGeometry


namespace TrackingGeometry

variable {K V BS L D : Type}

/-- C3 (as amended): `lowestTrackingVolume` does not test whether the point
lies in the world volume.  In a geometry without a world volume it returns
null.  In a geometry with a world volume `w` (finite volume tree:
`trackingVolume` yields the volume itself, null, or a volume of smaller
height) it returns a volume, never null, for every point; when
`w.trackingVolume(gp)` is null or `w` itself, as for a point outside every
child, it returns `w`. -/
theorem lowestTrackingVolume_null_iff_no_world [DecidableEq V] (ops : VolumeOps K V BS L D)
    (geo : TrackingGeometry V) (gp : Vector3D K) (height : V → Nat)
    (hdesc : ∀ v u, ops.trackingVolume v gp = some u → u = v ∨ height u < height v) :
    (geo.m_world = none →
      ∀ fuel, 1 ≤ fuel → lowestTrackingVolume ops geo fuel gp = some none) ∧
    (∀ w, geo.m_world = some w →
      (∃ V0, ∀ fuel, height w + 2 ≤ fuel →
        lowestTrackingVolume ops geo fuel gp = some (some V0)) ∧
      ((ops.trackingVolume w gp = none ∨ ops.trackingVolume w gp = some w) →
        ∀ fuel, 2 ≤ fuel → lowestTrackingVolume ops geo fuel gp = some (some w))) := by
  refine ⟨?_, ?_⟩
  · intro hw fuel hfuel
    obtain ⟨f, rfl⟩ : ∃ f, fuel = f + 1 := ⟨fuel - 1, by omega⟩
    simp [lowestTrackingVolume, lowestTrackingVolumeLoop, hw]
  · intro w hw
    refine ⟨?_, ?_⟩
    · obtain ⟨k, V0, hk, _, _, _, hrun⟩ :=
        lowestTrackingVolumeLoop_descent ops gp height hdesc (height w) w none (le_refl _)
          (by simp)
      refine ⟨V0, fun fuel hfuel => ?_⟩
      rw [lowestTrackingVolume, hw]
      exact hrun fuel (by omega)
    · intro hstop fuel hfuel
      obtain ⟨f, rfl⟩ : ∃ f, fuel = f + 2 := ⟨fuel - 2, by omega⟩
      rw [lowestTrackingVolume, hw,
        lowestTrackingVolumeLoop_turn ops gp (f + 1) w none (by simp)]
      exact lowestTrackingVolumeLoop_exit ops gp f _ w hstop

/-- C4: in a geometry with world volume `w` whose `trackingVolume(gp)` yields,
on every volume, the volume itself, null, or a volume of smaller height (as
a proper descendant in a finite tree is), `lowestTrackingVolume(gp)` ends:
there is an index `k`, at most the height of `w`, such that the `k`-th volume
`V0` of the chain `v 0 = w`, `v (i + 1) = (v i).trackingVolume(gp)` is the
first one whose `trackingVolume(gp)` is itself or null, and with fuel for
`k + 2` loop tests the function returns `V0`. -/
theorem lowestTrackingVolume_descends_to_fixed_point [DecidableEq V]
    (ops : VolumeOps K V BS L D) (geo : TrackingGeometry V) (gp : Vector3D K) (w : V)
    (height : V → Nat) (hworld : geo.m_world = some w)
    (hdesc : ∀ v u, ops.trackingVolume v gp = some u → u = v ∨ height u < height v) :
    ∃ k V0, k ≤ height w ∧ descentChain ops gp w k = some V0 ∧
      (ops.trackingVolume V0 gp = none ∨ ops.trackingVolume V0 gp = some V0) ∧
      (∀ i, i < k → ∃ u, descentChain ops gp w i = some u ∧
          ∃ u', ops.trackingVolume u gp = some u' ∧ u' ≠ u) ∧
      ∀ fuel, k + 2 ≤ fuel → lowestTrackingVolume ops geo fuel gp = some (some V0) := by
  obtain ⟨k, V0, hk, hchain, hV0, hprev, hrun⟩ :=
    lowestTrackingVolumeLoop_descent ops gp height hdesc (height w) w none (le_refl _)
      (by simp)
  refine ⟨k, V0, hk, hchain, hV0, hprev, fun fuel hfuel => ?_⟩
  rw [lowestTrackingVolume, hworld]
  exact hrun fuel hfuel

end TrackingGeometry

/-- The example geometry is a finite tree for every point: `trackingVolume`
yields the volume itself, null, or a volume of smaller height, where the
world has height 1 and its child height 0. -/
theorem exampleVolumeOps_descends (selfAtLeaf : Bool) (gp : Vector3D ℚ) (v u : Nat)
    (h : (exampleVolumeOps selfAtLeaf).trackingVolume v gp = some u) :
    u = v ∨ 1 - u < 1 - v := by
  simp only [exampleVolumeOps] at h
  split at h
  · rename_i hc
    obtain ⟨hv, _⟩ := hc
    simp only [Option.some.injEq] at h
    omega
  · split at h
    · simp only [Option.some.injEq] at h
      exact Or.inl h.symm
    · exact absurd h (by simp)

/-- C3, as stated, fails: in the example geometry the point `(20, 0, 0)` lies
outside the world volume (whose extent is `-15 ≤ x ≤ 15`), and
`lowestTrackingVolume` returns the world volume `0`, not null, whether
`trackingVolume` yields null or the volume itself where no child encloses
the point. -/
theorem lowestTrackingVolume_outside_world_not_null :
    exampleGeometry.m_world = some 0 ∧
    (exampleVolumeOps false).inside 0 ⟨20, 0, 0⟩ = false ∧
    (exampleVolumeOps true).inside 0 ⟨20, 0, 0⟩ = false ∧
    TrackingGeometry.lowestTrackingVolume (exampleVolumeOps false) exampleGeometry 3
      ⟨20, 0, 0⟩ = some (some 0) ∧
    TrackingGeometry.lowestTrackingVolume (exampleVolumeOps true) exampleGeometry 3
      ⟨20, 0, 0⟩ = some (some 0) := by
  decide

/-- C3 (as amended), at a concrete input: the example geometry and the point
`(20, 0, 0)` outside the world volume; the function returns the world. -/
theorem lowestTrackingVolume_null_iff_no_world_witness :
    (∀ v u, (exampleVolumeOps true).trackingVolume v ⟨20, 0, 0⟩ = some u →
      u = v ∨ 1 - u < 1 - v) ∧
    (exampleVolumeOps true).inside 0 ⟨20, 0, 0⟩ = false ∧
    TrackingGeometry.lowestTrackingVolume (exampleVolumeOps true) exampleGeometry 2
      ⟨20, 0, 0⟩ = some (some 0) :=
  ⟨exampleVolumeOps_descends true ⟨20, 0, 0⟩, by decide,
    ((TrackingGeometry.lowestTrackingVolume_null_iff_no_world (exampleVolumeOps true)
        exampleGeometry ⟨20, 0, 0⟩ (fun v => 1 - v)
        (exampleVolumeOps_descends true ⟨20, 0, 0⟩)).2 0 rfl).2
      (by decide) 2 (le_refl 2)⟩

/-- C4, at a concrete input: in the example geometry, a world with exactly
one child `1` spanning `0 ≤ x ≤ 10`, `lowestTrackingVolume((5, 0, 0))` returns
the child. -/
theorem lowestTrackingVolume_descends_to_fixed_point_witness :
    exampleGeometry.m_world = some 0 ∧
    (∀ v u, (exampleVolumeOps false).trackingVolume v ⟨5, 0, 0⟩ = some u →
      u = v ∨ 1 - u < 1 - v) ∧
    TrackingGeometry.lowestTrackingVolume (exampleVolumeOps false) exampleGeometry 3
      ⟨5, 0, 0⟩ = some (some 1) := by
  refine ⟨rfl, exampleVolumeOps_descends false ⟨5, 0, 0⟩, ?_⟩
  obtain ⟨k, V0, hk, hchain, hV0, _, hrun⟩ :=
    TrackingGeometry.lowestTrackingVolume_descends_to_fixed_point (exampleVolumeOps false)
      exampleGeometry ⟨5, 0, 0⟩ 0 (fun v => 1 - v) rfl
      (exampleVolumeOps_descends false ⟨5, 0, 0⟩)
  have hk1 : k = 0 ∨ k = 1 := by
    have hk2 : k ≤ 1 := hk
    omega
  rcases hk1 with rfl | rfl
  · have h0 : V0 = 0 := (Option.some.inj hchain).symm
    subst h0
    revert hV0
    decide
  · have h1 : TrackingGeometry.descentChain (exampleVolumeOps false) ⟨5, 0, 0⟩ 0 1
        = some 1 := by decide
    rw [h1] at hchain
    have h0 : V0 = 1 := (Option.some.inj hchain).symm
    subst h0
    exact hrun 3 (le_refl 3)

/-! ### TrackingGeometry::atVolumeBoundary -/

namespace TrackingGeometry

variable {K V BS L D : Type}

/-- The loop over the boundary surfaces of the first overload: the flag is
set once a surface holds the point and is never cleared. -/
theorem foldl_isAtBoundary {α : Type} (onS : α → Bool) (l : List α) (init : Bool) :
    l.foldl (fun isAtBoundary b => if onS b then true else isAtBoundary) init
      = (init || l.any onS) := by
  induction l generalizing init with
  | nil => simp
  | cons b l ih =>
    rw [List.foldl_cons, ih, List.any_cons]
    cases onS b <;> cases init <;> simp

/-- The loop over the boundary surfaces of the second overload: the flag as
in the first overload, and the next volume is the first non-null value met,
the initial value included. -/
theorem foldl_nextVol {α β : Type} (onS : α → Bool) (att : α → Option β) (l : List α)
    (st : Bool × Option β) :
    l.foldl
        (fun (st : Bool × Option β) b =>
          if onS b then (true, if st.2.isNone && (att b).isSome then att b else st.2) else st)
        st
      = (st.1 || l.any onS, st.2.or ((l.filter onS).findSome? att)) := by
  induction l generalizing st with
  | nil =>
    obtain ⟨f, nv⟩ := st
    cases nv <;> simp
  | cons b l ih =>
    obtain ⟨f, nv⟩ := st
    rw [List.foldl_cons, ih, List.any_cons, List.filter_cons]
    cases hb : onS b
    · simp
    · cases hatt : att b <;> cases nv <;> simp [hatt]

/-- When the first element of a list that satisfies `onS` has a non-null
value under `att`, that is the first non-null value among the elements that
satisfy `onS`. -/
theorem findSome_filter_of_find {α β : Type} (onS : α → Bool) (att : α → Option β)
    (l : List α) (b : α) (x : β) (hfind : l.find? onS = some b) (hatt : att b = some x) :
    (l.filter onS).findSome? att = some x := by
  induction l with
  | nil => simp at hfind
  | cons a l ih =>
    rw [List.find?_cons] at hfind
    rw [List.filter_cons]
    cases ha : onS a
    · rw [ha] at hfind
      simpa using ih hfind
    · rw [ha] at hfind
      have hab : a = b := Option.some.inj hfind
      subst hab
      simp [hatt]

/-- C9 (as amended): the next volume that `atVolumeBoundary` reports is the
first non-null attached volume among the boundary surfaces on which the
point lies, in the volume's boundary-surface order, and null when there is
none; in particular it is the volume attached to the first boundary surface
on which the point lies whenever that volume is not null. -/
theorem atVolumeBoundaryNext_first_nonnull_attached (ops : VolumeOps K V BS L D)
    (gp mom : Vector3D K) (v : V) (dir : D) :
    (atVolumeBoundaryNext ops gp mom (some v) dir).2
      = ((ops.boundarySurfaces v).filter (fun b => ops.isOnSurface b gp true)).findSome?
          (fun b => ops.attachedVolume b gp mom dir) ∧
    ∀ b, (ops.boundarySurfaces v).find? (fun b => ops.isOnSurface b gp true) = some b →
      ops.attachedVolume b gp mom dir ≠ none →
      (atVolumeBoundaryNext ops gp mom (some v) dir).2 = ops.attachedVolume b gp mom dir := by
  have hfold : (atVolumeBoundaryNext ops gp mom (some v) dir).2
      = ((ops.boundarySurfaces v).filter (fun b => ops.isOnSurface b gp true)).findSome?
          (fun b => ops.attachedVolume b gp mom dir) := by
    simp only [atVolumeBoundaryNext]
    rw [foldl_nextVol (fun b => ops.isOnSurface b gp true)
      (fun b => ops.attachedVolume b gp mom dir)]
    simp
  refine ⟨hfold, ?_⟩
  intro b hfind hatt
  obtain ⟨x, hx⟩ := Option.ne_none_iff_exists'.mp hatt
  rw [hfold, hx]
  exact findSome_filter_of_find _ _ _ b x hfind hx

/-- C9, as stated, fails: in the example geometry the point `(0, 0, 0)` lies
on both boundary surfaces of the child volume; the first of them, `0`, has
no attached volume, and `atVolumeBoundary` reports the volume attached to
the second one. -/
theorem atVolumeBoundaryNext_first_match_skipped :
    (exampleVolumeOps false).boundarySurfaces 1 = [0, 1] ∧
    ((exampleVolumeOps false).boundarySurfaces 1).find?
        (fun b => (exampleVolumeOps false).isOnSurface b ⟨0, 0, 0⟩ true) = some 0 ∧
    (exampleVolumeOps false).attachedVolume 0 ⟨0, 0, 0⟩ ⟨1, 1, 0⟩ () = none ∧
    atVolumeBoundaryNext (exampleVolumeOps false) ⟨0, 0, 0⟩ ⟨1, 1, 0⟩ (some 1) ()
      = (true, some 0) := by
  decide

/-- C10: both overloads of `atVolumeBoundary` return the same flag; it is
true exactly when the volume is not null and one of its boundary surfaces
holds the point under `isOnSurface(gp, true)`; when the flag is false the
next volume of the second overload is null. -/
theorem atVolumeBoundary_overloads_agree (ops : VolumeOps K V BS L D)
    (gp mom : Vector3D K) (vol : Option V) (dir : D) :
    atVolumeBoundary ops gp vol = (atVolumeBoundaryNext ops gp mom vol dir).1 ∧
    (atVolumeBoundary ops gp vol = true ↔
      ∃ v, vol = some v ∧ ∃ b ∈ ops.boundarySurfaces v, ops.isOnSurface b gp true = true) ∧
    ((atVolumeBoundaryNext ops gp mom vol dir).1 = false →
      (atVolumeBoundaryNext ops gp mom vol dir).2 = none) := by
  cases vol with
  | none => simp [atVolumeBoundary, atVolumeBoundaryNext]
  | some v =>
    simp only [atVolumeBoundary, atVolumeBoundaryNext]
    rw [foldl_isAtBoundary (fun b => ops.isOnSurface b gp true),
      foldl_nextVol (fun b => ops.isOnSurface b gp true)
        (fun b => ops.attachedVolume b gp mom dir)]
    refine ⟨by simp, by simp [List.any_eq_true], ?_⟩
    intro hfalse
    simp only [Bool.false_or] at hfalse
    have hnil : (ops.boundarySurfaces v).filter (fun b => ops.isOnSurface b gp true) = [] := by
      rw [List.filter_eq_nil_iff]
      intro b hb
      have := List.any_eq_false.mp hfalse b hb
      simpa using this
    simp [hnil]

end TrackingGeometry

/-! ### StraightLineStepper::convert to a surface -/

/-- C8 (as amended): `convert(state, surface)` makes no on-surface test and
has no failure path: for every state and every surface, whether or not the
position of the state is on the surface, it returns bound parameters with
the position of the state, the momentum `dir / |qop|`, the charge `+1` for
positive `qop` and `-1` otherwise, bound to the given surface. -/
theorem convertBound_total {K cstep S : Type} [LinearOrderedField K]
    (state : State K cstep) (surface : S) :
    (convertBound state surface).position = state.pos ∧
    (convertBound state surface).momentum = Vector3D.divScalar state.dir |state.qop| ∧
    (convertBound state surface).charge = (if state.qop > 0 then 1 else -1) ∧
    (convertBound state surface).surface = surface :=
  ⟨rfl, rfl, rfl, rfl⟩

/-- The square root of the example collaborators is `Rat.sqrt`. -/
theorem ratSurfaceOps_sqrt (x : ℚ) : ratSurfaceOps.sqrt x = Rat.sqrt x := rfl

/-- The rational square root is exact on the square of a non-negative rational. -/
theorem ratSurfaceOps_sqrt_of_sq (x r : ℚ) (hr : 0 ≤ r) (hx : x = r * r) :
    ratSurfaceOps.sqrt x = r := by
  rw [ratSurfaceOps_sqrt, hx, Rat.sqrt_eq, abs_of_nonneg hr]

/-- A point at distance 50 from the axis of the example straw is not on the
surface, for all collaborators whose square root is exact at 2500. -/
theorem isOnSurface_exampleStraw_far (ops : SurfaceOps ℚ (LineBounds ℚ) Bool)
    (hen : ops.enabled true = true) (hin : ops.inside = lineBoundsInside)
    (hs : ops.sqrt 2500 = 50) :
    LineSurface.isOnSurface ops exampleStraw ⟨50, 0, 0⟩ true = false := by
  have hloc : Transform3D.apply (Transform3D.inverse (LineSurface.transform exampleStraw))
      (⟨50, 0, 0⟩ : Vector3D ℚ) = ⟨50, 0, 0⟩ := by
    norm_num [exampleStraw, LineSurface.transform, Transform3D.identity, Transform3D.inverse,
      Transform3D.apply, Transform3D.det, Vector3D.dot, Vector3D.cross, Vector3D.divScalar]
  have hperp : Vector3D.perp ops.sqrt (⟨50, 0, 0⟩ : Vector3D ℚ) = 50 := by
    rw [Vector3D.perp]
    norm_num [hs]
  simp only [LineSurface.isOnSurface, hen, hin, hloc, hperp]
  norm_num [exampleStraw, lineBoundsInside]

/-- C8, as stated, fails: the state at `(50, 0, 0)` is not on the straw of
radius 10 (`isOnSurface` with the boundary check enabled is false), and
`convert(state, surface)` returns bound parameters at that position. -/
theorem convertBound_off_surface :
    LineSurface.isOnSurface ratSurfaceOps exampleStraw exampleOffSurfaceState.pos true
      = false ∧
    convertBound exampleOffSurfaceState exampleStraw
      = ⟨⟨50, 0, 0⟩, ⟨0, 1, 0⟩, 1, exampleStraw⟩ := by
  constructor
  · exact isOnSurface_exampleStraw_far ratSurfaceOps rfl rfl
      (ratSurfaceOps_sqrt_of_sq 2500 50 (by norm_num) (by norm_num))
  · norm_num [convertBound, exampleOffSurfaceState, Vector3D.divScalar]

/-! ### LineSurface: local and global coordinates -/

/-- The vector product of two orthogonal unit vectors is a unit vector. -/
theorem cross_unit {K : Type} [LinearOrderedField K] (c0 c1 : Vector3D K)
    (h00 : Vector3D.dot c0 c0 = 1) (h11 : Vector3D.dot c1 c1 = 1)
    (h01 : Vector3D.dot c0 c1 = 0) :
    Vector3D.dot (Vector3D.cross c0 c1) (Vector3D.cross c0 c1) = 1 := by
  simp only [Vector3D.dot, Vector3D.cross] at h00 h11 h01 ⊢
  linear_combination (c1.x * c1.x + c1.y * c1.y + c1.z * c1.z) * h00 + h11
    - (c0.x * c1.x + c0.y * c1.y + c0.z * c1.z) * h01

/-- The determinant of a rigid placement is 1. -/
theorem det_of_rigid {K : Type} [LinearOrderedField K] (t : Transform3D K)
    (h : t.IsRigid) : Transform3D.det t = 1 := by
  obtain ⟨c0, c1, c2, tr⟩ := t
  obtain ⟨h00, h11, h01, h2⟩ := h
  simp only at h00 h11 h01 h2
  subst h2
  simp only [Transform3D.det, Vector3D.dot, Vector3D.cross] at h00 h11 h01 ⊢
  linear_combination (c1.x * c1.x + c1.y * c1.y + c1.z * c1.z) * h00 + h11
    - (c0.x * c1.x + c0.y * c1.y + c0.z * c1.z) * h01

/-- The inverse of a rigid placement maps a global point to its coordinates
along the three columns, taken from the translation. -/
theorem apply_inverse_of_rigid {K : Type} [LinearOrderedField K] (t : Transform3D K)
    (h : t.IsRigid) (g : Vector3D K) :
    Transform3D.apply (Transform3D.inverse t) g
      = ⟨Vector3D.dot t.col0 (g - t.translation), Vector3D.dot t.col1 (g - t.translation),
         Vector3D.dot t.col2 (g - t.translation)⟩ := by
  have hdet := det_of_rigid t h
  obtain ⟨c0, c1, c2, tr⟩ := t
  obtain ⟨h00, h11, h01, h2⟩ := h
  simp only at h00 h11 h01 h2
  subst h2
  simp only [Transform3D.inverse, hdet, Vector3D.divScalar, div_one, Transform3D.apply]
  simp only [Vector3D.dot, Vector3D.cross, Vector3D.sub_def] at h00 h11 h01 ⊢
  ext
  · simp only
    linear_combination
      ((g.x - tr.x) * c0.x + (g.y - tr.y) * c0.y + (g.z - tr.z) * c0.z) * h11
      - ((g.x - tr.x) * c1.x + (g.y - tr.y) * c1.y + (g.z - tr.z) * c1.z) * h01
  · simp only
    linear_combination
      ((g.x - tr.x) * c1.x + (g.y - tr.y) * c1.y + (g.z - tr.z) * c1.z) * h00
      - ((g.x - tr.x) * c0.x + (g.y - tr.y) * c0.y + (g.z - tr.z) * c0.z) * h01
  · simp only
    ring

/-- In a rigid frame the squares of the first two coordinates of a vector
add up to its squared length less the square of the third coordinate. -/
theorem transverse_sq_of_rigid {K : Type} [LinearOrderedField K] (t : Transform3D K)
    (h : t.IsRigid) (d : Vector3D K) :
    Vector3D.dot t.col0 d * Vector3D.dot t.col0 d + Vector3D.dot t.col1 d * Vector3D.dot t.col1 d
      = Vector3D.dot d d - Vector3D.dot d t.col2 * Vector3D.dot d t.col2 := by
  obtain ⟨c0, c1, c2, tr⟩ := t
  obtain ⟨h00, h11, h01, h2⟩ := h
  simp only at h00 h11 h01 h2
  subst h2
  simp only [Vector3D.dot, Vector3D.cross] at h00 h11 h01 ⊢
  linear_combination
    ((c1.x * c1.x + c1.y * c1.y + c1.z * c1.z) * (d.x * d.x + d.y * d.y + d.z * d.z)
        - (c1.x * d.x + c1.y * d.y + c1.z * d.z) ^ 2) * h00
    + ((d.x * d.x + d.y * d.y + d.z * d.z) - (c0.x * d.x + c0.y * d.y + c0.z * d.z) ^ 2) * h11
    + (2 * (c1.x * d.x + c1.y * d.y + c1.z * d.z) * (c0.x * d.x + c0.y * d.y + c0.z * d.z)
        - (c0.x * c1.x + c0.y * c1.y + c0.z * c1.z)
          * (d.x * d.x + d.y * d.y + d.z * d.z)) * h01

/-- A vector orthogonal to `e` and to `m` is parallel to their vector
product `w`: `(w . w) v = (v . w) w`. -/
theorem parallel_of_orthogonal {K : Type} [LinearOrderedField K] (e m v : Vector3D K)
    (hve : Vector3D.dot v e = 0) (hvm : Vector3D.dot v m = 0) :
    Vector3D.smul (Vector3D.dot (Vector3D.cross e m) (Vector3D.cross e m)) v
      = Vector3D.smul (Vector3D.dot v (Vector3D.cross e m)) (Vector3D.cross e m) := by
  simp only [Vector3D.dot, Vector3D.cross, Vector3D.smul] at hve hvm ⊢
  ext
  · simp only
    linear_combination
      ((e.z * m.x - e.x * m.z) * e.z - (e.x * m.y - e.y * m.x) * e.y) * hvm
      - ((e.z * m.x - e.x * m.z) * m.z - (e.x * m.y - e.y * m.x) * m.y) * hve
  · simp only
    linear_combination
      ((e.x * m.y - e.y * m.x) * e.x - (e.y * m.z - e.z * m.y) * e.z) * hvm
      - ((e.x * m.y - e.y * m.x) * m.x - (e.y * m.z - e.z * m.y) * m.z) * hve
  · simp only
    linear_combination
      ((e.y * m.z - e.z * m.y) * e.y - (e.z * m.x - e.x * m.z) * e.x) * hvm
      - ((e.y * m.z - e.z * m.y) * m.y - (e.z * m.x - e.x * m.z) * m.x) * hve

/-- The signed radius: for `rho` the root of `a^2 W` and `nw` the root of
`W > 0`, the product of `rho` with the sign of `a W` is `a * nw`. -/
theorem signed_radius {K : Type} [LinearOrderedField K] (a W rho nw : K)
    (hr0 : 0 ≤ rho) (hr : rho * rho = a * a * W) (hn0 : 0 ≤ nw) (hn : nw * nw = W)
    (hW : W ≠ 0) :
    rho * (if a * W < 0 then -1 else 1) = a * nw := by
  have hnw : 0 < nw := by
    rcases hn0.lt_or_eq with h | h
    · exact h
    · exact absurd (by rw [← hn, ← h, mul_zero]) hW
  have hWpos : 0 < W := by
    rw [← hn]
    exact mul_pos hnw hnw
  have hprod : (rho - a * nw) * (rho + a * nw) = 0 := by
    linear_combination hr - a * a * hn
  rcases mul_eq_zero.mp hprod with h | h
  · have hrho : rho = a * nw := by linear_combination h
    have ha : 0 ≤ a := by
      by_contra hneg
      have : a * nw < 0 := mul_neg_of_neg_of_pos (not_le.mp hneg) hnw
      linarith
    have hcond : ¬ (a * W < 0) := not_lt.mpr (mul_nonneg ha hWpos.le)
    rw [if_neg hcond, mul_one, hrho]
  · have hrho : rho = -(a * nw) := by linear_combination h
    by_cases hcond : a * W < 0
    · rw [if_pos hcond, hrho]
      ring
    · have ha : 0 ≤ a := by
        by_contra hneg
        exact hcond (mul_neg_of_neg_of_pos (not_le.mp hneg) hWpos)
      have hz : a * nw = 0 := by
        have : 0 ≤ a * nw := mul_nonneg ha hn0
        linarith
      rw [if_neg hcond, mul_one, hrho, hz, neg_zero]

/-- The identity placement is rigid. -/
theorem identity_isRigid {K : Type} [LinearOrderedField K] :
    (Transform3D.identity : Transform3D K).IsRigid := by
  simp [Transform3D.IsRigid, Transform3D.identity, Vector3D.dot, Vector3D.cross]

/-- The point `loc3Dframe` of `globalToLocal` and `isOnSurface`, for a rigid
placement: the coordinates of the offset from the center along the columns
of the placement. -/
theorem loc3Dframe_of_rigid {K B : Type} [LinearOrderedField K] (s : LineSurface K B)
    (hrigid : (LineSurface.transform s).IsRigid) (gpos : Vector3D K) :
    (if s.m_transform.isSome || s.m_associatedDetElement.isSome then
        Transform3D.apply (Transform3D.inverse (LineSurface.transform s)) gpos
      else gpos)
      = ⟨Vector3D.dot (LineSurface.transform s).col0 (gpos - LineSurface.center s),
         Vector3D.dot (LineSurface.transform s).col1 (gpos - LineSurface.center s),
         Vector3D.dot (LineSurface.lineDirection s) (gpos - LineSurface.center s)⟩ := by
  by_cases hc : (s.m_transform.isSome || s.m_associatedDetElement.isSome) = true
  · rw [if_pos hc]
    exact apply_inverse_of_rigid _ hrigid gpos
  · rw [if_neg hc]
    obtain ⟨mt, md, mb⟩ := s
    cases mt with
    | some t => simp at hc
    | none =>
      cases md with
      | some d => simp at hc
      | none =>
        simp only [LineSurface.transform, LineSurface.center, LineSurface.lineDirection,
          Transform3D.identity, Vector3D.dot, Vector3D.sub_def]
        ext <;> simp

/-- The point `locZinGlobal` of `localToGlobal`: the point of the axis at
the axial coordinate `z`. -/
theorem locZinGlobal_eq {K B : Type} [LinearOrderedField K] (s : LineSurface K B) (z : K) :
    (if s.m_transform.isSome || s.m_associatedDetElement.isSome then
        Transform3D.apply (LineSurface.transform s) ⟨0, 0, z⟩
      else (⟨0, 0, z⟩ : Vector3D K))
      = LineSurface.center s + Vector3D.smul z (LineSurface.lineDirection s) := by
  by_cases hc : (s.m_transform.isSome || s.m_associatedDetElement.isSome) = true
  · rw [if_pos hc]
    simp only [Transform3D.apply, LineSurface.center, LineSurface.lineDirection,
      Vector3D.add_def, Vector3D.smul]
    ext <;> simp only <;> ring
  · rw [if_neg hc]
    obtain ⟨mt, md, mb⟩ := s
    cases mt with
    | some t => simp at hc
    | none =>
      cases md with
      | some d => simp at hc
      | none =>
        simp only [LineSurface.transform, LineSurface.center, LineSurface.lineDirection,
          Transform3D.identity, Vector3D.add_def, Vector3D.smul]
        ext <;> simp

/-- In exact arithmetic (a linearly ordered field, no rounding): for a line
surface with a rigid placement, a momentum not parallel to the axis, and a global point (within the bounds or not)
whose offset from the axis is orthogonal to the momentum, that is
`(gpos - center) . mom = ((gpos - center) . axis) (axis . mom)`, the point
where a track along `mom` is closest to the axis,
`localToGlobal(globalToLocal(gpos, mom), mom)` is `gpos`, provided the
square root is exact at the squared length of `axis x mom` and at the
squared distance of `gpos` from the axis. -/
theorem localToGlobal_globalToLocal_closest_approach {K B BC : Type} [LinearOrderedField K]
    (ops : SurfaceOps K B BC) (s : LineSurface K B) (gpos mom : Vector3D K)
    (hrigid : (LineSurface.transform s).IsRigid)
    (hmom : Vector3D.dot (Vector3D.cross (LineSurface.lineDirection s) mom)
      (Vector3D.cross (LineSurface.lineDirection s) mom) ≠ 0)
    (hperp : Vector3D.dot (gpos - LineSurface.center s) mom
      = Vector3D.dot (gpos - LineSurface.center s) (LineSurface.lineDirection s)
        * Vector3D.dot (LineSurface.lineDirection s) mom)
    (hsqrtW : IsSqrtAt ops.sqrt
      (Vector3D.dot (Vector3D.cross (LineSurface.lineDirection s) mom)
        (Vector3D.cross (LineSurface.lineDirection s) mom)))
    (hsqrtR : IsSqrtAt ops.sqrt
      (Vector3D.dot (gpos - LineSurface.center s) (gpos - LineSurface.center s)
        - Vector3D.dot (gpos - LineSurface.center s) (LineSurface.lineDirection s)
          * Vector3D.dot (gpos - LineSurface.center s) (LineSurface.lineDirection s))) :
    LineSurface.localToGlobal ops s (LineSurface.globalToLocal ops s gpos mom).2 mom
      = gpos := by
  -- the unit axis
  have hee : Vector3D.dot (LineSurface.lineDirection s) (LineSurface.lineDirection s) = 1 := by
    obtain ⟨h00, h11, h01, h2⟩ := hrigid
    show Vector3D.dot (LineSurface.transform s).col2 (LineSurface.transform s).col2 = 1
    rw [h2]
    exact cross_unit _ _ h00 h11 h01
  -- the radius that `globalToLocal` computes
  have hR : Vector3D.perp ops.sqrt
        ⟨Vector3D.dot (LineSurface.transform s).col0 (gpos - LineSurface.center s),
         Vector3D.dot (LineSurface.transform s).col1 (gpos - LineSurface.center s),
         Vector3D.dot (LineSurface.lineDirection s) (gpos - LineSurface.center s)⟩
      = ops.sqrt (Vector3D.dot (gpos - LineSurface.center s) (gpos - LineSurface.center s)
        - Vector3D.dot (gpos - LineSurface.center s) (LineSurface.lineDirection s)
          * Vector3D.dot (gpos - LineSurface.center s) (LineSurface.lineDirection s)) := by
    rw [Vector3D.perp]
    exact congrArg ops.sqrt (transverse_sq_of_rigid _ hrigid _)
  simp only [LineSurface.localToGlobal, LineSurface.globalToLocal, loc3Dframe_of_rigid s hrigid,
    locZinGlobal_eq, hR]
  rw [Vector3D.normalized, Vector3D.norm]
  obtain ⟨hr0, hr⟩ := hsqrtR
  obtain ⟨hn0, hn⟩ := hsqrtW
  generalize ops.sqrt (Vector3D.dot (gpos - LineSurface.center s) (gpos - LineSurface.center s)
        - Vector3D.dot (gpos - LineSurface.center s) (LineSurface.lineDirection s)
          * Vector3D.dot (gpos - LineSurface.center s) (LineSurface.lineDirection s)) = rho
    at hr0 hr ⊢
  generalize ops.sqrt (Vector3D.dot (Vector3D.cross (LineSurface.lineDirection s) mom)
        (Vector3D.cross (LineSurface.lineDirection s) mom)) = nw at hn0 hn ⊢
  generalize hd : gpos - LineSurface.center s = d at hperp hr ⊢
  generalize LineSurface.lineDirection s = e at hee hmom hperp hr hn ⊢
  -- the offset from the axis
  obtain ⟨v, hv⟩ : ∃ v : Vector3D K, v = d - Vector3D.smul (Vector3D.dot e d) e := ⟨_, rfl⟩
  have hve : Vector3D.dot v e = 0 := by
    rw [hv]
    simp only [Vector3D.dot, Vector3D.sub_def, Vector3D.smul] at hee ⊢
    linear_combination (-(e.x * d.x + e.y * d.y + e.z * d.z)) * hee
  have hvm : Vector3D.dot v mom = 0 := by
    rw [hv]
    simp only [Vector3D.dot, Vector3D.sub_def, Vector3D.smul] at hperp ⊢
    linear_combination hperp
  have hvv : Vector3D.dot v v = Vector3D.dot d d - Vector3D.dot d e * Vector3D.dot d e := by
    rw [hv]
    simp only [Vector3D.dot, Vector3D.sub_def, Vector3D.smul] at hee ⊢
    linear_combination (e.x * d.x + e.y * d.y + e.z * d.z) ^ 2 * hee
  have hpar := parallel_of_orthogonal e mom v hve hvm
  have hwe : Vector3D.dot (Vector3D.cross e mom) e = 0 := by
    simp only [Vector3D.dot, Vector3D.cross]
    ring
  have hwd : Vector3D.dot (Vector3D.cross e mom) d = Vector3D.dot v (Vector3D.cross e mom) := by
    rw [hv]
    simp only [Vector3D.dot, Vector3D.cross, Vector3D.sub_def, Vector3D.smul] at hwe ⊢
    linear_combination (e.x * d.x + e.y * d.y + e.z * d.z) * hwe
  generalize Vector3D.cross e mom = w at hmom hn hpar hwd ⊢
  -- the scalar `a` with `v = a w`
  have hax : v.x = Vector3D.dot v w / Vector3D.dot w w * w.x := by
    have h := congrArg Vector3D.x hpar
    simp only [Vector3D.smul] at h
    field_simp
    linear_combination h
  have hay : v.y = Vector3D.dot v w / Vector3D.dot w w * w.y := by
    have h := congrArg Vector3D.y hpar
    simp only [Vector3D.smul] at h
    field_simp
    linear_combination h
  have haz : v.z = Vector3D.dot v w / Vector3D.dot w w * w.z := by
    have h := congrArg Vector3D.z hpar
    simp only [Vector3D.smul] at h
    field_simp
    linear_combination h
  have haW : Vector3D.dot v w / Vector3D.dot w w * Vector3D.dot w w = Vector3D.dot v w :=
    div_mul_cancel₀ _ hmom
  generalize Vector3D.dot v w / Vector3D.dot w w = a at hax hay haz haW
  have hvv2 : Vector3D.dot v v = a * a * Vector3D.dot w w := by
    simp only [Vector3D.dot]
    rw [hax, hay, haz]
    ring
  have hsig := signed_radius a (Vector3D.dot w w) rho nw hr0
    (by rw [hr, ← hvv, hvv2]) hn0 hn hmom
  rw [hwd, ← haW]
  have hnw : nw ≠ 0 := by
    intro h0
    rw [h0, mul_zero] at hn
    exact hmom hn.symm
  have hdx : d.x = gpos.x - (LineSurface.center s).x := by rw [← hd]; rfl
  have hdy : d.y = gpos.y - (LineSurface.center s).y := by rw [← hd]; rfl
  have hdz : d.z = gpos.z - (LineSurface.center s).z := by rw [← hd]; rfl
  have hvx : v.x = d.x - Vector3D.dot e d * e.x := by rw [hv]; rfl
  have hvy : v.y = d.y - Vector3D.dot e d * e.y := by rw [hv]; rfl
  have hvz : v.z = d.z - Vector3D.dot e d * e.z := by rw [hv]; rfl
  simp only [Vector3D.add_def, Vector3D.smul, Vector3D.divScalar, hsig]
  ext
  · simp only
    field_simp
    linear_combination (-nw) * hax + nw * hvx + nw * hdx
  · simp only
    field_simp
    linear_combination (-nw) * hay + nw * hvy + nw * hdy
  · simp only
    field_simp
    linear_combination (-nw) * haz + nw * hvz + nw * hdz

/-- The rational square root of the example collaborators is exact at the
square of a non-negative rational. -/
theorem isSqrtAt_ratSurfaceOps (x r : ℚ) (hr : 0 ≤ r) (hx : x = r * r) :
    IsSqrtAt ratSurfaceOps.sqrt x := by
  rw [IsSqrtAt, ratSurfaceOps_sqrt_of_sq x r hr hx]
  exact ⟨hr, hx.symm⟩

/-- The point `(5, 0, 3)` is within the bounds of the example straw, for all
collaborators whose square root is exact at 25. -/
theorem isOnSurface_exampleStraw_near (ops : SurfaceOps ℚ (LineBounds ℚ) Bool)
    (hen : ops.enabled true = true) (hin : ops.inside = lineBoundsInside)
    (hs : ops.sqrt 25 = 5) :
    LineSurface.isOnSurface ops exampleStraw ⟨5, 0, 3⟩ true = true := by
  have hloc : Transform3D.apply (Transform3D.inverse (LineSurface.transform exampleStraw))
      (⟨5, 0, 3⟩ : Vector3D ℚ) = ⟨5, 0, 3⟩ := by
    norm_num [exampleStraw, LineSurface.transform, Transform3D.identity, Transform3D.inverse,
      Transform3D.apply, Transform3D.det, Vector3D.dot, Vector3D.cross, Vector3D.divScalar]
  have hperp : Vector3D.perp ops.sqrt (⟨5, 0, 3⟩ : Vector3D ℚ) = 5 := by
    rw [Vector3D.perp]
    norm_num [hs]
  simp only [LineSurface.isOnSurface, hen, hin, hloc, hperp]
  norm_num [exampleStraw, lineBoundsInside]

/-- The round trip of the spec's example, for all collaborators whose
square root is exact at 25 and at 1: the point `(5, 0, 3)` with the momentum
`(1, 0, 0)` has the local coordinates `(5, 3)` and comes back as `(0, 5, 3)`. -/
theorem roundTrip_exampleStraw (ops : SurfaceOps ℚ (LineBounds ℚ) Bool)
    (h25 : ops.sqrt 25 = 5) (h1 : ops.sqrt 1 = 1) :
    (LineSurface.globalToLocal ops exampleStraw ⟨5, 0, 3⟩ ⟨1, 0, 0⟩).2 = ⟨5, 3⟩ ∧
    LineSurface.localToGlobal ops exampleStraw
        (LineSurface.globalToLocal ops exampleStraw ⟨5, 0, 3⟩ ⟨1, 0, 0⟩).2 ⟨1, 0, 0⟩
      = ⟨0, 5, 3⟩ := by
  have hg : (LineSurface.globalToLocal ops exampleStraw ⟨5, 0, 3⟩ ⟨1, 0, 0⟩).2 = ⟨5, 3⟩ := by
    norm_num [LineSurface.globalToLocal, exampleStraw, LineSurface.transform,
      LineSurface.center, LineSurface.lineDirection, Transform3D.identity, Vector3D.dot,
      Vector3D.cross, Vector3D.perp, Vector3D.sub_def, h25]
  refine ⟨hg, ?_⟩
  rw [hg]
  norm_num [LineSurface.localToGlobal, exampleStraw, LineSurface.transform,
    LineSurface.lineDirection, Transform3D.identity, Vector3D.dot, Vector3D.cross,
    Vector3D.normalized, Vector3D.norm, Vector3D.divScalar, Vector3D.smul, Vector3D.add_def, h1]

/-- In exact arithmetic, at a concrete input: the example straw, the point
`(5, 0, 3)` and the momentum `(0, 1, 0)`, orthogonal to the offset of the
point from the axis; the round trip yields the point. -/
theorem localToGlobal_globalToLocal_closest_approach_witness :
    (LineSurface.transform exampleStraw).IsRigid ∧
    Vector3D.dot ((⟨5, 0, 3⟩ : Vector3D ℚ) - LineSurface.center exampleStraw) ⟨0, 1, 0⟩
      = Vector3D.dot ((⟨5, 0, 3⟩ : Vector3D ℚ) - LineSurface.center exampleStraw)
          (LineSurface.lineDirection exampleStraw)
        * Vector3D.dot (LineSurface.lineDirection exampleStraw) ⟨0, 1, 0⟩ ∧
    LineSurface.localToGlobal ratSurfaceOps exampleStraw
        (LineSurface.globalToLocal ratSurfaceOps exampleStraw ⟨5, 0, 3⟩ ⟨0, 1, 0⟩).2 ⟨0, 1, 0⟩
      = ⟨5, 0, 3⟩ := by
  have hrigid : (LineSurface.transform exampleStraw).IsRigid := identity_isRigid
  have hperp : Vector3D.dot ((⟨5, 0, 3⟩ : Vector3D ℚ) - LineSurface.center exampleStraw)
        ⟨0, 1, 0⟩
      = Vector3D.dot ((⟨5, 0, 3⟩ : Vector3D ℚ) - LineSurface.center exampleStraw)
          (LineSurface.lineDirection exampleStraw)
        * Vector3D.dot (LineSurface.lineDirection exampleStraw) ⟨0, 1, 0⟩ := by
    norm_num [Vector3D.dot, Vector3D.sub_def, LineSurface.center, LineSurface.lineDirection,
      LineSurface.transform, exampleStraw, Transform3D.identity]
  have hW : Vector3D.dot
        (Vector3D.cross (LineSurface.lineDirection exampleStraw) (⟨0, 1, 0⟩ : Vector3D ℚ))
        (Vector3D.cross (LineSurface.lineDirection exampleStraw) ⟨0, 1, 0⟩) = 1 * 1 := by
    norm_num [Vector3D.dot, Vector3D.cross, LineSurface.lineDirection,
      LineSurface.transform, exampleStraw, Transform3D.identity]
  have hR : Vector3D.dot ((⟨5, 0, 3⟩ : Vector3D ℚ) - LineSurface.center exampleStraw)
        (⟨5, 0, 3⟩ - LineSurface.center exampleStraw)
      - Vector3D.dot ((⟨5, 0, 3⟩ : Vector3D ℚ) - LineSurface.center exampleStraw)
          (LineSurface.lineDirection exampleStraw)
        * Vector3D.dot ((⟨5, 0, 3⟩ : Vector3D ℚ) - LineSurface.center exampleStraw)
          (LineSurface.lineDirection exampleStraw) = 5 * 5 := by
    norm_num [Vector3D.dot, Vector3D.sub_def, LineSurface.center, LineSurface.lineDirection,
      LineSurface.transform, exampleStraw, Transform3D.identity]
  exact ⟨hrigid, hperp,
    localToGlobal_globalToLocal_closest_approach ratSurfaceOps exampleStraw ⟨5, 0, 3⟩ ⟨0, 1, 0⟩
      hrigid (by rw [hW]; norm_num) hperp
      (isSqrtAt_ratSurfaceOps _ 1 (by norm_num) hW)
      (isSqrtAt_ratSurfaceOps _ 5 (by norm_num) hR)⟩

/-! ### TrackingGeometry::lowestStaticTrackingVolume -/

namespace TrackingGeometry

variable {K V BS L D : Type}

/-- One turn of the static loop: the loop test holds and the body runs. -/
theorem lowestStaticTrackingVolumeLoop_turn [DecidableEq V] (ops : VolumeOps K V BS L D)
    (gp : Vector3D K) (fuel : Nat) (sv : V) (current : Option V) (h : current ≠ some sv) :
    lowestStaticTrackingVolumeLoop ops gp (fuel + 1) (some sv) current
      = lowestStaticTrackingVolumeLoop ops gp fuel
          (if ops.confinedDetachedVolumesEmpty sv then ops.trackingVolume sv gp else some sv)
          (some sv) := by
  simp [lowestStaticTrackingVolumeLoop, h]

/-- The static loop ends when the search volume is null or equal to the
current volume. -/
theorem lowestStaticTrackingVolumeLoop_exit [DecidableEq V] (ops : VolumeOps K V BS L D)
    (gp : Vector3D K) (fuel : Nat) (search : Option V) (cv : V)
    (h : search = none ∨ search = some cv) :
    lowestStaticTrackingVolumeLoop ops gp (fuel + 1) search (some cv) = some (some cv) := by
  rcases h with h | h <;> subst h <;> simp [lowestStaticTrackingVolumeLoop]

/-- The chain from `w` is null after its first link when `trackingVolume` of
`w` is null. -/
theorem descentChain_none (ops : VolumeOps K V BS L D) (gp : Vector3D K) (w : V)
    (h : ops.trackingVolume w gp = none) (i : Nat) :
    descentChain ops gp w (i + 1) = none := by
  induction i with
  | zero => simp [descentChain, h]
  | succ i ih =>
    rw [descentChain, ih]
    rfl

/-- The static descent ends: when `trackingVolume` yields the volume itself,
null, or a volume of smaller height, the static loop entered at `sv` with a
different current volume returns a volume once the fuel exceeds the height of
`sv` by two. -/
theorem lowestStaticTrackingVolumeLoop_ends [DecidableEq V] (ops : VolumeOps K V BS L D)
    (gp : Vector3D K) (height : V → Nat)
    (hdesc : ∀ v u, ops.trackingVolume v gp = some u → u = v ∨ height u < height v) :
    ∀ (n : Nat) (sv : V) (current : Option V), height sv ≤ n → current ≠ some sv →
      ∃ V0, ∀ fuel, height sv + 2 ≤ fuel →
        lowestStaticTrackingVolumeLoop ops gp fuel (some sv) current = some (some V0) := by
  intro n
  induction n with
  | zero =>
    intro sv current hh hne
    refine ⟨sv, fun fuel hfuel => ?_⟩
    obtain ⟨f, rfl⟩ : ∃ f, fuel = f + 2 := ⟨fuel - 2, by omega⟩
    rw [lowestStaticTrackingVolumeLoop_turn ops gp (f + 1) sv current hne]
    apply lowestStaticTrackingVolumeLoop_exit
    by_cases he : ops.confinedDetachedVolumesEmpty sv = true
    · rw [if_pos he]
      cases htv : ops.trackingVolume sv gp with
      | none => exact Or.inl rfl
      | some u =>
        rcases hdesc sv u htv with h | h
        · exact Or.inr (by rw [h])
        · omega
    · rw [if_neg he]
      exact Or.inr rfl
  | succ n ih =>
    intro sv current hh hne
    by_cases hstop : (if ops.confinedDetachedVolumesEmpty sv then ops.trackingVolume sv gp
        else some sv) = none ∨
        (if ops.confinedDetachedVolumesEmpty sv then ops.trackingVolume sv gp
          else some sv) = some sv
    · refine ⟨sv, fun fuel hfuel => ?_⟩
      obtain ⟨f, rfl⟩ : ∃ f, fuel = f + 2 := ⟨fuel - 2, by omega⟩
      rw [lowestStaticTrackingVolumeLoop_turn ops gp (f + 1) sv current hne]
      exact lowestStaticTrackingVolumeLoop_exit ops gp f _ sv hstop
    · have he : ops.confinedDetachedVolumesEmpty sv = true := by
        by_contra hne2
        exact hstop (Or.inr (by rw [if_neg hne2]))
      rw [if_pos he] at hstop
      cases htv : ops.trackingVolume sv gp with
      | none => exact absurd (Or.inl htv) hstop
      | some u =>
        have hu : u ≠ sv := fun h => hstop (Or.inr (by rw [htv, h]))
        have hlt : height u < height sv := by
          rcases hdesc sv u htv with h | h
          · exact absurd h hu
          · exact h
        have hne2 : (some sv : Option V) ≠ some u := fun h => hu (Option.some.inj h).symm
        obtain ⟨V0, hrun⟩ := ih u (some sv) (by omega) hne2
        refine ⟨V0, fun fuel hfuel => ?_⟩
        obtain ⟨f, rfl⟩ : ∃ f, fuel = f + 1 := ⟨fuel - 1, by omega⟩
        rw [lowestStaticTrackingVolumeLoop_turn ops gp f sv current hne, if_pos he, htv]
        exact hrun f (by omega)

/-- The static descent stops at the first volume of the chain that has
confined detached volumes. -/
theorem lowestStaticTrackingVolumeLoop_first_detached [DecidableEq V]
    (ops : VolumeOps K V BS L D) (gp : Vector3D K) :
    ∀ (j : Nat) (sv : V) (current : Option V) (U : V), current ≠ some sv →
      descentChain ops gp sv j = some U → ops.confinedDetachedVolumesEmpty U = false →
      (∀ i, i < j → ∀ u, descentChain ops gp sv i = some u →
        ops.confinedDetachedVolumesEmpty u = true) →
      ∀ fuel, j + 2 ≤ fuel →
        lowestStaticTrackingVolumeLoop ops gp fuel (some sv) current = some (some U) := by
  intro j
  induction j with
  | zero =>
    intro sv current U hne hchain hU _ fuel hfuel
    have hsv : sv = U := Option.some.inj hchain
    subst hsv
    obtain ⟨f, rfl⟩ : ∃ f, fuel = f + 2 := ⟨fuel - 2, by omega⟩
    rw [lowestStaticTrackingVolumeLoop_turn ops gp (f + 1) sv current hne]
    apply lowestStaticTrackingVolumeLoop_exit
    rw [hU]
    exact Or.inr rfl
  | succ j ih =>
    intro sv current U hne hchain hU hprev fuel hfuel
    have he : ops.confinedDetachedVolumesEmpty sv = true := hprev 0 (Nat.succ_pos j) sv rfl
    cases htv : ops.trackingVolume sv gp with
    | none =>
      rw [descentChain_none ops gp sv htv j] at hchain
      exact absurd hchain (by simp)
    | some u =>
      rw [descentChain_succ ops gp sv u htv j] at hchain
      have hu : u ≠ sv := by
        intro h
        rw [h] at hchain
        have := hprev j (Nat.lt_succ_self j) U hchain
        rw [hU] at this
        exact absurd this (by simp)
      have hne2 : (some sv : Option V) ≠ some u := fun h => hu (Option.some.inj h).symm
      obtain ⟨f, rfl⟩ : ∃ f, fuel = f + 1 := ⟨fuel - 1, by omega⟩
      rw [lowestStaticTrackingVolumeLoop_turn ops gp f sv current hne, if_pos he, htv]
      refine ih u (some sv) U hne2 hchain hU ?_ f (by omega)
      intro i hi v hv
      refine hprev (i + 1) (by omega) v ?_
      rw [descentChain_succ ops gp sv u htv i]
      exact hv

/-- Where no volume of the chain has confined detached volumes, the static
loop and the loop of `lowestTrackingVolume` agree, for every fuel. -/
theorem lowestStaticTrackingVolumeLoop_eq [DecidableEq V] (ops : VolumeOps K V BS L D)
    (gp : Vector3D K) :
    ∀ (fuel : Nat) (search current : Option V),
      (∀ sv, search = some sv → ∀ i u, descentChain ops gp sv i = some u →
        ops.confinedDetachedVolumesEmpty u = true) →
      lowestStaticTrackingVolumeLoop ops gp fuel search current
        = lowestTrackingVolumeLoop ops gp fuel search current := by
  intro fuel
  induction fuel with
  | zero =>
    intro search current _
    rfl
  | succ fuel ih =>
    intro search current hall
    cases search with
    | none => rfl
    | some sv =>
      have he : ops.confinedDetachedVolumesEmpty sv = true := hall sv rfl 0 sv rfl
      by_cases hc : current = some sv
      · simp [lowestStaticTrackingVolumeLoop, lowestTrackingVolumeLoop, hc]
      · rw [lowestStaticTrackingVolumeLoop_turn ops gp fuel sv current hc,
          lowestTrackingVolumeLoop_turn ops gp fuel sv current hc, if_pos he]
        apply ih
        intro u hu i v hv
        refine hall sv rfl (i + 1) v ?_
        rw [descentChain_succ ops gp sv u hu i]
        exact hv

/-- C11: in a geometry with world volume `w` whose `trackingVolume(gp)`
yields, on every volume, the volume itself, null, or a volume of smaller
height, `lowestStaticTrackingVolume(gp)` ends and returns a volume; when `U`
is the first volume of the descent chain with a non-empty set of confined
detached volumes, it returns `U`; and when no volume of the chain has
confined detached volumes it returns what `lowestTrackingVolume(gp)` returns. -/
theorem lowestStaticTrackingVolume_stops_at_detached [DecidableEq V]
    (ops : VolumeOps K V BS L D) (geo : TrackingGeometry V) (gp : Vector3D K) (w : V)
    (height : V → Nat) (hworld : geo.m_world = some w)
    (hdesc : ∀ v u, ops.trackingVolume v gp = some u → u = v ∨ height u < height v) :
    (∃ V0, ∀ fuel, height w + 2 ≤ fuel →
      lowestStaticTrackingVolume ops geo fuel gp = some (some V0)) ∧
    (∀ j U, descentChain ops gp w j = some U → ops.confinedDetachedVolumesEmpty U = false →
      (∀ i, i < j → ∀ u, descentChain ops gp w i = some u →
        ops.confinedDetachedVolumesEmpty u = true) →
      ∀ fuel, j + 2 ≤ fuel → lowestStaticTrackingVolume ops geo fuel gp = some (some U)) ∧
    ((∀ i u, descentChain ops gp w i = some u → ops.confinedDetachedVolumesEmpty u = true) →
      ∀ fuel, lowestStaticTrackingVolume ops geo fuel gp
        = lowestTrackingVolume ops geo fuel gp) := by
  refine ⟨?_, ?_, ?_⟩
  · obtain ⟨V0, hrun⟩ :=
      lowestStaticTrackingVolumeLoop_ends ops gp height hdesc (height w) w none (le_refl _)
        (by simp)
    refine ⟨V0, fun fuel hfuel => ?_⟩
    rw [lowestStaticTrackingVolume, hworld]
    exact hrun fuel hfuel
  · intro j U hchain hU hprev fuel hfuel
    rw [lowestStaticTrackingVolume, hworld]
    exact lowestStaticTrackingVolumeLoop_first_detached ops gp j w none U (by simp) hchain hU
      hprev fuel hfuel
  · intro hall fuel
    rw [lowestStaticTrackingVolume, lowestTrackingVolume, hworld]
    apply lowestStaticTrackingVolumeLoop_eq
    intro sv hsv
    have hw : w = sv := Option.some.inj hsv
    subst hw
    exact hall

end TrackingGeometry

/-- C11, at a concrete input: in the example geometry with detached volumes
confined in the world, `lowestStaticTrackingVolume((5, 0, 0))` returns the
world `0`, where `lowestTrackingVolume((5, 0, 0))` descends to the child `1`. -/
theorem lowestStaticTrackingVolume_stops_at_detached_witness :
    exampleGeometry.m_world = some 0 ∧
    (∀ v u, exampleDetachedVolumeOps.trackingVolume v ⟨5, 0, 0⟩ = some u →
      u = v ∨ 1 - u < 1 - v) ∧
    TrackingGeometry.lowestStaticTrackingVolume exampleDetachedVolumeOps exampleGeometry 2
      ⟨5, 0, 0⟩ = some (some 0) ∧
    TrackingGeometry.lowestTrackingVolume exampleDetachedVolumeOps exampleGeometry 3
      ⟨5, 0, 0⟩ = some (some 1) :=
  ⟨rfl, exampleVolumeOps_descends false ⟨5, 0, 0⟩,
    (TrackingGeometry.lowestStaticTrackingVolume_stops_at_detached exampleDetachedVolumeOps
        exampleGeometry ⟨5, 0, 0⟩ 0 (fun v => 1 - v) rfl
        (exampleVolumeOps_descends false ⟨5, 0, 0⟩)).2.1 0 0 rfl (by decide)
      (fun i hi => absurd hi (Nat.not_lt_zero i)) 2 (le_refl 2),
    by decide⟩

/-! ### TrackingGeometry::associatedLayer -/

namespace TrackingGeometry

variable {K V BS L D : Type}

/-- The two outcomes of `associatedLayer(gp)`: where `lowestTrackingVolume(gp)`
returns a volume, the result of `associatedLayer(gp)` of that volume; in a
geometry without a world volume, where `lowestTrackingVolume` returns null,
the dereference of the null pointer. -/
theorem associatedLayer_delegates_or_dereferences_null [DecidableEq V]
    (ops : VolumeOps K V BS L D) (geo : TrackingGeometry V) (fuel : Nat) (gp : Vector3D K) :
    (∀ v, lowestTrackingVolume ops geo fuel gp = some (some v) →
      associatedLayer ops geo fuel gp = some (Deref.value (ops.associatedLayer v gp))) ∧
    (geo.m_world = none →
      lowestTrackingVolume ops geo (fuel + 1) gp = some none ∧
      associatedLayer ops geo (fuel + 1) gp = some Deref.nullDereference) := by
  refine ⟨?_, ?_⟩
  · intro v hv
    simp [associatedLayer, hv]
  · intro hw
    have hl : lowestTrackingVolume ops geo (fuel + 1) gp = some none := by
      simp [lowestTrackingVolume, lowestTrackingVolumeLoop, hw]
    refine ⟨hl, ?_⟩
    simp [associatedLayer, hl]

end TrackingGeometry

/-- C12, on the code, at the failing input: for the geometry built from a
null world volume and the point `(0, 0, 0)`, `lowestTrackingVolume` returns
null and `associatedLayer` dereferences that null pointer instead of
returning null. -/
theorem associatedLayer_null_world_example :
    exampleEmptyGeometry.m_world = none ∧
    TrackingGeometry.lowestTrackingVolume (exampleVolumeOps false) exampleEmptyGeometry 1
      ⟨0, 0, 0⟩ = some none ∧
    TrackingGeometry.associatedLayer (exampleVolumeOps false) exampleEmptyGeometry 1
      ⟨0, 0, 0⟩ = some TrackingGeometry.Deref.nullDereference := by
  decide

/-! ### StraightLineStepper::State -/

/-- Each call of `step` leaves the direction, the charge over momentum, the
navigation direction and the step size of the state as they are. -/
theorem step_preserves {K cstep : Type} [Add K] [Mul K]
    (ops : ConstrainedStepOps K cstep) (state : State K cstep) :
    (step ops state).2.dir = state.dir ∧ (step ops state).2.qop = state.qop ∧
    (step ops state).2.navDir = state.navDir ∧
    (step ops state).2.stepSize = state.stepSize :=
  ⟨rfl, rfl, rfl, rfl⟩

/-- Any number of calls of `step` leaves the direction, the charge over
momentum, the navigation direction and the step size as they are. -/
theorem stepN_preserves {K cstep : Type} [Add K] [Mul K]
    (ops : ConstrainedStepOps K cstep) (n : Nat) (state : State K cstep) :
    (stepN ops n state).dir = state.dir ∧ (stepN ops n state).qop = state.qop ∧
    (stepN ops n state).navDir = state.navDir ∧
    (stepN ops n state).stepSize = state.stepSize := by
  induction n generalizing state with
  | zero => exact ⟨rfl, rfl, rfl, rfl⟩
  | succ n ih =>
    obtain ⟨h1, h2, h3, h4⟩ := ih (step ops state).2
    obtain ⟨g1, g2, g3, g4⟩ := step_preserves ops state
    exact ⟨h1.trans g1, h2.trans g2, h3.trans g3, h4.trans g4⟩

/-- The exact root of a non-zero number is not zero. -/
theorem sqrt_ne_zero_of_isSqrtAt {K : Type} [LinearOrderedField K] (sqrt : K → K) (x : K)
    (h : IsSqrtAt sqrt x) (hx : x ≠ 0) : sqrt x ≠ 0 := by
  intro h0
  obtain ⟨_, hsq⟩ := h
  rw [h0, mul_zero] at hsq
  exact hx hsq.symm

/-- C13: for every step-size guess `ssize`, `State(par, ndir, ssize)` has the
position of `par`, the direction `momentum / |momentum|`, the charge over
momentum `charge / |momentum|`, the navigation direction `ndir`, the
accumulated path 0 and the step size built from `ndir * ssize`; when the
conversion of a constrained step to `double` returns the value it was built
from, the step size is `ndir * ssize`, which for `ssize > 0` is positive
forward and negative backward; the default arguments are `forward` and the
largest `double`. -/
theorem State_init_fields {K cstep : Type} [LinearOrderedField K]
    (ops : ConstrainedStepOps K cstep) (sqrt : K → K) (par : TrackParameters K)
    (ndir : NavigationDirection) (ssize : K) :
    (State.init ops sqrt par ndir ssize).pos = par.position ∧
    (State.init ops sqrt par ndir ssize).dir
      = Vector3D.divScalar par.momentum (sqrt (Vector3D.dot par.momentum par.momentum)) ∧
    (State.init ops sqrt par ndir ssize).qop
      = par.charge / sqrt (Vector3D.dot par.momentum par.momentum) ∧
    (State.init ops sqrt par ndir ssize).navDir = ndir ∧
    (State.init ops sqrt par ndir ssize).accumulatedPath = 0 ∧
    (State.init ops sqrt par ndir ssize).stepSize = ops.ofDouble ((ndir.toInt : K) * ssize) ∧
    ((∀ x, ops.toDouble (ops.ofDouble x) = x) →
      ops.toDouble (State.init ops sqrt par ndir ssize).stepSize = (ndir.toInt : K) * ssize) ∧
    ((∀ x, ops.toDouble (ops.ofDouble x) = x) → 0 < ssize →
      ndir = NavigationDirection.forward →
      0 < ops.toDouble (State.init ops sqrt par ndir ssize).stepSize) ∧
    ((∀ x, ops.toDouble (ops.ofDouble x) = x) → 0 < ssize →
      ndir = NavigationDirection.backward →
      ops.toDouble (State.init ops sqrt par ndir ssize).stepSize < 0) ∧
    State.initDefault ops sqrt par
      = State.init ops sqrt par NavigationDirection.forward (2 ^ 1024 - 2 ^ 971) ∧
    ((∀ x, ops.toDouble (ops.ofDouble x) = x) →
      ops.toDouble (State.initDefault ops sqrt par).stepSize = 2 ^ 1024 - 2 ^ 971) := by
  have hstep : (∀ x, ops.toDouble (ops.ofDouble x) = x) →
      ops.toDouble (State.init ops sqrt par ndir ssize).stepSize
        = (ndir.toInt : K) * ssize := fun hround => hround _
  refine ⟨rfl, rfl, rfl, rfl, rfl, rfl, hstep, ?_, ?_, rfl, ?_⟩
  · intro hround hss hf
    rw [hstep hround, hf]
    simpa [NavigationDirection.toInt] using hss
  · intro hround hss hb
    rw [hstep hround, hb]
    simpa [NavigationDirection.toInt] using hss
  · intro hround
    have h : ops.toDouble (State.initDefault ops sqrt par).stepSize
        = ((NavigationDirection.forward.toInt : Int) : K) * (2 ^ 1024 - 2 ^ 971) := hround _
    rw [h]
    simp [NavigationDirection.toInt]

/-- C13, at concrete inputs: the parameters with momentum `(3, 4, 0)` and
charge 1; with the direction `backward` and the guess 7 the step size is
`-7`, and with the direction `forward` and the negative guess `-4` the state
has the same position, direction and charge over momentum and the step size
`-4`. -/
theorem State_init_fields_witness :
    (∀ x, ratStepOps.toDouble (ratStepOps.ofDouble x) = x) ∧ (0 : ℚ) < 7 ∧
    (State.init ratStepOps ratSurfaceOps.sqrt examplePositiveParameters
        NavigationDirection.backward 7).pos = ⟨0, 0, 0⟩ ∧
    ratStepOps.toDouble (State.init ratStepOps ratSurfaceOps.sqrt examplePositiveParameters
        NavigationDirection.backward 7).stepSize = -7 ∧
    ratStepOps.toDouble (State.init ratStepOps ratSurfaceOps.sqrt examplePositiveParameters
        NavigationDirection.backward 7).stepSize < 0 ∧
    (State.init ratStepOps ratSurfaceOps.sqrt examplePositiveParameters
        NavigationDirection.forward (-4)).pos = ⟨0, 0, 0⟩ ∧
    (State.init ratStepOps ratSurfaceOps.sqrt examplePositiveParameters
        NavigationDirection.forward (-4)).navDir = NavigationDirection.forward ∧
    ratStepOps.toDouble (State.init ratStepOps ratSurfaceOps.sqrt examplePositiveParameters
        NavigationDirection.forward (-4)).stepSize = -4 := by
  obtain ⟨h1, _, _, _, _, _, h7, _, h9, _, _⟩ :=
    State_init_fields ratStepOps ratSurfaceOps.sqrt examplePositiveParameters
      NavigationDirection.backward 7
  obtain ⟨g1, _, _, g4, _, _, g7, _, _, _, _⟩ :=
    State_init_fields ratStepOps ratSurfaceOps.sqrt examplePositiveParameters
      NavigationDirection.forward (-4)
  refine ⟨fun _ => rfl, by norm_num, h1, ?_, h9 (fun _ => rfl) (by norm_num) rfl,
    g1, g4, ?_⟩
  · rw [h7 (fun _ => rfl)]
    norm_num [NavigationDirection.toInt]
  · rw [g7 (fun _ => rfl)]
    norm_num [NavigationDirection.toInt]

/-- The charge over momentum of a state built from parameters of charge 0 is
0, whatever the momentum and the square root. -/
theorem State_init_qop_of_neutral {K cstep : Type} [LinearOrderedField K]
    (ops : ConstrainedStepOps K cstep) (sqrt : K → K) (par : TrackParameters K)
    (ndir : NavigationDirection) (ssize : K) (h : par.charge = 0) (n : Nat) :
    (stepN ops n (State.init ops sqrt par ndir ssize)).qop = 0 := by
  rw [(stepN_preserves ops n _).2.1]
  show par.charge / Vector3D.norm sqrt par.momentum = 0
  rw [h, zero_div]

/-- In exact arithmetic (a linearly ordered field, no rounding and no
overflow): for every state built from track parameters with non-zero momentum and non-zero charge (the square root being exact at the
squared momentum), the charge over momentum is not zero, at construction and
after any number of calls of `step`. -/
theorem qop_ne_zero_of_charged {K cstep : Type} [LinearOrderedField K]
    (ops : ConstrainedStepOps K cstep) (sqrt : K → K) (par : TrackParameters K)
    (ndir : NavigationDirection) (ssize : K) (hcharge : par.charge ≠ 0)
    (hmom : Vector3D.dot par.momentum par.momentum ≠ 0)
    (hsqrt : IsSqrtAt sqrt (Vector3D.dot par.momentum par.momentum)) (n : Nat) :
    (stepN ops n (State.init ops sqrt par ndir ssize)).qop ≠ 0 := by
  rw [(stepN_preserves ops n _).2.1]
  show par.charge / sqrt (Vector3D.dot par.momentum par.momentum) ≠ 0
  exact div_ne_zero hcharge (sqrt_ne_zero_of_isSqrtAt sqrt _ hsqrt hmom)

/-- The squared momentum of the example parameters of positive charge is 25. -/
theorem examplePositiveParameters_momentum_sq :
    Vector3D.dot examplePositiveParameters.momentum examplePositiveParameters.momentum
      = 5 * 5 := by
  norm_num [Vector3D.dot, examplePositiveParameters]

/-- In exact arithmetic, at a concrete input: the parameters of charge 1 with
the momentum `(3, 4, 0)`, after two steps backward. -/
theorem qop_ne_zero_of_charged_witness :
    examplePositiveParameters.charge ≠ 0 ∧
    Vector3D.dot examplePositiveParameters.momentum examplePositiveParameters.momentum ≠ 0 ∧
    (stepN ratStepOps 2 (State.init ratStepOps ratSurfaceOps.sqrt examplePositiveParameters
        NavigationDirection.backward 7)).qop ≠ 0 := by
  have hc : examplePositiveParameters.charge ≠ 0 := by
    norm_num [examplePositiveParameters]
  have hm : Vector3D.dot examplePositiveParameters.momentum
      examplePositiveParameters.momentum ≠ 0 := by
    rw [examplePositiveParameters_momentum_sq]
    norm_num
  exact ⟨hc, hm,
    qop_ne_zero_of_charged ratStepOps ratSurfaceOps.sqrt examplePositiveParameters
      NavigationDirection.backward 7 hc hm
      (isSqrtAt_ratSurfaceOps _ 5 (by norm_num) examplePositiveParameters_momentum_sq) 2⟩

/-- A non-zero vector over its exact length has squared length 1. -/
theorem normalized_unit {K : Type} [LinearOrderedField K] (sqrt : K → K) (v : Vector3D K)
    (hv : Vector3D.dot v v ≠ 0) (hs : IsSqrtAt sqrt (Vector3D.dot v v)) :
    Vector3D.dot (Vector3D.normalized sqrt v) (Vector3D.normalized sqrt v) = 1 := by
  have hnw := sqrt_ne_zero_of_isSqrtAt sqrt _ hs hv
  obtain ⟨_, hsq⟩ := hs
  rw [Vector3D.normalized, Vector3D.norm]
  generalize sqrt (Vector3D.dot v v) = nw at hnw hsq
  simp only [Vector3D.dot, Vector3D.divScalar] at hsq ⊢
  field_simp
  linear_combination -hsq

/-- The exact root of 1 is 1. -/
theorem sqrt_one_of_isSqrtAt {K : Type} [LinearOrderedField K] (sqrt : K → K)
    (h : IsSqrtAt sqrt 1) : sqrt 1 = 1 := by
  obtain ⟨h0, hsq⟩ := h
  have hprod : (sqrt 1 - 1) * (sqrt 1 + 1) = 0 := by linear_combination hsq
  rcases mul_eq_zero.mp hprod with h | h
  · linear_combination h
  · linarith

/-- In exact arithmetic (a linearly ordered field, no rounding): a state
built from track parameters with non-zero momentum (the
square root being exact at the squared momentum) has a direction of squared
length 1; each call of `step` leaves the direction, the charge over
momentum, the navigation direction and the step size unchanged; so the
direction has squared length 1 after any number of steps, and length 1 when
the square root is exact at 1. -/
theorem direction_unit_norm {K cstep : Type} [LinearOrderedField K]
    (ops : ConstrainedStepOps K cstep) (sqrt : K → K) (par : TrackParameters K)
    (ndir : NavigationDirection) (ssize : K)
    (hmom : Vector3D.dot par.momentum par.momentum ≠ 0)
    (hsqrt : IsSqrtAt sqrt (Vector3D.dot par.momentum par.momentum)) :
    Vector3D.dot (State.init ops sqrt par ndir ssize).dir
      (State.init ops sqrt par ndir ssize).dir = 1 ∧
    (∀ state : State K cstep,
      (step ops state).2.dir = state.dir ∧ (step ops state).2.qop = state.qop ∧
      (step ops state).2.navDir = state.navDir ∧
      (step ops state).2.stepSize = state.stepSize) ∧
    (∀ n, Vector3D.dot (stepN ops n (State.init ops sqrt par ndir ssize)).dir
      (stepN ops n (State.init ops sqrt par ndir ssize)).dir = 1) ∧
    (IsSqrtAt sqrt 1 →
      ∀ n, Vector3D.norm sqrt (stepN ops n (State.init ops sqrt par ndir ssize)).dir = 1) := by
  have h0 : Vector3D.dot (State.init ops sqrt par ndir ssize).dir
      (State.init ops sqrt par ndir ssize).dir = 1 :=
    normalized_unit sqrt par.momentum hmom hsqrt
  have hn : ∀ n, Vector3D.dot (stepN ops n (State.init ops sqrt par ndir ssize)).dir
      (stepN ops n (State.init ops sqrt par ndir ssize)).dir = 1 := by
    intro n
    rw [(stepN_preserves ops n _).1]
    exact h0
  refine ⟨h0, step_preserves ops, hn, ?_⟩
  intro h1 n
  rw [Vector3D.norm, hn n]
  exact sqrt_one_of_isSqrtAt sqrt h1

/-- In exact arithmetic, at a concrete input: the parameters with the momentum `(3, 4, 0)`;
after three steps the direction has squared length 1. -/
theorem direction_unit_norm_witness :
    Vector3D.dot examplePositiveParameters.momentum examplePositiveParameters.momentum ≠ 0 ∧
    Vector3D.dot
      (stepN ratStepOps 3 (State.init ratStepOps ratSurfaceOps.sqrt examplePositiveParameters
        NavigationDirection.forward 7)).dir
      (stepN ratStepOps 3 (State.init ratStepOps ratSurfaceOps.sqrt examplePositiveParameters
        NavigationDirection.forward 7)).dir = 1 := by
  have hm : Vector3D.dot examplePositiveParameters.momentum
      examplePositiveParameters.momentum ≠ 0 := by
    rw [examplePositiveParameters_momentum_sq]
    norm_num
  exact ⟨hm,
    (direction_unit_norm ratStepOps ratSurfaceOps.sqrt examplePositiveParameters
      NavigationDirection.forward 7 hm
      (isSqrtAt_ratSurfaceOps _ 5 (by norm_num) examplePositiveParameters_momentum_sq)).2.2.1 3⟩

/-- The accessor `momentum()` on a freshly built state: the momentum of the
parameters over their charge; and the momentum that `convert` reports: the
momentum of the parameters over the size of their charge. -/
theorem State_momentum_init {K cstep : Type} [LinearOrderedField K]
    (ops : ConstrainedStepOps K cstep) (sqrt : K → K) (par : TrackParameters K)
    (ndir : NavigationDirection) (ssize : K) (hcharge : par.charge ≠ 0)
    (hmom : Vector3D.dot par.momentum par.momentum ≠ 0)
    (hsqrt : IsSqrtAt sqrt (Vector3D.dot par.momentum par.momentum)) :
    (State.init ops sqrt par ndir ssize).momentum
      = Vector3D.smul (1 / par.charge) par.momentum ∧
    (convert (State.init ops sqrt par ndir ssize)).momentum
      = Vector3D.divScalar par.momentum |par.charge| := by
  have hnw := sqrt_ne_zero_of_isSqrtAt sqrt _ hsqrt hmom
  obtain ⟨hnw0, _⟩ := hsqrt
  have hpos : 0 < sqrt (Vector3D.dot par.momentum par.momentum) :=
    lt_of_le_of_ne hnw0 (Ne.symm hnw)
  have habs : |par.charge| ≠ 0 := abs_ne_zero.mpr hcharge
  constructor
  · show Vector3D.smul (1 / (par.charge / sqrt (Vector3D.dot par.momentum par.momentum)))
        (Vector3D.divScalar par.momentum (sqrt (Vector3D.dot par.momentum par.momentum)))
      = Vector3D.smul (1 / par.charge) par.momentum
    generalize sqrt (Vector3D.dot par.momentum par.momentum) = nw at hnw
    simp only [Vector3D.smul, Vector3D.divScalar]
    ext <;> simp only <;> field_simp <;> ring
  · show Vector3D.divScalar
        (Vector3D.divScalar par.momentum (sqrt (Vector3D.dot par.momentum par.momentum)))
        |par.charge / sqrt (Vector3D.dot par.momentum par.momentum)|
      = Vector3D.divScalar par.momentum |par.charge|
    rw [abs_div, abs_of_pos hpos]
    generalize sqrt (Vector3D.dot par.momentum par.momentum) = nw at hnw
    simp only [Vector3D.divScalar]
    ext <;> simp only <;> field_simp

/-- C20, on the code, at the failing input: for the parameters of charge `-1`
with the momentum `(1, 0, 0)`, the accessor `momentum()` of the state returns
`(-1, 0, 0)`, the opposite of the momentum of the parameters, while `convert`
reports the momentum `(1, 0, 0)`. -/
theorem State_momentum_negative_charge :
    exampleNegativeParameters.momentum = ⟨1, 0, 0⟩ ∧
    (State.init ratStepOps ratSurfaceOps.sqrt exampleNegativeParameters
        NavigationDirection.forward 1).momentum = ⟨-1, 0, 0⟩ ∧
    (convert (State.init ratStepOps ratSurfaceOps.sqrt exampleNegativeParameters
        NavigationDirection.forward 1)).momentum = ⟨1, 0, 0⟩ := by
  have hsq : Vector3D.dot exampleNegativeParameters.momentum
      exampleNegativeParameters.momentum = 1 * 1 := by
    norm_num [Vector3D.dot, exampleNegativeParameters]
  obtain ⟨h1, h2⟩ := State_momentum_init ratStepOps ratSurfaceOps.sqrt
    exampleNegativeParameters NavigationDirection.forward 1
    (by norm_num [exampleNegativeParameters]) (by rw [hsq]; norm_num)
    (isSqrtAt_ratSurfaceOps _ 1 (by norm_num) hsq)
  refine ⟨rfl, ?_, ?_⟩
  · rw [h1]
    norm_num [Vector3D.smul, exampleNegativeParameters]
  · rw [h2]
    norm_num [Vector3D.divScalar, exampleNegativeParameters]

/-! ### LineSurface::globalToLocal, isOnSurface and referenceFrame -/

/-- The inverse of the identity placement leaves every point where it is. -/
theorem apply_inverse_identity {K : Type} [LinearOrderedField K] (g : Vector3D K) :
    Transform3D.apply (Transform3D.inverse (Transform3D.identity : Transform3D K)) g = g := by
  simp [Transform3D.inverse, Transform3D.identity, Transform3D.apply, Transform3D.det,
    Vector3D.dot, Vector3D.cross, Vector3D.divScalar]

/-- The point `loc3Dframe` of `globalToLocal` is the global point under the
inverse of the placement `transform()`, also for a surface with neither a
transform nor a detector element, whose placement is the identity. -/
theorem loc3Dframe_eq {K B : Type} [LinearOrderedField K] (s : LineSurface K B)
    (gpos : Vector3D K) :
    (if s.m_transform.isSome || s.m_associatedDetElement.isSome then
        Transform3D.apply (Transform3D.inverse (LineSurface.transform s)) gpos
      else gpos)
      = Transform3D.apply (Transform3D.inverse (LineSurface.transform s)) gpos := by
  by_cases hc : (s.m_transform.isSome || s.m_associatedDetElement.isSome) = true
  · rw [if_pos hc]
  · rw [if_neg hc]
    obtain ⟨mt, md, mb⟩ := s
    cases mt with
    | some t => simp at hc
    | none =>
      cases md with
      | some d => simp at hc
      | none => exact (apply_inverse_identity gpos).symm

/-- C16: `globalToLocal` returns true and the local position `(s * d, z)`,
where `d` is the transverse length and `z` the third coordinate of the
global position taken into the local frame by the inverse placement, and
the sign `s` is `-1` exactly when `(axis x mom) . (gpos - center) < 0` and `+1`
otherwise; for a rigid placement `z` is the coordinate of `gpos - center`
along the axis and `d^2` is the squared distance of `gpos` from the axis. -/
theorem globalToLocal_signed_radius {K B BC : Type} [LinearOrderedField K]
    (ops : SurfaceOps K B BC) (s : LineSurface K B) (gpos mom : Vector3D K) :
    (LineSurface.globalToLocal ops s gpos mom).1 = true ∧
    (LineSurface.globalToLocal ops s gpos mom).2
      = ⟨(if Vector3D.dot (Vector3D.cross (LineSurface.lineDirection s) mom)
              (gpos - LineSurface.center s) < 0 then -1 else 1)
          * Vector3D.perp ops.sqrt
              (Transform3D.apply (Transform3D.inverse (LineSurface.transform s)) gpos),
         (Transform3D.apply (Transform3D.inverse (LineSurface.transform s)) gpos).z⟩ ∧
    ((LineSurface.transform s).IsRigid →
      (Transform3D.apply (Transform3D.inverse (LineSurface.transform s)) gpos).z
        = Vector3D.dot (LineSurface.lineDirection s) (gpos - LineSurface.center s) ∧
      (Transform3D.apply (Transform3D.inverse (LineSurface.transform s)) gpos).x
          * (Transform3D.apply (Transform3D.inverse (LineSurface.transform s)) gpos).x
        + (Transform3D.apply (Transform3D.inverse (LineSurface.transform s)) gpos).y
          * (Transform3D.apply (Transform3D.inverse (LineSurface.transform s)) gpos).y
        = Vector3D.dot (gpos - LineSurface.center s) (gpos - LineSurface.center s)
          - Vector3D.dot (gpos - LineSurface.center s) (LineSurface.lineDirection s)
            * Vector3D.dot (gpos - LineSurface.center s) (LineSurface.lineDirection s)) := by
  refine ⟨rfl, ?_, ?_⟩
  · simp only [LineSurface.globalToLocal, loc3Dframe_eq]
    rw [mul_comm]
  · intro hrigid
    rw [apply_inverse_of_rigid _ hrigid gpos]
    exact ⟨rfl, transverse_sq_of_rigid _ hrigid _⟩

/-- C17: `isOnSurface` returns true when the boundary check is disabled, and
when the surface has neither bounds nor a detector element; in every other
case it returns `bounds().inside` of the local candidate (the transverse
length and the third coordinate of the position taken into the local frame
by the inverse placement) under the boundary check. -/
theorem isOnSurface_cases {K B BC : Type} [LinearOrderedField K]
    (ops : SurfaceOps K B BC) (s : LineSurface K B) (gpos : Vector3D K) (bcheck : BC) :
    (ops.enabled bcheck = false → LineSurface.isOnSurface ops s gpos bcheck = true) ∧
    (s.m_bounds = none → s.m_associatedDetElement = none →
      LineSurface.isOnSurface ops s gpos bcheck = true) ∧
    (ops.enabled bcheck = true → (s.m_bounds ≠ none ∨ s.m_associatedDetElement ≠ none) →
      LineSurface.isOnSurface ops s gpos bcheck
        = ops.inside s.m_bounds
            ⟨Vector3D.perp ops.sqrt
                (Transform3D.apply (Transform3D.inverse (LineSurface.transform s)) gpos),
              (Transform3D.apply (Transform3D.inverse (LineSurface.transform s)) gpos).z⟩
            bcheck) := by
  refine ⟨?_, ?_, ?_⟩
  · intro h
    simp [LineSurface.isOnSurface, h]
  · intro hb hd
    simp [LineSurface.isOnSurface, hb, hd]
  · intro hen hor
    have hno : ¬ ((s.m_bounds.isNone && s.m_associatedDetElement.isNone) = true) := by
      intro h
      rw [Bool.and_eq_true, Option.isNone_iff_eq_none, Option.isNone_iff_eq_none] at h
      rcases hor with h1 | h1
      · exact h1 h.1
      · exact h1 h.2
    simp only [LineSurface.isOnSurface, hen, Bool.not_true, Bool.false_eq_true, if_false,
      if_neg hno]

/-- A vector is orthogonal to its vector product with another vector. -/
theorem dot_cross_left {K : Type} [LinearOrderedField K] (a b : Vector3D K) :
    Vector3D.dot a (Vector3D.cross a b) = 0 := by
  simp only [Vector3D.dot, Vector3D.cross]
  ring

/-- A vector is orthogonal to the vector product of another vector with it. -/
theorem dot_cross_right {K : Type} [LinearOrderedField K] (a b : Vector3D K) :
    Vector3D.dot b (Vector3D.cross a b) = 0 := by
  simp only [Vector3D.dot, Vector3D.cross]
  ring

/-- The matrix with the columns `a`, `b` and `a x b`, for orthogonal unit
vectors `a` and `b`, has determinant 1. -/
theorem det_of_orthonormal {K : Type} [LinearOrderedField K] (a b : Vector3D K)
    (haa : Vector3D.dot a a = 1) (hbb : Vector3D.dot b b = 1) (hab : Vector3D.dot a b = 0) :
    RotationMatrix3D.det ⟨a, b, Vector3D.cross a b⟩ = 1 := by
  simp only [RotationMatrix3D.det, Vector3D.dot, Vector3D.cross] at haa hbb hab ⊢
  linear_combination (b.x * b.x + b.y * b.y + b.z * b.z) * haa + hbb
    - (a.x * b.x + a.y * b.y + a.z * b.z) * hab

/-- In exact arithmetic (a linearly ordered field, no rounding): for a line
surface with unit axis and a momentum not parallel to
the axis (the square root being exact at the squared length of `axis x mom`),
`referenceFrame` returns the matrix whose second column is the axis, whose
first column is the normalised `axis x mom` and whose third column is the
vector product of the first two; the columns have squared length 1 and are
mutually orthogonal, the determinant is `+1`, and the result does not depend
on the position argument. -/
theorem referenceFrame_orthonormal {K B BC : Type} [LinearOrderedField K]
    (ops : SurfaceOps K B BC) (s : LineSurface K B) (gpos mom : Vector3D K)
    (haxis : Vector3D.dot (LineSurface.lineDirection s) (LineSurface.lineDirection s) = 1)
    (hmom : Vector3D.dot (Vector3D.cross (LineSurface.lineDirection s) mom)
      (Vector3D.cross (LineSurface.lineDirection s) mom) ≠ 0)
    (hsqrt : IsSqrtAt ops.sqrt
      (Vector3D.dot (Vector3D.cross (LineSurface.lineDirection s) mom)
        (Vector3D.cross (LineSurface.lineDirection s) mom))) :
    (LineSurface.referenceFrame ops s gpos mom).col1 = LineSurface.lineDirection s ∧
    (LineSurface.referenceFrame ops s gpos mom).col0
      = Vector3D.normalized ops.sqrt (Vector3D.cross (LineSurface.lineDirection s) mom) ∧
    (LineSurface.referenceFrame ops s gpos mom).col2
      = Vector3D.cross (LineSurface.referenceFrame ops s gpos mom).col0
          (LineSurface.referenceFrame ops s gpos mom).col1 ∧
    Vector3D.dot (LineSurface.referenceFrame ops s gpos mom).col0
      (LineSurface.referenceFrame ops s gpos mom).col0 = 1 ∧
    Vector3D.dot (LineSurface.referenceFrame ops s gpos mom).col1
      (LineSurface.referenceFrame ops s gpos mom).col1 = 1 ∧
    Vector3D.dot (LineSurface.referenceFrame ops s gpos mom).col2
      (LineSurface.referenceFrame ops s gpos mom).col2 = 1 ∧
    Vector3D.dot (LineSurface.referenceFrame ops s gpos mom).col0
      (LineSurface.referenceFrame ops s gpos mom).col1 = 0 ∧
    Vector3D.dot (LineSurface.referenceFrame ops s gpos mom).col0
      (LineSurface.referenceFrame ops s gpos mom).col2 = 0 ∧
    Vector3D.dot (LineSurface.referenceFrame ops s gpos mom).col1
      (LineSurface.referenceFrame ops s gpos mom).col2 = 0 ∧
    RotationMatrix3D.det (LineSurface.referenceFrame ops s gpos mom) = 1 ∧
    ∀ gpos2 : Vector3D K,
      LineSurface.referenceFrame ops s gpos2 mom = LineSurface.referenceFrame ops s gpos mom := by
  have hXX := normalized_unit ops.sqrt _ hmom hsqrt
  have hnw := sqrt_ne_zero_of_isSqrtAt ops.sqrt _ hsqrt hmom
  have hXe : Vector3D.dot
      (Vector3D.normalized ops.sqrt (Vector3D.cross (LineSurface.lineDirection s) mom))
      (LineSurface.lineDirection s) = 0 := by
    rw [Vector3D.normalized, Vector3D.norm]
    generalize ops.sqrt (Vector3D.dot (Vector3D.cross (LineSurface.lineDirection s) mom)
      (Vector3D.cross (LineSurface.lineDirection s) mom)) = nw at hnw
    simp only [Vector3D.dot, Vector3D.cross, Vector3D.divScalar]
    field_simp
    ring
  exact ⟨rfl, rfl, rfl, hXX, haxis, cross_unit _ _ hXX haxis hXe, hXe,
    dot_cross_left _ _, dot_cross_right _ _, det_of_orthonormal _ _ hXX haxis hXe,
    fun _ => rfl⟩

/-- In exact arithmetic, at a concrete input: the example straw (axis along z) and the
momentum `(0, 1, 0)`; the second column of the frame is the axis and the
determinant is 1. -/
theorem referenceFrame_orthonormal_witness :
    Vector3D.dot (LineSurface.lineDirection exampleStraw)
      (LineSurface.lineDirection exampleStraw) = 1 ∧
    (LineSurface.referenceFrame ratSurfaceOps exampleStraw ⟨5, 0, 3⟩ ⟨0, 1, 0⟩).col1
      = ⟨0, 0, 1⟩ ∧
    RotationMatrix3D.det
      (LineSurface.referenceFrame ratSurfaceOps exampleStraw ⟨5, 0, 3⟩ ⟨0, 1, 0⟩) = 1 := by
  have haxis : Vector3D.dot (LineSurface.lineDirection exampleStraw)
      (LineSurface.lineDirection exampleStraw) = (1 : ℚ) := by
    norm_num [Vector3D.dot, LineSurface.lineDirection, LineSurface.transform, exampleStraw,
      Transform3D.identity]
  have hW : Vector3D.dot
        (Vector3D.cross (LineSurface.lineDirection exampleStraw) (⟨0, 1, 0⟩ : Vector3D ℚ))
        (Vector3D.cross (LineSurface.lineDirection exampleStraw) ⟨0, 1, 0⟩) = 1 * 1 := by
    norm_num [Vector3D.dot, Vector3D.cross, LineSurface.lineDirection,
      LineSurface.transform, exampleStraw, Transform3D.identity]
  obtain ⟨h1, _, _, _, _, _, _, _, _, hdet, _⟩ :=
    referenceFrame_orthonormal ratSurfaceOps exampleStraw ⟨5, 0, 3⟩ ⟨0, 1, 0⟩ haxis
      (by rw [hW]; norm_num) (isSqrtAt_ratSurfaceOps _ 1 (by norm_num) hW)
  exact ⟨haxis, h1.trans rfl, hdet⟩

/-! ### AbortList -/

/-- When the conditions `pre` all return false and the next condition `c`
returns true, the check returns true with the states that `c` leaves,
whatever conditions `post` follow. -/
theorem abort_list_impl_check_append {R P S E : Type} (pre : List (AbortCondition R P S E))
    (c : AbortCondition R P S E) (post : List (AbortCondition R P S E)) (r : R) :
    ∀ (p : P) (s : S) (p1 : P) (s1 : S) (p2 : P) (s2 : S),
      abort_list_impl_check pre r p s = Except.ok (false, p1, s1) →
      c r p1 s1 = Except.ok (true, p2, s2) →
      abort_list_impl_check (pre ++ c :: post) r p s = Except.ok (true, p2, s2) := by
  induction pre with
  | nil =>
    intro p s p1 s1 p2 s2 hpre hc
    simp only [abort_list_impl_check, Except.ok.injEq, Prod.mk.injEq, true_and] at hpre
    obtain ⟨hp, hs⟩ := hpre
    subst hp
    subst hs
    simp only [List.nil_append, abort_list_impl_check, hc]
  | cons c0 pre ih =>
    intro p s p1 s1 p2 s2 hpre hc
    simp only [List.cons_append, abort_list_impl_check] at hpre ⊢
    cases h0 : c0 r p s with
    | error e => simp [h0] at hpre
    | ok v =>
      obtain ⟨b, p0, s0⟩ := v
      cases b with
      | true => simp [h0] at hpre
      | false =>
        simp only [h0] at hpre ⊢
        exact ih p0 s0 p1 s1 p2 s2 hpre hc

/-- When the check returns true, some condition returned true after all the
conditions before it, evaluated in order, had returned false. -/
theorem abort_list_impl_check_true {R P S E : Type} (conds : List (AbortCondition R P S E))
    (r : R) :
    ∀ (p : P) (s : S) (p2 : P) (s2 : S),
      abort_list_impl_check conds r p s = Except.ok (true, p2, s2) →
      ∃ pre c post p1 s1, conds = pre ++ c :: post ∧
        abort_list_impl_check pre r p s = Except.ok (false, p1, s1) ∧
        c r p1 s1 = Except.ok (true, p2, s2) := by
  induction conds with
  | nil =>
    intro p s p2 s2 h
    simp [abort_list_impl_check] at h
  | cons c0 cs ih =>
    intro p s p2 s2 h
    simp only [abort_list_impl_check] at h
    cases h0 : c0 r p s with
    | error e => simp [h0] at h
    | ok v =>
      obtain ⟨b, p0, s0⟩ := v
      cases b with
      | true =>
        simp only [h0, Except.ok.injEq, Prod.mk.injEq, true_and] at h
        obtain ⟨hp, hs⟩ := h
        subst hp
        subst hs
        exact ⟨[], c0, cs, p, s, rfl, rfl, h0⟩
      | false =>
        simp only [h0] at h
        obtain ⟨pre, c, post, p1, s1, hsplit, hpre, hc⟩ := ih p0 s0 p2 s2 h
        refine ⟨c0 :: pre, c, post, p1, s1, by rw [hsplit]; rfl, ?_, hc⟩
        simp only [abort_list_impl_check, h0]
        exact hpre

/-- The check on conditions that neither fail nor change the states: the
disjunction of their values. -/
theorem abort_list_impl_check_pure {R P S E : Type} (fs : List (R → P → S → Bool))
    (r : R) (p : P) (s : S) :
    abort_list_impl_check
        (fs.map (fun f => (fun r p s => Except.ok (f r p s, p, s) : AbortCondition R P S E)))
        r p s
      = Except.ok (fs.any (fun f => f r p s), p, s) := by
  induction fs with
  | nil => rfl
  | cons f fs ih =>
    simp only [List.map_cons, abort_list_impl_check, List.any_cons]
    cases hf : f r p s with
    | true => simp
    | false => simpa using ih

/-- C19: the call operator of an `AbortList` runs the check of its
conditions in declaration order; it returns true exactly when some condition
returns true after all the conditions before it, evaluated in order, have
returned false, and then with the states that this condition leaves,
whatever conditions follow it: these are not evaluated.  For conditions that
neither fail nor change the states the result is true exactly when at least
one of them is true.  For the conditions false, true, failing-when-evaluated
the call returns true. -/
theorem abortList_short_circuit {R P S E : Type} :
    (∀ (l : AbortList R P S E) (r : R) (p : P) (s : S) (p2 : P) (s2 : S),
      l.call r p s = Except.ok (true, p2, s2) ↔
        ∃ pre c post p1 s1, l.tuple = pre ++ c :: post ∧
          abort_list_impl_check pre r p s = Except.ok (false, p1, s1) ∧
          c r p1 s1 = Except.ok (true, p2, s2)) ∧
    (∀ (pre : List (AbortCondition R P S E)) (c : AbortCondition R P S E)
        (post post2 : List (AbortCondition R P S E)) (r : R) (p : P) (s : S) (p1 : P) (s1 : S)
        (p2 : P) (s2 : S),
      abort_list_impl_check pre r p s = Except.ok (false, p1, s1) →
      c r p1 s1 = Except.ok (true, p2, s2) →
      AbortList.call ⟨pre ++ c :: post⟩ r p s = Except.ok (true, p2, s2) ∧
      AbortList.call ⟨pre ++ c :: post2⟩ r p s = Except.ok (true, p2, s2)) ∧
    (∀ (fs : List (R → P → S → Bool)) (r : R) (p : P) (s : S),
      AbortList.call
          (⟨fs.map (fun f => (fun r p s => Except.ok (f r p s, p, s)
            : AbortCondition R P S E))⟩ : AbortList R P S E) r p s
        = Except.ok (fs.any (fun f => f r p s), p, s)) ∧
    exampleAbortList.call () () () = Except.ok (true, (), ()) := by
  refine ⟨?_, ?_, ?_, rfl⟩
  · intro l r p s p2 s2
    constructor
    · exact abort_list_impl_check_true l.tuple r p s p2 s2
    · rintro ⟨pre, c, post, p1, s1, hsplit, hpre, hc⟩
      rw [AbortList.call, hsplit]
      exact abort_list_impl_check_append pre c post r p s p1 s1 p2 s2 hpre hc
  · intro pre c post post2 r p s p1 s1 p2 s2 hpre hc
    exact ⟨abort_list_impl_check_append pre c post r p s p1 s1 p2 s2 hpre hc,
      abort_list_impl_check_append pre c post2 r p s p1 s1 p2 s2 hpre hc⟩
  · intro fs r p s
    exact abort_list_impl_check_pure fs r p s

/-! ### StraightLineStepper: construction, then conversion -/

/-- In exact arithmetic (a linearly ordered field, no rounding): for track
parameters with non-zero momentum and charge `+1` or `-1`
(the square root being exact at the squared momentum), and for every
navigation direction and step-size guess, `convert(State(par, ndir, ssize))`
yields curvilinear parameters with the position, the momentum and the charge
of `par`, and the call leaves the state as it was. -/
theorem convert_init_roundTrip {K cstep : Type} [LinearOrderedField K]
    (ops : ConstrainedStepOps K cstep) (sqrt : K → K) (par : TrackParameters K)
    (ndir : NavigationDirection) (ssize : K)
    (hcharge : par.charge = 1 ∨ par.charge = -1)
    (hmom : Vector3D.dot par.momentum par.momentum ≠ 0)
    (hsqrt : IsSqrtAt sqrt (Vector3D.dot par.momentum par.momentum)) :
    (convert (State.init ops sqrt par ndir ssize)).position = par.position ∧
    (convert (State.init ops sqrt par ndir ssize)).momentum = par.momentum ∧
    (convert (State.init ops sqrt par ndir ssize)).charge = par.charge ∧
    (convertWithState (State.init ops sqrt par ndir ssize)).1
      = convert (State.init ops sqrt par ndir ssize) ∧
    (convertWithState (State.init ops sqrt par ndir ssize)).2
      = State.init ops sqrt par ndir ssize := by
  have hc0 : par.charge ≠ 0 := by
    rcases hcharge with h | h <;> rw [h] <;> norm_num
  have habs : |par.charge| = 1 := by
    rcases hcharge with h | h <;> rw [h] <;> norm_num
  have hnw := sqrt_ne_zero_of_isSqrtAt sqrt _ hsqrt hmom
  have hpos : 0 < sqrt (Vector3D.dot par.momentum par.momentum) :=
    lt_of_le_of_ne hsqrt.1 (Ne.symm hnw)
  obtain ⟨_, hm⟩ := State_momentum_init ops sqrt par ndir ssize hc0 hmom hsqrt
  refine ⟨rfl, ?_, ?_, rfl, rfl⟩
  · rw [hm, habs]
    simp only [Vector3D.divScalar, div_one]
  · show (if par.charge / sqrt (Vector3D.dot par.momentum par.momentum) > 0 then (1 : K)
        else -1) = par.charge
    rcases hcharge with h | h
    · rw [h, if_pos (div_pos one_pos hpos)]
    · rw [h, if_neg (not_lt.mpr (div_nonpos_of_nonpos_of_nonneg (by norm_num) hpos.le))]

/-- The squared momentum of the example parameters of negative charge is 1. -/
theorem exampleNegativeParameters_momentum_sq :
    Vector3D.dot exampleNegativeParameters.momentum exampleNegativeParameters.momentum
      = 1 * 1 := by
  norm_num [Vector3D.dot, exampleNegativeParameters]

/-- In exact arithmetic, at a concrete input: the parameters of charge `-1` with the momentum
`(1, 0, 0)`, the direction `backward` and the guess 7. -/
theorem convert_init_roundTrip_witness :
    (exampleNegativeParameters.charge = 1 ∨ exampleNegativeParameters.charge = -1) ∧
    Vector3D.dot exampleNegativeParameters.momentum exampleNegativeParameters.momentum ≠ 0 ∧
    (convert (State.init ratStepOps ratSurfaceOps.sqrt exampleNegativeParameters
        NavigationDirection.backward 7)).momentum = ⟨1, 0, 0⟩ ∧
    (convert (State.init ratStepOps ratSurfaceOps.sqrt exampleNegativeParameters
        NavigationDirection.backward 7)).charge = -1 := by
  have hc : exampleNegativeParameters.charge = 1 ∨ exampleNegativeParameters.charge = -1 :=
    Or.inr rfl
  have hm : Vector3D.dot exampleNegativeParameters.momentum
      exampleNegativeParameters.momentum ≠ 0 := by
    rw [exampleNegativeParameters_momentum_sq]
    norm_num
  obtain ⟨_, h2, h3, _, _⟩ :=
    convert_init_roundTrip ratStepOps ratSurfaceOps.sqrt exampleNegativeParameters
      NavigationDirection.backward 7 hc hm
      (isSqrtAt_ratSurfaceOps _ 1 (by norm_num) exampleNegativeParameters_momentum_sq)
  exact ⟨hc, hm, h2.trans rfl, h3.trans rfl⟩

/-! ### LineSurface: from local to global and back -/

/-- The normalised vector product of the axis with the momentum is
orthogonal to the axis. -/
theorem normalized_cross_orthogonal {K : Type} [LinearOrderedField K] (sqrt : K → K)
    (e m : Vector3D K) :
    Vector3D.dot (Vector3D.normalized sqrt (Vector3D.cross e m)) e = 0 := by
  rw [Vector3D.normalized, Vector3D.norm]
  generalize sqrt (Vector3D.dot (Vector3D.cross e m) (Vector3D.cross e m)) = nw
  simp only [Vector3D.dot, Vector3D.cross, Vector3D.divScalar]
  ring

/-- The scalar product of a non-zero vector with its normalised vector is
its exact length. -/
theorem dot_normalized_self {K : Type} [LinearOrderedField K] (sqrt : K → K) (v : Vector3D K)
    (hv : Vector3D.dot v v ≠ 0) (hs : IsSqrtAt sqrt (Vector3D.dot v v)) :
    Vector3D.dot v (Vector3D.normalized sqrt v) = sqrt (Vector3D.dot v v) := by
  have hnw := sqrt_ne_zero_of_isSqrtAt sqrt _ hs hv
  obtain ⟨_, hsq⟩ := hs
  rw [Vector3D.normalized, Vector3D.norm]
  generalize sqrt (Vector3D.dot v v) = nw at hnw hsq
  simp only [Vector3D.dot, Vector3D.divScalar] at hsq ⊢
  field_simp
  linear_combination -hsq

/-- The signed radius comes back: for `rho` the exact root of `r^2` and a
positive `nw`, the product of `rho` with the sign of `r * nw` is `r`. -/
theorem signed_abs {K : Type} [LinearOrderedField K] (r rho nw : K) (hr0 : 0 ≤ rho)
    (hr : rho * rho = r * r) (hnw : 0 < nw) :
    rho * (if r * nw < 0 then -1 else 1) = r := by
  have hprod : (rho - r) * (rho + r) = 0 := by linear_combination hr
  by_cases hcond : r * nw < 0
  · have hneg : r < 0 := by
      by_contra h
      exact absurd hcond (not_lt.mpr (mul_nonneg (not_lt.mp h) hnw.le))
    rw [if_pos hcond]
    rcases mul_eq_zero.mp hprod with h | h
    · linarith
    · linear_combination -h
  · have hnn : 0 ≤ r := by
      by_contra h
      exact hcond (mul_neg_of_neg_of_pos (not_le.mp h) hnw)
    rw [if_neg hcond, mul_one]
    rcases mul_eq_zero.mp hprod with h | h
    · linear_combination h
    · linarith

/-- In exact arithmetic (a linearly ordered field, no rounding): for a line
surface with a rigid placement, a momentum not parallel
to the axis and a local position `(r, z)` with `r` of either sign (the
square root being exact at `r^2` and at the squared length of `axis x mom`),
`globalToLocal(localToGlobal((r, z), mom), mom)` returns true and the local
position `(r, z)`. -/
theorem globalToLocal_localToGlobal {K B BC : Type} [LinearOrderedField K]
    (ops : SurfaceOps K B BC) (s : LineSurface K B) (lpos : Vector2D K) (mom : Vector3D K)
    (hrigid : (LineSurface.transform s).IsRigid)
    (hmom : Vector3D.dot (Vector3D.cross (LineSurface.lineDirection s) mom)
      (Vector3D.cross (LineSurface.lineDirection s) mom) ≠ 0)
    (hsqrtW : IsSqrtAt ops.sqrt
      (Vector3D.dot (Vector3D.cross (LineSurface.lineDirection s) mom)
        (Vector3D.cross (LineSurface.lineDirection s) mom)))
    (hsqrtR : IsSqrtAt ops.sqrt (lpos.loc0 * lpos.loc0)) :
    LineSurface.globalToLocal ops s (LineSurface.localToGlobal ops s lpos mom) mom
      = (true, lpos) := by
  -- the unit axis and the unit radial direction
  have hee : Vector3D.dot (LineSurface.lineDirection s) (LineSurface.lineDirection s) = 1 := by
    obtain ⟨h00, h11, h01, h2⟩ := hrigid
    show Vector3D.dot (LineSurface.transform s).col2 (LineSurface.transform s).col2 = 1
    rw [h2]
    exact cross_unit _ _ h00 h11 h01
  have huu := normalized_unit ops.sqrt _ hmom hsqrtW
  have hue := normalized_cross_orthogonal ops.sqrt (LineSurface.lineDirection s) mom
  have hwu := dot_normalized_self ops.sqrt _ hmom hsqrtW
  have hwe := dot_cross_left (LineSurface.lineDirection s) mom
  have hnw : 0 < ops.sqrt (Vector3D.dot (Vector3D.cross (LineSurface.lineDirection s) mom)
      (Vector3D.cross (LineSurface.lineDirection s) mom)) :=
    lt_of_le_of_ne hsqrtW.1 (Ne.symm (sqrt_ne_zero_of_isSqrtAt ops.sqrt _ hsqrtW hmom))
  -- the global point and its offset from the center
  have hG : LineSurface.localToGlobal ops s lpos mom
      = LineSurface.center s + Vector3D.smul lpos.loc1 (LineSurface.lineDirection s)
        + Vector3D.smul lpos.loc0
            (Vector3D.normalized ops.sqrt (Vector3D.cross (LineSurface.lineDirection s) mom)) := by
    simp only [LineSurface.localToGlobal, locZinGlobal_eq]
  have hd : LineSurface.localToGlobal ops s lpos mom - LineSurface.center s
      = Vector3D.smul lpos.loc1 (LineSurface.lineDirection s)
        + Vector3D.smul lpos.loc0
            (Vector3D.normalized ops.sqrt (Vector3D.cross (LineSurface.lineDirection s) mom)) := by
    rw [hG]
    simp only [Vector3D.add_def, Vector3D.sub_def, Vector3D.smul]
    ext <;> simp only <;> ring
  have hR : Vector3D.perp ops.sqrt
        ⟨Vector3D.dot (LineSurface.transform s).col0
            (LineSurface.localToGlobal ops s lpos mom - LineSurface.center s),
         Vector3D.dot (LineSurface.transform s).col1
            (LineSurface.localToGlobal ops s lpos mom - LineSurface.center s),
         Vector3D.dot (LineSurface.lineDirection s)
            (LineSurface.localToGlobal ops s lpos mom - LineSurface.center s)⟩
      = ops.sqrt
          (Vector3D.dot (LineSurface.localToGlobal ops s lpos mom - LineSurface.center s)
              (LineSurface.localToGlobal ops s lpos mom - LineSurface.center s)
            - Vector3D.dot (LineSurface.localToGlobal ops s lpos mom - LineSurface.center s)
                (LineSurface.lineDirection s)
              * Vector3D.dot (LineSurface.localToGlobal ops s lpos mom - LineSurface.center s)
                (LineSurface.lineDirection s)) := by
    rw [Vector3D.perp]
    exact congrArg ops.sqrt (transverse_sq_of_rigid _ hrigid _)
  simp only [LineSurface.globalToLocal, loc3Dframe_of_rigid s hrigid, hR]
  rw [hd]
  obtain ⟨hr0, hr⟩ := hsqrtR
  generalize ops.sqrt (Vector3D.dot (Vector3D.cross (LineSurface.lineDirection s) mom)
      (Vector3D.cross (LineSurface.lineDirection s) mom)) = nw at hwu hnw
  generalize Vector3D.normalized ops.sqrt (Vector3D.cross (LineSurface.lineDirection s) mom)
    = u at huu hue hwu
  generalize Vector3D.cross (LineSurface.lineDirection s) mom = w at hwu hwe
  generalize LineSurface.lineDirection s = e at hee hue hwe
  -- the three scalars that `globalToLocal` reads off the offset
  have hz : Vector3D.dot e (Vector3D.smul lpos.loc1 e + Vector3D.smul lpos.loc0 u)
      = lpos.loc1 := by
    simp only [Vector3D.dot, Vector3D.add_def, Vector3D.smul] at hee hue ⊢
    linear_combination lpos.loc1 * hee + lpos.loc0 * hue
  have hrr : Vector3D.dot (Vector3D.smul lpos.loc1 e + Vector3D.smul lpos.loc0 u)
        (Vector3D.smul lpos.loc1 e + Vector3D.smul lpos.loc0 u)
      - Vector3D.dot (Vector3D.smul lpos.loc1 e + Vector3D.smul lpos.loc0 u) e
        * Vector3D.dot (Vector3D.smul lpos.loc1 e + Vector3D.smul lpos.loc0 u) e
      = lpos.loc0 * lpos.loc0 := by
    simp only [Vector3D.dot, Vector3D.add_def, Vector3D.smul] at hee hue huu ⊢
    linear_combination
      (-(lpos.loc1 ^ 2 * (e.x * e.x + e.y * e.y + e.z * e.z))) * hee
      + (2 * lpos.loc0 * lpos.loc1
          - 2 * lpos.loc0 * lpos.loc1 * (e.x * e.x + e.y * e.y + e.z * e.z)
          - lpos.loc0 ^ 2 * (u.x * e.x + u.y * e.y + u.z * e.z)) * hue
      + lpos.loc0 ^ 2 * huu
  have hs : Vector3D.dot w (Vector3D.smul lpos.loc1 e + Vector3D.smul lpos.loc0 u)
      = lpos.loc0 * nw := by
    have hwe2 : Vector3D.dot w e = 0 := by
      simp only [Vector3D.dot] at hwe ⊢
      linear_combination hwe
    simp only [Vector3D.dot, Vector3D.add_def, Vector3D.smul] at hwe2 hwu ⊢
    linear_combination lpos.loc1 * hwe2 + lpos.loc0 * hwu
  rw [hrr, hz, hs]
  generalize ops.sqrt (lpos.loc0 * lpos.loc0) = rho at hr0 hr
  rw [signed_abs lpos.loc0 rho nw hr0 hr hnw]

/-- In exact arithmetic, at a concrete input: the example straw, the momentum `(0, 1, 0)`
and the local position `(-5, 3)`, of negative radius. -/
theorem globalToLocal_localToGlobal_witness :
    (LineSurface.transform exampleStraw).IsRigid ∧
    Vector3D.dot
      (Vector3D.cross (LineSurface.lineDirection exampleStraw) (⟨0, 1, 0⟩ : Vector3D ℚ))
      (Vector3D.cross (LineSurface.lineDirection exampleStraw) ⟨0, 1, 0⟩) ≠ 0 ∧
    LineSurface.globalToLocal ratSurfaceOps exampleStraw
        (LineSurface.localToGlobal ratSurfaceOps exampleStraw ⟨-5, 3⟩ ⟨0, 1, 0⟩) ⟨0, 1, 0⟩
      = (true, ⟨-5, 3⟩) := by
  have hrigid : (LineSurface.transform exampleStraw).IsRigid := identity_isRigid
  have hW : Vector3D.dot
        (Vector3D.cross (LineSurface.lineDirection exampleStraw) (⟨0, 1, 0⟩ : Vector3D ℚ))
        (Vector3D.cross (LineSurface.lineDirection exampleStraw) ⟨0, 1, 0⟩) = 1 * 1 := by
    norm_num [Vector3D.dot, Vector3D.cross, LineSurface.lineDirection,
      LineSurface.transform, exampleStraw, Transform3D.identity]
  have hmom : Vector3D.dot
        (Vector3D.cross (LineSurface.lineDirection exampleStraw) (⟨0, 1, 0⟩ : Vector3D ℚ))
        (Vector3D.cross (LineSurface.lineDirection exampleStraw) ⟨0, 1, 0⟩) ≠ 0 := by
    rw [hW]
    norm_num
  exact ⟨hrigid, hmom,
    globalToLocal_localToGlobal ratSurfaceOps exampleStraw ⟨-5, 3⟩ ⟨0, 1, 0⟩ hrigid hmom
      (isSqrtAt_ratSurfaceOps _ 1 (by norm_num) hW)
      (isSqrtAt_ratSurfaceOps _ 5 (by norm_num) (by norm_num))⟩

/-! ### Rounding to `double` -/

namespace Binary64

/-- The loop of `bitLength`, given fuel enough, returns a `k` with
`n < 2 ^ k`, and with `2 ^ (k - 1) ≤ n` for a positive `n`. -/
theorem bitLengthLoop_spec (fuel n : Nat) (h : n ≤ fuel) :
    n < 2 ^ bitLengthLoop fuel n ∧ (0 < n → 2 ^ (bitLengthLoop fuel n - 1) ≤ n) := by
  induction fuel generalizing n with
  | zero =>
    have hn : n = 0 := Nat.le_zero.mp h
    subst hn
    simp [bitLengthLoop]
  | succ fuel ih =>
    by_cases hn : n = 0
    · subst hn
      simp [bitLengthLoop]
    · have hpos : 0 < n := Nat.pos_of_ne_zero hn
      have hhalf : n / 2 ≤ fuel := by omega
      obtain ⟨h1, h2⟩ := ih (n / 2) hhalf
      have hdef : bitLengthLoop (fuel + 1) n = bitLengthLoop fuel (n / 2) + 1 := by
        simp [bitLengthLoop, hn]
      rw [hdef]
      constructor
      · rw [pow_succ]
        omega
      · intro _
        rw [Nat.add_sub_cancel]
        by_cases h0 : n / 2 = 0
        · have hk : bitLengthLoop fuel (n / 2) = 0 := by
            rw [h0]
            cases fuel <;> simp [bitLengthLoop]
          rw [hk]
          simpa using hpos
        · have h3 := h2 (Nat.pos_of_ne_zero h0)
          have hk : 0 < bitLengthLoop fuel (n / 2) := by
            by_contra hc
            have hz : bitLengthLoop fuel (n / 2) = 0 := by omega
            rw [hz] at h1
            simp at h1
            exact h0 h1
          have hp : 2 ^ bitLengthLoop fuel (n / 2)
              = 2 * 2 ^ (bitLengthLoop fuel (n / 2) - 1) := by
            rw [← pow_succ']
            congr 1
            omega
          rw [hp]
          omega

/-- The number of binary digits `k` of a positive `n`: `2 ^ (k - 1) ≤ n < 2 ^ k`. -/
theorem bitLength_spec (n : Nat) (h : 0 < n) :
    2 ^ (bitLength n - 1) ≤ n ∧ n < 2 ^ bitLength n ∧ 0 < bitLength n := by
  obtain ⟨h1, h2⟩ := bitLengthLoop_spec n n le_rfl
  refine ⟨h2 h, h1, ?_⟩
  by_contra hc
  have hz : bitLengthLoop n n = 0 := by
    unfold bitLength at hc
    omega
  rw [hz] at h1
  simp at h1
  omega

/-- The binary exponent of a positive rational is not above it:
`2 ^ ilog2 q ≤ q`. -/
theorem ilog2_le (q : ℚ) (hq : 0 < q) : (2 : ℚ) ^ ilog2 q ≤ q := by
  unfold ilog2
  simp only
  split_ifs with h
  · exact h
  · have hnum : 0 < q.num := Rat.num_pos.mpr hq
    have hnat : 0 < q.num.natAbs := Int.natAbs_pos.mpr (ne_of_gt hnum)
    obtain ⟨ha, _, hka⟩ := bitLength_spec q.num.natAbs hnat
    obtain ⟨_, hb, _⟩ := bitLength_spec q.den q.den_pos
    have h2 : (q.num.natAbs : ℚ) = (q.num : ℚ) := by
      rw [Nat.cast_natAbs, abs_of_pos hnum]
    have hmul : (q.num.natAbs : ℚ) = q * (q.den : ℚ) := by
      rw [h2]
      exact (Rat.mul_den_eq_num q).symm
    have hden : (0 : ℚ) < (q.den : ℚ) := by exact_mod_cast q.den_pos
    have ha2 : ((2 : ℚ) ^ (bitLength q.num.natAbs - 1)) ≤ (q.num.natAbs : ℚ) := by
      exact_mod_cast ha
    have hb2 : (q.den : ℚ) ≤ (2 : ℚ) ^ (bitLength q.den) := by
      exact_mod_cast le_of_lt hb
    have hexp : ((bitLength q.num.natAbs : Int) - (bitLength q.den : Int) - 1)
        = (((bitLength q.num.natAbs - 1 : Nat) : Int) - ((bitLength q.den : Nat) : Int)) := by
      omega
    rw [hexp, zpow_sub₀ (by norm_num : (2 : ℚ) ≠ 0), zpow_natCast, zpow_natCast]
    rw [div_le_iff₀ (by positivity)]
    calc (2 : ℚ) ^ (bitLength q.num.natAbs - 1) ≤ (q.num.natAbs : ℚ) := ha2
      _ = q * (q.den : ℚ) := hmul
      _ ≤ q * 2 ^ bitLength q.den := by
        exact mul_le_mul_of_nonneg_left hb2 (le_of_lt hq)

/-- Rounding to an integer does not go below the floor. -/
theorem floor_le_roundHalfEven (x : ℚ) : ⌊x⌋ ≤ roundHalfEven x := by
  unfold roundHalfEven
  simp only
  split_ifs <;> omega

/-- Rounding to an integer does not go above the floor plus 1, and is the
floor itself for an integer. -/
theorem roundHalfEven_le_neg_one (x : ℚ) (hx : x ≤ -1) : roundHalfEven x ≤ -1 := by
  have hfl : ⌊x⌋ ≤ -1 := by
    have h := Int.floor_le x
    have h2 : ((⌊x⌋ : Int) : ℚ) ≤ ((-1 : Int) : ℚ) := by
      push_cast
      linarith
    exact_mod_cast h2
  unfold roundHalfEven
  simp only
  split_ifs with h1 h2 h3
  · exact hfl
  · have hne : ((⌊x⌋ : Int) : ℚ) < x := by linarith
    have hlt : ((⌊x⌋ : Int) : ℚ) < ((-1 : Int) : ℚ) := by
      push_cast
      linarith
    have : ⌊x⌋ < -1 := by exact_mod_cast hlt
    omega
  · exact hfl
  · have h12 : x - (⌊x⌋ : ℚ) = 1 / 2 := le_antisymm (not_lt.mp h2) (not_lt.mp h1)
    have hlt : ((⌊x⌋ : Int) : ℚ) < ((-1 : Int) : ℚ) := by
      push_cast
      linarith
    have : ⌊x⌋ < -1 := by exact_mod_cast hlt
    omega

/-- The unit in the last place used to round a positive `q` that is at least
the least positive `double` is positive and not above `q`. -/
theorem ulp_le (q : ℚ) (hq : (1 : ℚ) / 2 ^ 1074 ≤ q) :
    (0 : ℚ) < 2 ^ (max (ilog2 q) (-1022) - 52) ∧ (2 : ℚ) ^ (max (ilog2 q) (-1022) - 52) ≤ q := by
  have hq0 : 0 < q := lt_of_lt_of_le (by positivity) hq
  refine ⟨by positivity, ?_⟩
  rcases le_total (ilog2 q) (-1022) with h | h
  · rw [max_eq_right h]
    have h2 : (2 : ℚ) ^ ((-1022 : Int) - 52) = 1 / 2 ^ 1074 := by
      rw [show ((-1022 : Int) - 52) = -((1074 : Nat) : Int) by norm_num, zpow_neg, zpow_natCast,
        one_div]
    rw [h2]
    exact hq
  · rw [max_eq_left h]
    calc (2 : ℚ) ^ (ilog2 q - 52) ≤ 2 ^ ilog2 q :=
          zpow_le_zpow_right₀ (by norm_num) (by omega)
      _ ≤ q := ilog2_le q hq0

/-- The value of `round` at a number that is not zero. -/
theorem round_of_ne_zero (q : ℚ) (hq : q ≠ 0) :
    round q
      = if 2 ^ 1024 - 2 ^ 971
            < |(roundHalfEven (q / 2 ^ (max (ilog2 |q|) (-1022) - 52)) : ℚ)
                * 2 ^ (max (ilog2 |q|) (-1022) - 52)| then
          infinity (decide (q < 0))
        else if (roundHalfEven (q / 2 ^ (max (ilog2 |q|) (-1022) - 52)) : ℚ)
                * 2 ^ (max (ilog2 |q|) (-1022) - 52) = 0 then
          zero (decide (q < 0))
        else finite ((roundHalfEven (q / 2 ^ (max (ilog2 |q|) (-1022) - 52)) : ℚ)
                * 2 ^ (max (ilog2 |q|) (-1022) - 52)) := by
  unfold round
  rw [if_neg hq]

/-- A positive exact result that is at least the least positive `double`
rounds to a positive `double` or to the positive infinity. -/
theorem round_pos (q : ℚ) (hq : (1 : ℚ) / 2 ^ 1074 ≤ q) :
    round q = posInf ∨ ∃ r, round q = finite r ∧ 0 < r := by
  have hq0 : 0 < q := lt_of_lt_of_le (by positivity) hq
  obtain ⟨hu0, hule⟩ := ulp_le q hq
  have habs : |q| = q := abs_of_pos hq0
  rw [round_of_ne_zero q (ne_of_gt hq0), habs]
  have hx : (1 : ℚ) ≤ q / 2 ^ (max (ilog2 q) (-1022) - 52) := by
    rw [le_div_iff₀ hu0, one_mul]
    exact hule
  have hfl : (1 : Int) ≤ ⌊q / 2 ^ (max (ilog2 q) (-1022) - 52)⌋ := by
    rw [Int.le_floor]
    exact_mod_cast hx
  have hr : (1 : Int) ≤ roundHalfEven (q / 2 ^ (max (ilog2 q) (-1022) - 52)) :=
    le_trans hfl (floor_le_roundHalfEven _)
  have hrq : (0 : ℚ) < (roundHalfEven (q / 2 ^ (max (ilog2 q) (-1022) - 52)) : ℚ) := by
    exact_mod_cast lt_of_lt_of_le zero_lt_one hr
  have hpos : (0 : ℚ) < (roundHalfEven (q / 2 ^ (max (ilog2 q) (-1022) - 52)) : ℚ)
      * 2 ^ (max (ilog2 q) (-1022) - 52) := mul_pos hrq hu0
  have hnlt : ¬ q < 0 := not_lt.mpr (le_of_lt hq0)
  split_ifs with h1 h2
  · left
    simp [infinity, hnlt]
  · exact absurd h2 (ne_of_gt hpos)
  · right
    exact ⟨_, rfl, hpos⟩

/-- A negative exact result that is at most the greatest negative `double`
rounds to a negative `double` or to the negative infinity. -/
theorem round_neg (q : ℚ) (hq : q ≤ -(1 / 2 ^ 1074)) :
    round q = negInf ∨ ∃ r, round q = finite r ∧ r < 0 := by
  have hq0 : q < 0 := lt_of_le_of_lt hq (by norm_num)
  have hq1 : (1 : ℚ) / 2 ^ 1074 ≤ -q := by linarith
  obtain ⟨hu0, hule⟩ := ulp_le (-q) hq1
  have habs : |q| = -q := abs_of_neg hq0
  rw [round_of_ne_zero q (ne_of_lt hq0), habs]
  have hx : q / 2 ^ (max (ilog2 (-q)) (-1022) - 52) ≤ -1 := by
    rw [div_le_iff₀ hu0]
    linarith
  have hr : roundHalfEven (q / 2 ^ (max (ilog2 (-q)) (-1022) - 52)) ≤ -1 :=
    roundHalfEven_le_neg_one _ hx
  have hrq : (roundHalfEven (q / 2 ^ (max (ilog2 (-q)) (-1022) - 52)) : ℚ) < 0 := by
    exact_mod_cast lt_of_le_of_lt hr (by norm_num)
  have hneg : (roundHalfEven (q / 2 ^ (max (ilog2 (-q)) (-1022) - 52)) : ℚ)
      * 2 ^ (max (ilog2 (-q)) (-1022) - 52) < 0 := mul_neg_of_neg_of_pos hrq hu0
  split_ifs with h1 h2
  · left
    simp [infinity, hq0]
  · exact absurd h2 (ne_of_lt hneg)
  · right
    exact ⟨_, rfl, hneg⟩

/-- A `double` that `round` returns is not negative when the exact result is
not, and its size is at most the largest finite `double`. -/
theorem round_finite (q r : ℚ) (h : round q = finite r) :
    (0 ≤ q → 0 ≤ r) ∧ |r| ≤ 2 ^ 1024 - 2 ^ 971 := by
  by_cases hq : q = 0
  · subst hq
    have h0 : round 0 = finite 0 := by
      unfold round
      rw [if_pos rfl]
    rw [h0] at h
    have hr : r = 0 := by
      injection h with h
      exact h.symm
    subst hr
    exact ⟨fun _ => le_rfl, by norm_num⟩
  · rw [round_of_ne_zero q hq] at h
    split_ifs at h with h1 h2
    · unfold infinity at h
      split_ifs at h
    · unfold zero at h
      split_ifs at h
      have hr : r = 0 := by
        injection h with h
        exact h.symm
      subst hr
      exact ⟨fun _ => le_rfl, by norm_num⟩
    · have hr : (roundHalfEven (q / 2 ^ (max (ilog2 |q|) (-1022) - 52)) : ℚ)
          * 2 ^ (max (ilog2 |q|) (-1022) - 52) = r := by
        injection h
      rw [← hr]
      refine ⟨fun hq0 => ?_, not_lt.mp h1⟩
      have hu0 : (0 : ℚ) < 2 ^ (max (ilog2 |q|) (-1022) - 52) := by positivity
      have hx : (0 : ℚ) ≤ q / 2 ^ (max (ilog2 |q|) (-1022) - 52) := div_nonneg hq0 (le_of_lt hu0)
      have hfl : (0 : Int) ≤ ⌊q / 2 ^ (max (ilog2 |q|) (-1022) - 52)⌋ := by
        rw [Int.le_floor]
        exact_mod_cast hx
      have hr0 : (0 : Int) ≤ roundHalfEven (q / 2 ^ (max (ilog2 |q|) (-1022) - 52)) :=
        le_trans hfl (floor_le_roundHalfEven _)
      have hrq : (0 : ℚ) ≤ (roundHalfEven (q / 2 ^ (max (ilog2 |q|) (-1022) - 52)) : ℚ) := by
        exact_mod_cast hr0
      exact mul_nonneg hrq (le_of_lt hu0)

/-- A finite value of the square root is not negative and at most the largest
finite `double`. -/
theorem sqrt_finite (a : Binary64) (n : ℚ) (h : sqrt a = finite n) :
    0 ≤ n ∧ n ≤ 2 ^ 1024 - 2 ^ 971 := by
  cases a with
  | finite q =>
    unfold sqrt at h
    simp only at h
    split_ifs at h with h1 h2
    · have hn : n = 0 := by
        injection h with h
        exact h.symm
      subst hn
      exact ⟨le_rfl, by norm_num⟩
    · obtain ⟨hnn, hmax⟩ := round_finite _ n h
      refine ⟨hnn ?_, le_trans (le_abs_self n) hmax⟩
      positivity
    · obtain ⟨hnn, hmax⟩ := round_finite _ n h
      refine ⟨hnn ?_, le_trans (le_abs_self n) hmax⟩
      positivity
    · obtain ⟨hnn, hmax⟩ := round_finite _ n h
      refine ⟨hnn ?_, le_trans (le_abs_self n) hmax⟩
      positivity
    · obtain ⟨hnn, hmax⟩ := round_finite _ n h
      refine ⟨hnn ?_, le_trans (le_abs_self n) hmax⟩
      positivity
  | negZero => simp [sqrt] at h
  | posInf => simp [sqrt] at h
  | negInf => simp [sqrt] at h
  | nan => simp [sqrt] at h

/-- The quotient of a `double` of size at least 1 by a positive finite
`double`: a `double` or an infinity of the sign of the numerator, not a zero
and not a NaN. -/
theorem div_of_one_le (c n : ℚ) (hc : 1 ≤ |c|) (hn0 : 0 < n)
    (hn : n ≤ 2 ^ 1024 - 2 ^ 971) :
    (0 < c → div (finite c) (finite n) = posInf
      ∨ ∃ r, div (finite c) (finite n) = finite r ∧ 0 < r) ∧
    (c < 0 → div (finite c) (finite n) = negInf
      ∨ ∃ r, div (finite c) (finite n) = finite r ∧ r < 0) := by
  have hc0 : c ≠ 0 := by
    intro h
    rw [h, abs_zero] at hc
    linarith
  have hdiv : div (finite c) (finite n) = round (c / n) := by
    simp [div, isInf, isZero, toRat, hc0, ne_of_gt hn0]
  have hsmall : (1 : ℚ) / 2 ^ 1074 ≤ 1 / n := by
    rw [div_le_div_iff₀ (by positivity) hn0, one_mul, one_mul]
    exact le_trans hn (by norm_num)
  rw [hdiv]
  constructor
  · intro hpos
    apply round_pos
    have h1 : 1 ≤ c := by rwa [abs_of_pos hpos] at hc
    calc (1 : ℚ) / 2 ^ 1074 ≤ 1 / n := hsmall
      _ ≤ c / n := div_le_div_of_nonneg_right h1 (le_of_lt hn0)
  · intro hneg
    apply round_neg
    have h1 : c ≤ -1 := by
      rw [abs_of_neg hneg] at hc
      linarith
    calc c / n ≤ -1 / n := div_le_div_of_nonneg_right h1 (le_of_lt hn0)
      _ = -(1 / n) := by ring
      _ ≤ -(1 / 2 ^ 1074) := by linarith

end Binary64

/-- The charge over momentum of a state built over `double` from parameters
whose charge has a size of at least 1 and whose momentum has a finite
non-zero length, as computed: it is not a zero, and it is greater than 0
exactly when the charge is. -/
theorem State_init_qop_sign {cstep : Type} (ops : ConstrainedStepOps Binary64 cstep)
    (par : TrackParameters Binary64) (ndir : NavigationDirection) (ssize : Binary64)
    (c nrm : ℚ) (hc : par.charge = Binary64.finite c) (h1 : 1 ≤ |c|)
    (hn : Vector3D.norm Binary64.sqrt par.momentum = Binary64.finite nrm) (hn0 : nrm ≠ 0) :
    Binary64.isZero (Double.State.init ops Binary64.sqrt par ndir ssize).qop = false ∧
    (0 < c → (Double.State.init ops Binary64.sqrt par ndir ssize).qop > 0) ∧
    (c < 0 → ¬ (Double.State.init ops Binary64.sqrt par ndir ssize).qop > 0) := by
  obtain ⟨hnn, hmax⟩ := Binary64.sqrt_finite _ nrm hn
  have hpos : 0 < nrm := lt_of_le_of_ne hnn (Ne.symm hn0)
  have hq : (Double.State.init ops Binary64.sqrt par ndir ssize).qop
      = Binary64.div (Binary64.finite c) (Binary64.finite nrm) := by
    show par.charge / Vector3D.norm Binary64.sqrt par.momentum = _
    rw [hc, hn]
    rfl
  obtain ⟨hp, hm⟩ := Binary64.div_of_one_le c nrm h1 hpos hmax
  have hc0 : c ≠ 0 := by
    intro h
    rw [h, abs_zero] at h1
    linarith
  rw [hq]
  rcases lt_or_gt_of_ne hc0 with hneg | hcpos
  · have hng : ¬ 0 < c := not_lt.mpr (le_of_lt hneg)
    rcases hm hneg with h | ⟨r, h, hr⟩
    · rw [h]
      exact ⟨rfl, fun h0 => absurd h0 hng, fun _ => by decide⟩
    · rw [h]
      refine ⟨?_, fun h0 => absurd h0 hng, fun _ => ?_⟩
      · simp [Binary64.isZero, ne_of_lt hr]
      · show ¬ Binary64.ltb (Binary64.finite 0) (Binary64.finite r) = true
        simp [Binary64.ltb, Binary64.toRat, le_of_lt hr]
  · have hng : ¬ c < 0 := not_lt.mpr (le_of_lt hcpos)
    rcases hp hcpos with h | ⟨r, h, hr⟩
    · rw [h]
      exact ⟨rfl, fun _ => by decide, fun h0 => absurd h0 hng⟩
    · rw [h]
      refine ⟨?_, fun _ => ?_, fun h0 => absurd h0 hng⟩
      · simp [Binary64.isZero, ne_of_gt hr]
      · show Binary64.ltb (Binary64.finite 0) (Binary64.finite r) = true
        simp [Binary64.ltb, Binary64.toRat, hr]

/-! ### The stepper over `double` -/

/-- The result of `intersectionEstimate` over `double` for the shifted straw
(center `(1, 0, 0)`, axis along z), the position `(2^53 + 2, 0, 0)` and the
direction `(1, 0, 0)`: the difference `1 - (2^53 + 2)` rounds to `-2^53`. -/
theorem intersectionEstimate_shifted_example :
    Double.LineSurface.intersectionEstimate doubleSurfaceOps doubleShiftedStraw
        (doubleVector (2 ^ 53 + 2) 0 0) (doubleVector 1 0 0) false false
      = ⟨doubleVector 2 0 0, Binary64.finite (-2 ^ 53), true⟩ := by
  decide!

/-- The result of `intersectionEstimate` over `double` for the straw with
axis along z through the origin, the position `(5, 5, 2)` and the direction
`(0.6, 0.8, 0)` rounded, whose length as computed is 1: the path length is
`-7` and the point is `(5 - 4.2, 5 - 5.6, 2)` rounded. -/
theorem intersectionEstimate_rounded_example :
    Vector3D.norm Binary64.sqrt ⟨Binary64.round (3 / 5), Binary64.round (4 / 5), 0⟩ = 1 ∧
    Double.LineSurface.intersectionEstimate doubleSurfaceOps doubleStraw
        (doubleVector 5 5 2) ⟨Binary64.round (3 / 5), Binary64.round (4 / 5), 0⟩ false false
      = ⟨⟨Binary64.finite (900719925474099 / 2 ^ 50),
          Binary64.finite (-675539944105575 / 2 ^ 50), Binary64.finite 2⟩,
        Binary64.finite (-7), true⟩ := by
  decide!

end Acts
